import Mathlib

/-!
# Yorc workflow planner and task registry: a verification development

Shallow embedding of

* `src/tasks/workflow.go` (`readStep`, `readWorkFlowFromConsul`),
* `src/tasks/structs_enum.go` (`TaskStatus`, `TaskType`, their `String` and parsers),
* `src/rest/dep_tasks.go` (`tasksPreChecks`, `cancelTaskHandler`,
  `updateTaskStepStatusHandler`).

Go values are modelled as follows.  A Go `string` is a Lean `String` (all keys handled
here are compared, concatenated and trimmed only).  A Go `map[string]*visitStep` is a
function `String → Option visitStep` (the code only looks keys up and stores them, it
never iterates over the map).  The Consul client `*api.KV` is an interface of the three
calls the code makes (`Get`, `List`, `Keys`), each of which may fail with a
communication error.  A Go function that returns `(value, error)`, may panic, or may
recurse without end is modelled with the four-way `Outcome`; recursion is bounded by an
explicit fuel argument and running out of fuel is the outcome `diverge`.
-/

namespace Yorc

/-! ## Go runtime helpers -/

/-- Result of running a Go function: a normal return, an `error` return, a runtime
panic, or no return at all (the recursion budget was exhausted). -/
inductive Outcome (α : Type) where
  | ok (v : α)
  | err (e : String)
  | panic (e : String)
  | diverge

/-- Drop the list `pre` from the front of `s` when `s` starts with it. -/
def dropPrefix? : List Char → List Char → Option (List Char)
  | s, [] => some s
  | [], _ :: _ => none
  | c :: s, d :: pre => if c = d then dropPrefix? s pre else none

/-- Go `strings.TrimPrefix(s, prefix)`: `s` without the leading `prefix`, or `s`
unchanged when it does not start with `prefix`. -/
def TrimPrefix (s pre : String) : String :=
  match dropPrefix? s.data pre.data with
  | some r => String.mk r
  | none => s

/-- Worker of `FieldsFunc`: `cur` is the field being read, in reverse. -/
def fieldsAux (f : Char → Bool) : List Char → List Char → List String
  | [], cur => if cur = [] then [] else [String.mk cur.reverse]
  | c :: s, cur =>
    if f c then
      (if cur = [] then fieldsAux f s [] else String.mk cur.reverse :: fieldsAux f s [])
    else fieldsAux f s (c :: cur)

/-- Go `strings.FieldsFunc(s, f)`: the maximal runs of characters not satisfying `f`. -/
def FieldsFunc (s : String) (f : Char → Bool) : List String :=
  fieldsAux f s.data []

/-! ## The Consul KV interface (`github.com/hashicorp/consul/api`) -/

/-- Consul `api.KVPair`, restricted to the two fields the code reads. -/
structure KVPair where
  Key : String
  Value : String
  deriving DecidableEq

/-- The three calls made on `*api.KV`.  `Except.error` is a communication error. -/
structure KV where
  Get : String → Except String (Option KVPair)
  Keys : String → String → Except String (List String)
  List : String → Except String (List KVPair)

/-- Take the characters of `s` up to and including the first `sep`. -/
def takeThrough (sep : Char) : List Char → List Char
  | [] => []
  | c :: s => if c = sep then [c] else c :: takeThrough sep s

/-- An in-memory KV store holding the listed pairs, answering as Consul does: `Get` is
an exact lookup, `List` returns the pairs whose key starts with the prefix, and `Keys`
returns the distinct keys under the prefix cut after the first separator.  No call
fails. -/
def memKV (store : List KVPair) : KV where
  Get k := .ok (store.find? (fun p => decide (p.Key = k)))
  Keys pre sep := .ok ((store.filterMap (fun p =>
    match dropPrefix? p.Key.data pre.data, sep.data with
    | some rest, [c] => some (pre ++ String.mk (takeThrough c rest))
    | some _, _ => some p.Key
    | none, _ => none)).eraseDups)
  List pre := .ok (store.filter (fun p => (dropPrefix? p.Key.data pre.data).isSome))

/-! ## `src/tasks/workflow.go` -/

/-- The three implementations of the `Activity` interface. -/
inductive Activity where
  | DelegateActivity (delegate : String)
  | SetStateActivity (state : String)
  | CallOperationActivity (operation : String)
  deriving DecidableEq

/-- `ActivityType()` of each implementation. -/
def Activity.ActivityType : Activity → String
  | .DelegateActivity _ => "delegate"
  | .SetStateActivity _ => "set-state"
  | .CallOperationActivity _ => "call-operation"

/-- `ActivityValue()` of each implementation. -/
def Activity.ActivityValue : Activity → String
  | .DelegateActivity d => d
  | .SetStateActivity s => s
  | .CallOperationActivity o => o

/-- Go `type Step struct`.  `Next []*Step` holds the successor records themselves: a
step is stored in the visited map only once it is complete and is not changed
afterwards, so the shared pointers are faithfully represented by values. -/
inductive Step where
  | mk (Name : String) (Node : String) (Activities : List Activity) (Next : List Step)

/-- Field `Name`. -/
def Step.Name : Step → String
  | .mk n _ _ _ => n

/-- Field `Node`. -/
def Step.Node : Step → String
  | .mk _ n _ _ => n

/-- Field `Activities`. -/
def Step.Activities : Step → List Activity
  | .mk _ _ a _ => a

/-- Field `Next`. -/
def Step.Next : Step → List Step
  | .mk _ _ _ n => n

/-- `IsTerminal`: the step has no successor. -/
def Step.IsTerminal (s : Step) : Bool := s.Next.length == 0

/-- Go `type visitStep struct`.  `refCount` is a Go `int`; it is only ever incremented,
once per stored `next` key, so it stays far below the machine bound and is a `Nat`. -/
structure visitStep where
  refCount : Nat
  step : Step

/-- Go `map[string]*visitStep`. -/
abbrev VisitedMap := String → Option visitStep

/-- The empty map made by `make(map[string]*visitStep, n)`. -/
def VisitedMap.empty : VisitedMap := fun _ => none

/-- Map assignment `m[k] = v`. -/
def VisitedMap.set (m : VisitedMap) (k : String) (v : visitStep) : VisitedMap :=
  fun x => if x = k then some v else m x

/-- The `for _, actKV := range kvPairs` loop of `readStep` (lines 85-97); `acc` is
`step.Activities` so far. -/
def readActivities (stepPrefix : String) : List KVPair → List Activity → Except String (List Activity)
  | [], acc => .ok acc
  | actKV :: rest, acc =>
    let key := TrimPrefix actKV.Key (stepPrefix ++ "/activity/")
    if key = "delegate" then
      readActivities stepPrefix rest (acc ++ [Activity.DelegateActivity actKV.Value])
    else if key = "set-state" then
      readActivities stepPrefix rest (acc ++ [Activity.SetStateActivity actKV.Value])
    else if key = "operation" then
      readActivities stepPrefix rest (acc ++ [Activity.CallOperationActivity actKV.Value])
    else .error ("Unsupported activity type: " ++ key)

/-- The `for _, nextKV := range kvPairs` loop of `readStep` (lines 104-121).  `rec` is
the recursive call `readStep(kv, stepsPrefix, ·, visitedMap)`, `next` is `step.Next` so
far, and the visited map is threaded through. -/
def readNext (rec : String → VisitedMap → Outcome (Step × VisitedMap)) (stepPrefix : String) :
    List KVPair → List Step → VisitedMap → Outcome (List Step × VisitedMap)
  | [], next, visitedMap => .ok (next, visitedMap)
  | nextKV :: rest, next, visitedMap =>
    let nextStepName := TrimPrefix nextKV.Key (stepPrefix ++ "/next/")
    let found : Outcome (Step × VisitedMap) :=
      match visitedMap nextStepName with
      | some vs => .ok (vs.step, visitedMap)
      | none => rec nextStepName visitedMap
    match found with
    | .ok (nextStep, visitedMap1) =>
      -- `visitedMap[nextStepName].refCount++`
      match visitedMap1 nextStepName with
      | some vs =>
        readNext rec stepPrefix rest (next ++ [nextStep])
          (visitedMap1.set nextStepName { vs with refCount := vs.refCount + 1 })
      | none => .panic "invalid memory address or nil pointer dereference"
    | .err e => .err e
    | .panic e => .panic e
    | .diverge => .diverge

/-- Go `readStep`.  The first argument bounds the depth of the recursion. -/
def readStep (kv : KV) (stepsPrefix : String) :
    Nat → String → VisitedMap → Outcome (Step × VisitedMap)
  | 0, _, _ => .diverge
  | fuel + 1, stepName, visitedMap =>
    let stepPrefix := stepsPrefix ++ stepName
    match kv.Get (stepPrefix ++ "/node") with
    | .error e => .err e
    | .ok none => .err ("Missing node attribute for step " ++ stepName)
    | .ok (some kvPair) =>
      match kv.List (stepPrefix ++ "/activity") with
      | .error e => .err e
      | .ok kvPairs =>
        if kvPairs.length = 0 then
          .err ("Activity missing for step " ++ stepName ++ ", this is not allowed.")
        else
          match readActivities stepPrefix kvPairs [] with
          | .error e => .err e
          | .ok activities =>
            match kv.List (stepPrefix ++ "/next") with
            | .error e => .err e
            | .ok nextPairs =>
              match readNext (readStep kv stepsPrefix fuel) stepPrefix nextPairs [] visitedMap with
              | .ok (next, visitedMap1) =>
                let step := Step.mk stepName kvPair.Value activities next
                .ok (step, visitedMap1.set stepName { refCount := 0, step := step })
              | .err e => .err e
              | .panic e => .panic e
              | .diverge => .diverge

/-- The first loop of `readWorkFlowFromConsul` (lines 138-150): every listed step that
is not yet in the visited map is read and appended to `potentialRoots`. -/
def readPotentialRoots (kv : KV) (stepsPrefix : String) (fuel : Nat) :
    List String → List Step → VisitedMap → Outcome (List Step × VisitedMap)
  | [], potentialRoots, visitedMap => .ok (potentialRoots, visitedMap)
  | stepPrefix :: rest, potentialRoots, visitedMap =>
    let stepFields := FieldsFunc stepPrefix (fun r => r == '/')
    match stepFields.getLast? with
    | none => .panic "index out of range [-1]"
    | some stepName =>
      match visitedMap stepName with
      | some _ => readPotentialRoots kv stepsPrefix fuel rest potentialRoots visitedMap
      | none =>
        match readStep kv stepsPrefix fuel stepName visitedMap with
        | .ok (step, visitedMap1) =>
          readPotentialRoots kv stepsPrefix fuel rest (potentialRoots ++ [step]) visitedMap1
        | .err e => .err e
        | .panic e => .panic e
        | .diverge => .diverge

/-- The second loop of `readWorkFlowFromConsul` (lines 152-157): keep the potential
roots whose `refCount` is zero. -/
def filterRoots (visitedMap : VisitedMap) : List Step → List Step → Outcome (List Step)
  | [], roots => .ok roots
  | step :: rest, roots =>
    match visitedMap step.Name with
    | none => .panic "invalid memory address or nil pointer dereference"
    | some vs =>
      if vs.refCount = 0 then filterRoots visitedMap rest (roots ++ [step])
      else filterRoots visitedMap rest roots

/-- The traversal part of `readWorkFlowFromConsul` (lines 130-150): the potential
roots together with the visited map, as they stand when the second loop starts. -/
def readWorkFlowVisit (kv : KV) (fuel : Nat) (wfPrefix : String) :
    Outcome (List Step × VisitedMap) :=
  let stepsPrefix := wfPrefix ++ "/steps/"
  match kv.Keys stepsPrefix "/" with
  | .error e => .err e
  | .ok stepsPrefixes =>
    readPotentialRoots kv stepsPrefix fuel stepsPrefixes [] VisitedMap.empty

/-- Go `readWorkFlowFromConsul`. -/
def readWorkFlowFromConsul (kv : KV) (fuel : Nat) (wfPrefix : String) : Outcome (List Step) :=
  match readWorkFlowVisit kv fuel wfPrefix with
  | .ok (potentialRoots, visitedMap) => filterRoots visitedMap potentialRoots []
  | .err e => .err e
  | .panic e => .panic e
  | .diverge => .diverge

/-! ## `src/tasks/structs_enum.go` -/

/-- Go `type TaskStatus int` (declared elsewhere in the package). -/
abbrev TaskStatus := Int

/-- Go `type TaskType int` (declared elsewhere in the package). -/
abbrev TaskType := Int

/-- Go string slicing `s[i:j]` (all sliced strings here are ASCII). -/
def slice (s : String) (i j : Nat) : String :=
  String.mk ((s.data.drop i).take (j - i))

/-- Go map lookup `m[k]` on a map literal, given as its list of entries. -/
def mapLookup {α β : Type} [DecidableEq α] (k : α) : List (α × β) → Option β
  | [] => none
  | (a, b) :: rest => if k = a then some b else mapLookup k rest

/-- Constant `TaskStatusINITIAL` (`iota` = 0). -/
def TaskStatusINITIAL : TaskStatus := 0
/-- Constant `TaskStatusRUNNING`. -/
def TaskStatusRUNNING : TaskStatus := 1
/-- Constant `TaskStatusDONE`. -/
def TaskStatusDONE : TaskStatus := 2
/-- Constant `TaskStatusFAILED`. -/
def TaskStatusFAILED : TaskStatus := 3
/-- Constant `TaskStatusCANCELED`. -/
def TaskStatusCANCELED : TaskStatus := 4

/-- Constant `_TaskStatusName`. -/
def _TaskStatusName : String := "INITIALRUNNINGDONEFAILEDCANCELED"

/-- Variable `_TaskStatusMap`. -/
def _TaskStatusMap : List (TaskStatus × String) :=
  [(0, slice _TaskStatusName 0 7),
   (1, slice _TaskStatusName 7 14),
   (2, slice _TaskStatusName 14 18),
   (3, slice _TaskStatusName 18 24),
   (4, slice _TaskStatusName 24 32)]

/-- Method `TaskStatus.String`. -/
def TaskStatus.String (x : TaskStatus) : String :=
  match mapLookup x _TaskStatusMap with
  | some str => str
  | none => "TaskStatus(" ++ toString x ++ ")"

/-- Variable `_TaskStatusValue`. -/
def _TaskStatusValue : List (String × TaskStatus) :=
  [(slice _TaskStatusName 0 7, 0),
   (slice _TaskStatusName 7 14, 1),
   (slice _TaskStatusName 14 18, 2),
   (slice _TaskStatusName 18 24, 3),
   (slice _TaskStatusName 24 32, 4)]

/-- Go `ParseTaskStatus`. -/
def ParseTaskStatus (name : String) : Except String TaskStatus :=
  match mapLookup name _TaskStatusValue with
  | some x => .ok x
  | none => .error (name ++ " is not a valid TaskStatus")

/-- Constant `TaskTypeDeploy` (`iota` = 0). -/
def TaskTypeDeploy : TaskType := 0
/-- Constant `TaskTypeUnDeploy`. -/
def TaskTypeUnDeploy : TaskType := 1
/-- Constant `TaskTypeScaleOut`. -/
def TaskTypeScaleOut : TaskType := 2
/-- Constant `TaskTypeScaleIn`. -/
def TaskTypeScaleIn : TaskType := 3
/-- Constant `TaskTypePurge`. -/
def TaskTypePurge : TaskType := 4
/-- Constant `TaskTypeCustomCommand`. -/
def TaskTypeCustomCommand : TaskType := 5
/-- Constant `TaskTypeCustomWorkflow`. -/
def TaskTypeCustomWorkflow : TaskType := 6
/-- Constant `TaskTypeQuery`. -/
def TaskTypeQuery : TaskType := 7
/-- Constant `TaskTypeAction`. -/
def TaskTypeAction : TaskType := 8
/-- Constant `TaskTypeForcePurge`: deprecated, kept to prevent task renumbering. -/
def TaskTypeForcePurge : TaskType := 9
/-- Constant `TaskTypeAddNodes`. -/
def TaskTypeAddNodes : TaskType := 10
/-- Constant `TaskTypeRemoveNodes`. -/
def TaskTypeRemoveNodes : TaskType := 11

/-- Constant `_TaskTypeName`. -/
def _TaskTypeName : String :=
  "DeployUnDeployScaleOutScaleInPurgeCustomCommandCustomWorkflowQueryActionForcePurgeAddNodesRemoveNodes"

/-- Variable `_TaskTypeMap`. -/
def _TaskTypeMap : List (TaskType × String) :=
  [(0, slice _TaskTypeName 0 6),
   (1, slice _TaskTypeName 6 14),
   (2, slice _TaskTypeName 14 22),
   (3, slice _TaskTypeName 22 29),
   (4, slice _TaskTypeName 29 34),
   (5, slice _TaskTypeName 34 47),
   (6, slice _TaskTypeName 47 61),
   (7, slice _TaskTypeName 61 66),
   (8, slice _TaskTypeName 66 72),
   (9, slice _TaskTypeName 72 82),
   (10, slice _TaskTypeName 82 90),
   (11, slice _TaskTypeName 90 101)]

/-- Method `TaskType.String`. -/
def TaskType.String (x : TaskType) : String :=
  match mapLookup x _TaskTypeMap with
  | some str => str
  | none => "TaskType(" ++ toString x ++ ")"

/-- Variable `_TaskTypeValue`. -/
def _TaskTypeValue : List (String × TaskType) :=
  [(slice _TaskTypeName 0 6, 0),
   (slice _TaskTypeName 6 14, 1),
   (slice _TaskTypeName 14 22, 2),
   (slice _TaskTypeName 22 29, 3),
   (slice _TaskTypeName 29 34, 4),
   (slice _TaskTypeName 34 47, 5),
   (slice _TaskTypeName 47 61, 6),
   (slice _TaskTypeName 61 66, 7),
   (slice _TaskTypeName 66 72, 8),
   (slice _TaskTypeName 72 82, 9),
   (slice _TaskTypeName 82 90, 10),
   (slice _TaskTypeName 90 101, 11)]

/-- Go `ParseTaskType`. -/
def ParseTaskType (name : String) : Except String TaskType :=
  match mapLookup name _TaskTypeValue with
  | some x => .ok x
  | none => .error (name ++ " is not a valid TaskType")

/-! ## Specification vocabulary for the workflow planner -/

/-- Name of the step a listed key prefix stands for: `stepFields[len(stepFields)-1]`. -/
def keyName (k : String) : Option String :=
  (FieldsFunc k (fun r => r == '/')).getLast?

/-- Names of the steps stored under the workflow: the last path component of every key
prefix that `kv.Keys(wfPrefix + "/steps/", "/")` lists. -/
def stepNames (kv : KV) (wfPrefix : String) : List String :=
  match kv.Keys (wfPrefix ++ "/steps/") "/" with
  | .ok ks => ks.filterMap keyName
  | .error _ => []

/-- Names that step `s` lists under `next`: the trimmed keys of
`kv.List(stepsPrefix + s + "/next")`. -/
def nextNames (kv : KV) (stepsPrefix s : String) : List String :=
  match kv.List (stepsPrefix ++ s ++ "/next") with
  | .ok ps => ps.map (fun p => TrimPrefix p.Key (stepsPrefix ++ s ++ "/next/"))
  | .error _ => []

/-- The activity that `readStep` builds for an activity key (trimmed) and its value;
`none` for a key it does not support. -/
def activityOfKey (key value : String) : Option Activity :=
  if key = "delegate" then some (Activity.DelegateActivity value)
  else if key = "set-state" then some (Activity.SetStateActivity value)
  else if key = "operation" then some (Activity.CallOperationActivity value)
  else none

/-- The step `s` is well-formed: it has a `node` attribute and at least one activity,
every activity is stored under a key `readStep` knows, and its `next` keys can be
listed. -/
def StepWellFormed (kv : KV) (sp s : String) : Prop :=
  (∃ node, kv.Get (sp ++ s ++ "/node") = .ok (some node)) ∧
  (∃ acts, kv.List (sp ++ s ++ "/activity") = .ok acts ∧ acts ≠ [] ∧
    ∀ a ∈ acts, TrimPrefix a.Key (sp ++ s ++ "/activity/") ∈
      ["delegate", "set-state", "operation"]) ∧
  (∃ ps, kv.List (sp ++ s ++ "/next") = .ok ps)

/-- The workflow stored under `wfPrefix` is well-formed: its steps can be listed, every
listed key names a step, every step is well-formed, and every `next` entry names a step
of the workflow. -/
def WorkflowWellFormed (kv : KV) (wfPrefix : String) : Prop :=
  (∃ ks, kv.Keys (wfPrefix ++ "/steps/") "/" = .ok ks ∧ ∀ k ∈ ks, (keyName k).isSome = true) ∧
  ∀ s ∈ stepNames kv wfPrefix,
    StepWellFormed kv (wfPrefix ++ "/steps/") s ∧
    ∀ n ∈ nextNames kv (wfPrefix ++ "/steps/") s, n ∈ stepNames kv wfPrefix

/-- The `next` edges of the workflow are acyclic: no step of the workflow reaches itself
along one or more edges. -/
def Acyclic (kv : KV) (wfPrefix : String) : Prop :=
  ∀ s ∈ stepNames kv wfPrefix,
    ¬ Relation.TransGen (fun a b => b ∈ nextNames kv (wfPrefix ++ "/steps/") a) s s

/-- The `next` edges of the workflow contain a cycle. -/
def Cyclic (kv : KV) (wfPrefix : String) : Prop :=
  ∃ s ∈ stepNames kv wfPrefix,
    Relation.TransGen (fun a b => b ∈ nextNames kv (wfPrefix ++ "/steps/") a) s s

/-- Recorded reference count of `n` (zero when `n` is not in the map). -/
def rc (vm : VisitedMap) (n : String) : Nat :=
  match vm n with
  | some vs => vs.refCount
  | none => 0

/-- Number of `next` entries naming `n` among the steps of `L`. -/
def inDeg (nx : String → List String) (L : List String) (n : String) : Nat :=
  (L.map (fun t => (nx t).count n)).sum

/-- `t` can be reached from the step record `s` by following `Next` links. -/
inductive Step.Reaches : Step → Step → Prop where
  | refl (s : Step) : Step.Reaches s s
  | next (s c t : Step) (hc : c ∈ s.Next) (ht : Step.Reaches c t) : Step.Reaches s t

/-- Entries of `vm` are kept, with the same step record, in `vm1`. -/
def Persist (vm vm1 : VisitedMap) : Prop :=
  ∀ t vs, vm t = some vs → ∃ vs1, vm1 t = some vs1 ∧ vs1.step = vs.step

/-- Invariant of the visited map: `L` lists its keys; the keys are closed under `next`
and can be ranked so that every edge goes down; every record carries its own name, the
names of its successors, and successor records that are the ones stored in the map. -/
structure Good (nx : String → List String) (vm : VisitedMap) (L : List String) : Prop where
  nodup : L.Nodup
  dom : ∀ s, s ∈ L ↔ ∃ vs, vm s = some vs
  ranked : ∃ rank : String → Nat, ∀ s ∈ L, ∀ n ∈ nx s, n ∈ L ∧ rank n < rank s
  name : ∀ s vs, vm s = some vs → vs.step.Name = s
  next : ∀ s vs, vm s = some vs → vs.step.Next.map Step.Name = nx s
  child : ∀ s vs, vm s = some vs → ∀ c ∈ vs.step.Next, ∃ vc, vm c.Name = some vc ∧ vc.step = c

/-- What a successful `readStep` of `s` from `(vm, L)` guarantees about its result. -/
structure StepPost (nx : String → List String) (vm : VisitedMap) (L : List String)
    (s : String) (st : Step) (vm1 : VisitedMap) : Prop where
  fresh : ∃ new, Good nx vm1 (L ++ new) ∧ s ∈ new ∧
    (∀ t ∈ new, Relation.ReflTransGen (fun a b => b ∈ nx a) s t) ∧
    (∀ n, rc vm1 n = rc vm n + inDeg nx new n) ∧
    (∀ t ∈ new, t = s ∨ 1 ≤ inDeg nx new t)
  entry : vm1 s = some { refCount := 0, step := st }
  persist : Persist vm vm1

/-- What a successful run of the `next` loop over `names` from `(vm, L)` guarantees. -/
structure LoopPost (nx : String → List String) (vm : VisitedMap) (L : List String)
    (names : List String) (acc next : List Step) (vm1 : VisitedMap) : Prop where
  fresh : ∃ new, Good nx vm1 (L ++ new) ∧
    (∀ t ∈ new, ∃ n ∈ names, Relation.ReflTransGen (fun a b => b ∈ nx a) n t) ∧
    (∀ n ∈ names, n ∈ L ++ new) ∧
    (∀ n, rc vm1 n = rc vm n + inDeg nx new n + names.count n) ∧
    (∀ t ∈ new, 1 ≤ inDeg nx new t + names.count t)
  steps : ∃ steps, next = acc ++ steps ∧ steps.map Step.Name = names ∧
    ∀ c ∈ steps, ∃ vc, vm1 c.Name = some vc ∧ vc.step = c
  persist : Persist vm vm1

/-- Invariant of the first loop of `readWorkFlowFromConsul`. -/
structure TopInv (nx : String → List String) (ks : List String) (pr : List Step)
    (vm : VisitedMap) (L : List String) : Prop where
  good : Good nx vm L
  count : ∀ n, rc vm n = inDeg nx L n
  prNodup : (pr.map Step.Name).Nodup
  prEntry : ∀ c ∈ pr, ∃ vc, vm c.Name = some vc ∧ vc.step = c
  prFrom : ∀ c ∈ pr, c.Name ∈ ks
  covered : ∀ t ∈ L, ∃ r ∈ pr, rc vm r.Name = 0 ∧
    Relation.ReflTransGen (fun a b => b ∈ nx a) r.Name t
  inner : ∀ t ∈ L, t ∉ pr.map Step.Name → 1 ≤ rc vm t

/-! ## Example stores -/

/-- A two-step workflow `A → B`. -/
def chainStore : List KVPair :=
  [⟨"wf/steps/A/activity/delegate", "install"⟩,
   ⟨"wf/steps/A/next/B", ""⟩,
   ⟨"wf/steps/A/node", "Compute"⟩,
   ⟨"wf/steps/B/activity/set-state", "started"⟩,
   ⟨"wf/steps/B/node", "App"⟩]

/-- A one-step workflow whose step lists itself under `next`. -/
def selfLoopStore : List KVPair :=
  [⟨"wf/steps/A/activity/delegate", "install"⟩,
   ⟨"wf/steps/A/next/A", ""⟩,
   ⟨"wf/steps/A/node", "Compute"⟩]

/-- A one-step workflow whose only activity is stored under `inline`. -/
def inlineStore : List KVPair :=
  [⟨"wf/steps/A/activity/inline", "sub-workflow"⟩,
   ⟨"wf/steps/A/node", "Compute"⟩]

/-! ## `src/rest/dep_tasks.go` and the task registry it calls -/

/-- The keys of the Consul store under which tasks live, as a map from key to value. -/
abbrev TaskStore := String → Option String

/-- Consul `kv.Put` on the in-memory store. -/
def TaskStore.put (kv : TaskStore) (k v : String) : TaskStore :=
  fun x => if x = k then some v else kv x

/-- The store holding exactly the listed entries (as `PopulateKV` builds it in
`src/tasks/tasks_test.go`). -/
def TaskStore.ofList (l : List (String × String)) : TaskStore :=
  fun k => mapLookup k l

/-- Modelled from the spec: `consulutil.TasksPrefix`, declared in a package whose source is not available;
the persisted layout of the spec (section 6) puts tasks under `_yorc/tasks/<id>/`. -/
def TasksPrefix : String := "_yorc/tasks"

/-- Key of one field of a task, `path.Join(consulutil.TasksPrefix, taskID, field)`, for
task identifiers that are plain path components. -/
def taskKey (taskID field : String) : String :=
  TasksPrefix ++ "/" ++ taskID ++ "/" ++ field

/-- Value of a decimal digit. -/
def digitVal (c : Char) : Option Nat :=
  if '0'.toNat ≤ c.toNat ∧ c.toNat ≤ '9'.toNat then some (c.toNat - '0'.toNat) else none

/-- Read a run of decimal digits, most significant first, onto `acc`. -/
def parseDigits : List Char → Nat → Option Nat
  | [], acc => some acc
  | c :: rest, acc =>
    match digitVal c with
    | some d => parseDigits rest (acc * 10 + d)
    | none => none

/-- Go `strconv.Atoi`: an optional sign followed by at least one decimal digit. -/
def Atoi (s : String) : Option Int :=
  match s.data with
  | [] => none
  | '-' :: rest => if rest = [] then none else (parseDigits rest 0).map (fun n => -(n : Int))
  | '+' :: rest => if rest = [] then none else (parseDigits rest 0).map (fun n => (n : Int))
  | rest => (parseDigits rest 0).map (fun n => (n : Int))

/-- Modelled from the spec: `tasks.TaskExists`, whose source is not available.  A task is
keyed under `tasks/<taskID>` (spec section 3) and `testTaskExists` expects `true` for a
stored task and `false`, without error, for an unknown one. -/
def TaskExists (kv : TaskStore) (taskID : String) : Except String Bool :=
  match kv (taskKey taskID "targetId") with
  | some _ => .ok true
  | none => .ok false

/-- Modelled from the spec: `tasks.GetTaskTarget`, whose source is not available.  It
returns the field `targetId` of the task and fails for an unknown task
(`testGetTaskTarget`). -/
def GetTaskTarget (kv : TaskStore) (taskID : String) : Except String String :=
  match kv (taskKey taskID "targetId") with
  | some v => .ok v
  | none => .error ("Missing targetId for task with id " ++ taskID)

/-- Modelled from the spec: `tasks.GetTaskStatus`, whose source is not available.  The
status is stored as the decimal code of the enumeration; a missing status, one that is
not an integer and a code outside INITIAL..CANCELED are errors (`testGetTaskStatus`). -/
def GetTaskStatus (kv : TaskStore) (taskID : String) : Except String TaskStatus :=
  match kv (taskKey taskID "status") with
  | none => .error ("Missing status for task with id " ++ taskID)
  | some v =>
    match Atoi v with
    | none => .error ("Invalid task status for task with id " ++ taskID)
    | some n =>
      if n < TaskStatusINITIAL ∨ n > TaskStatusCANCELED then
        .error ("Invalid status for task with id " ++ taskID)
      else .ok n

/-- Modelled from the spec: `tasks.CancelTask`, whose source is not available.  Cancel is
a sentinel `.canceledFlag` key and never modifies `status` (spec section 4.4);
`testCancelTask` expects the key to hold `"true"` afterwards. -/
def CancelTask (kv : TaskStore) (taskID : String) : Except String TaskStore :=
  .ok (kv.put (taskKey taskID ".canceledFlag") "true")

/-- Go `http.StatusOK`. -/
def StatusOK : Nat := 200
/-- Go `http.StatusAccepted`. -/
def StatusAccepted : Nat := 202
/-- Modelled from the spec: status written by `writeError(w, r, newBadRequestError(..))`
(the error helpers of package `rest` are not available; spec section 7: BadRequest is
400). -/
def StatusBadRequest : Nat := 400
/-- Modelled from the spec: status written by `writeError(w, r, errForbidden)` (spec
section 7: Forbidden is 403). -/
def StatusForbidden : Nat := 403
/-- Modelled from the spec: status written by `writeError(w, r, errNotFound)` (spec
section 7: NotFound is 404). -/
def StatusNotFound : Nat := 404

/-- What a handler leaves behind: the store, the HTTP status written to the response
writer (if any) and the message of `log.Panic` (if it panicked). -/
structure Response where
  store : TaskStore
  status : Option Nat
  panic : Option String

/-- Outcome of `tasksPreChecks`: `true`, `false` after writing an error status, or a
panic. -/
inductive PreCheck where
  | pass
  | reject (status : Nat)
  | panic (msg : String)
  deriving DecidableEq

/-- Go `(*Server).tasksPreChecks`. -/
def tasksPreChecks (kv : TaskStore) (id taskID : String) : PreCheck :=
  match TaskExists kv taskID with
  | .error e => .panic e
  | .ok tExists =>
    if !tExists then .reject StatusNotFound
    else
      match GetTaskTarget kv taskID with
      | .error e => .panic e
      | .ok ttid => if ttid ≠ id then .reject StatusBadRequest else .pass

/-- Go `(*Server).cancelTaskHandler`; `id` and `taskID` are the router parameters. -/
def cancelTaskHandler (kv : TaskStore) (id taskID : String) : Response :=
  match tasksPreChecks kv id taskID with
  | .reject c => { store := kv, status := some c, panic := none }
  | .panic e => { store := kv, status := none, panic := some e }
  | .pass =>
    match GetTaskStatus kv taskID with
    | .error e => { store := kv, status := none, panic := some e }
    | .ok taskStatus =>
      if taskStatus ≠ TaskStatusRUNNING ∧ taskStatus ≠ TaskStatusINITIAL then
        { store := kv, status := some StatusBadRequest, panic := none }
      else
        match CancelTask kv taskID with
        | .error e => { store := kv, status := none, panic := some e }
        | .ok kv1 => { store := kv1, status := some StatusAccepted, panic := none }

/-- Go `tasks.TaskStep` (declared elsewhere in package `tasks`): a step name and its
status in wire form. -/
structure TaskStep where
  Name : String
  Status : String
  deriving DecidableEq

/-- The functions of package `tasks` that `updateTaskStepStatusHandler` calls.  Their
source is not available; they are parameters of the handler. -/
structure StepRegistry where
  TaskStepExists : TaskStore → String → String → Except String (Bool × Option TaskStep)
  CheckTaskStepStatusChange : String → String → Except String Bool
  UpdateTaskStepStatus : TaskStore → String → TaskStep → Except String TaskStore

/-- Go `(*Server).updateTaskStepStatusHandler`; `body` is the request body after
`ioutil.ReadAll` and `json.Unmarshal` (an error of either panics). -/
def updateTaskStepStatusHandler (reg : StepRegistry) (kv : TaskStore)
    (deploymentID taskID stepID : String) (body : Except String TaskStep) : Response :=
  match tasksPreChecks kv deploymentID taskID with
  | .reject c => { store := kv, status := some c, panic := none }
  | .panic e => { store := kv, status := none, panic := some e }
  | .pass =>
    match reg.TaskStepExists kv taskID stepID with
    | .error e => { store := kv, status := none, panic := some e }
    | .ok (stExists, stepBefore) =>
      if !stExists then
        { store := kv, status := some StatusNotFound,
          panic := some "Unknown step related to this task" }
      else
        match body with
        | .error e => { store := kv, status := none, panic := some e }
        | .ok step =>
          match stepBefore with
          | none =>
            { store := kv, status := none,
              panic := some "invalid memory address or nil pointer dereference" }
          | some before =>
            match reg.CheckTaskStepStatusChange before.Status step.Status with
            | .error e => { store := kv, status := none, panic := some e }
            | .ok allowed =>
              if !allowed then
                { store := kv, status := some StatusForbidden,
                  panic := some ("The task step status update from " ++ before.Status ++
                    " to " ++ step.Status ++ " is forbidden") }
              else
                match reg.UpdateTaskStepStatus kv taskID step with
                | .error e => { store := kv, status := none, panic := some e }
                | .ok kv1 => { store := kv1, status := some StatusOK, panic := none }

/-- Modelled from the spec: the step transition table of section 4.4 (rows = from,
columns = to), over the wire names initial, running, done, error, canceled. -/
def stepTransitionAllowed (before after : String) : Bool :=
  (before == "initial" && (after == "running" || after == "done" || after == "error" ||
      after == "canceled")) ||
  (before == "running" && (after == "done" || after == "error" || after == "canceled")) ||
  (before == "error" && after == "running") ||
  (before == "canceled" && after == "running")

/-- Modelled from the spec: a step registry over the store, with steps keyed under
`tasks/<taskID>/steps/<stepName>` (section 3), transitions checked against the table of
section 4.4 and unknown status names rejected (section 9). -/
def specRegistry : StepRegistry where
  TaskStepExists kv taskID stepID :=
    match kv (taskKey taskID ("steps/" ++ stepID)) with
    | some v => .ok (true, some { Name := stepID, Status := v })
    | none => .ok (false, none)
  CheckTaskStepStatusChange before after :=
    if before ∈ ["initial", "running", "done", "error", "canceled"] ∧
        after ∈ ["initial", "running", "done", "error", "canceled"] then
      .ok (stepTransitionAllowed before after)
    else .error "not a valid TaskStepStatus"
  UpdateTaskStepStatus kv taskID step :=
    .ok (kv.put (taskKey taskID ("steps/" ++ step.Name)) step.Status)

/-- The task entries of `src/tasks/tasks_test.go` used here, with one step of task `t2`. -/
def testTaskStore : TaskStore :=
  TaskStore.ofList
    [("_yorc/tasks/t1/targetId", "id1"), ("_yorc/tasks/t1/status", "0"),
     ("_yorc/tasks/t2/targetId", "id1"), ("_yorc/tasks/t2/status", "1"),
     ("_yorc/tasks/t2/steps/Compute_create", "done"),
     ("_yorc/tasks/t3/targetId", "id2"), ("_yorc/tasks/t3/status", "2")]

/-! ## Go `path` helpers -/

/-- Join strings with `sep` between them (Go `strings.Join`). -/
def joinWith (sep : String) : List String → String
  | [] => ""
  | [a] => a
  | a :: b :: rest => a ++ sep ++ joinWith sep (b :: rest)

/-- Worker of `pathClean`: `acc` is the cleaned path so far, last component first. -/
def cleanComps (rooted : Bool) : List String → List String → List String
  | [], acc => acc.reverse
  | c :: rest, acc =>
    if c = "." then cleanComps rooted rest acc
    else if c = ".." then
      match acc with
      | [] => if rooted then cleanComps rooted rest [] else cleanComps rooted rest [".."]
      | a :: acc1 =>
        if a = ".." then cleanComps rooted rest (".." :: a :: acc1)
        else cleanComps rooted rest acc1
    else cleanComps rooted rest (c :: acc)

/-- Go `path.Clean`: single slashes, no `.` component, `..` resolved against the
component before it, `.` for the empty result. -/
def pathClean (s : String) : String :=
  let rooted := decide (s.data.head? = some '/')
  let comps := cleanComps rooted (FieldsFunc s (fun r => r == '/')) []
  if rooted then "/" ++ joinWith "/" comps
  else if comps = [] then "." else joinWith "/" comps

/-- Go `path.Join`: the non-empty elements joined by slashes and cleaned; the empty
string when there is no non-empty element. -/
def pathJoin (elems : List String) : String :=
  if elems.filter (fun e => decide (e ≠ "")) = [] then ""
  else pathClean (joinWith "/" (elems.filter (fun e => decide (e ≠ ""))))

/-- Go `path.Base`: the last element of the path, `.` for the empty path and `/` for a
path made of slashes only. -/
def pathBase (s : String) : String :=
  if s = "" then "."
  else
    match (FieldsFunc s (fun r => r == '/')).getLast? with
    | some l => l
    | none => "/"

/-- Go `%q` of a string without characters that need escaping. -/
def goQuote (s : String) : String := "\"" ++ s ++ "\""

/-- Go `errors.Wrap(err, msg)` and `errors.Wrapf`: `nil` for a `nil` error. -/
def errorsWrap (err : Option String) (msg : String) : Option String :=
  err.map (fun e => msg ++ ": " ++ e)

/-! ## `src/deployments/capabilities.go` -/

/-- Go result `(bool, string, error)` of the value lookups: found flag, value, error. -/
structure Found where
  found : Bool
  value : String
  err : Option String
  deriving DecidableEq

/-- The functions and the error-message constant of package `deployments` (and
`consulutil`) that `capabilities.go` uses and whose source is not available.  They are
parameters of the functions below; each reads the store it was built over.  A Go result
`(v, error)` is an `Except`; results whose values are returned together with the error
keep both. -/
structure Deployments where
  ConsulGenericErrMsg : String
  GetNodeType : (deploymentID nodeName : String) → Except String String
  GetParentType : (deploymentID typeName : String) → Except String String
  IsTypeDerivedFrom : (deploymentID nodeType derives : String) → Except String Bool
  TypeHasProperty : (deploymentID typeName propertyName : String) → (exploreParents : Bool) →
    Except String Bool
  TypeHasAttribute : (deploymentID typeName attributeName : String) →
    (exploreParents : Bool) → Except String Bool
  GetTypePropertyDataType : (deploymentID typeName propertyName : String) →
    Except String String
  GetTypeAttributeDataType : (deploymentID typeName attributeName : String) →
    Except String String
  getValueAssignmentWithDataType : (deploymentID vaPath nodeName instanceName
    requirementIndex vaDatatype : String) → (nestedKeys : List String) → Found
  getTypeDefaultProperty : (deploymentID typeName propertyName : String) →
    (nestedKeys : List String) → Except String (Bool × String × Bool)
  getTypeDefaultAttribute : (deploymentID typeName attributeName : String) →
    (nestedKeys : List String) → Except String (Bool × String × Bool)
  resolveValueAssignmentAsString : (deploymentID nodeName instanceName requirementIndex
    valueAssignment : String) → (nestedKeys : List String) → String × Option String
  GetHostedOnNode : (deploymentID nodeName : String) → Except String String
  IsTypePropertyRequired : (deploymentID typeName propertyName : String) →
    Except String Bool
  GetNestedDataType : (deploymentID baseType : String) → (nestedKeys : List String) →
    Except String String

/-- Modelled from the spec: `consulutil.DeploymentKVPrefix`, declared in a package whose
source is not available; the persisted layout of the spec (section 6) puts deployments
under `_yorc/deployments/<id>/`. -/
def DeploymentKVPrefix : String := "_yorc/deployments"

/-- The first loop of `GetCapabilitiesOfType` (lines 51-68); `capabilities` is the
result so far.  Returns the list together with the error, as the Go code does. -/
def capabilitiesLoop (kv : KV) (deps : Deployments) (deploymentID capabilityTypeName : String) :
    List String → List String → List String × Option String
  | [], capabilities => (capabilities, none)
  | capName :: rest, capabilities =>
    match kv.Get (pathJoin [capName, "type"]) with
    | .error e => (capabilities, errorsWrap (some e) deps.ConsulGenericErrMsg)
    | .ok none =>
      (capabilities, some ("Missing \"type\" key for type capability " ++ goQuote capName))
    | .ok (some kvp) =>
      if kvp.Value.length = 0 then
        (capabilities, some ("Missing \"type\" key for type capability " ++ goQuote capName))
      else
        match deps.IsTypeDerivedFrom deploymentID kvp.Value capabilityTypeName with
        | .error e => (capabilities, some e)
        | .ok isCorrectType =>
          if isCorrectType then
            capabilitiesLoop kv deps deploymentID capabilityTypeName rest
              (capabilities ++ [pathBase capName])
          else capabilitiesLoop kv deps deploymentID capabilityTypeName rest capabilities

/-- Go `GetCapabilitiesOfType`.  The first argument bounds the depth of the recursion;
`none` is the exhausted budget, `some (capabilities, err)` the Go result. -/
def GetCapabilitiesOfType (kv : KV) (deps : Deployments) :
    Nat → (deploymentID typeName capabilityTypeName : String) →
      Option (List String × Option String)
  | 0, _, _, _ => none
  | fuel + 1, deploymentID, typeName, capabilityTypeName =>
    let typePath := pathJoin [DeploymentKVPrefix, deploymentID, "topology", "types", typeName]
    match kv.Keys (typePath ++ "/capabilities/") "/" with
    | .error e => some ([], errorsWrap (some e) deps.ConsulGenericErrMsg)
    | .ok capabilitiesKeys =>
      match capabilitiesLoop kv deps deploymentID capabilityTypeName capabilitiesKeys [] with
      | (capabilities, some e) => some (capabilities, some e)
      | (capabilities, none) =>
        match deps.GetParentType deploymentID typeName with
        | .error e => some (capabilities, some e)
        | .ok parentType =>
          if parentType ≠ "" then
            match GetCapabilitiesOfType kv deps fuel deploymentID parentType
                capabilityTypeName with
            | none => none
            | some (_, some e) => some (capabilities, some e)
            | some (parentCapabilities, none) =>
              some (capabilities ++ parentCapabilities, none)
          else some (capabilities, none)

/-- Go `TypeHasCapability`. -/
def TypeHasCapability (kv : KV) (deps : Deployments) (fuel : Nat)
    (deploymentID typeName capabilityTypeName : String) : Option (Bool × Option String) :=
  (GetCapabilitiesOfType kv deps fuel deploymentID typeName capabilityTypeName).map
    (fun r => (decide (r.1.length > 0), r.2))

/-- Go `GetNodeTypeCapabilityType`.  The first argument bounds the depth of the
recursion; `none` is the exhausted budget. -/
def GetNodeTypeCapabilityType (kv : KV) (deps : Deployments) :
    Nat → (deploymentID nodeType capabilityName : String) → Option (Except String String)
  | 0, _, _, _ => none
  | fuel + 1, deploymentID, nodeType, capabilityName =>
    match kv.Get (pathJoin [DeploymentKVPrefix, deploymentID, "topology/types", nodeType,
        "capabilities", capabilityName, "type"]) with
    | .error e => some (.error (deps.ConsulGenericErrMsg ++ ": " ++ e))
    | .ok kvp =>
      if kvp.isSome ∧ (kvp.map (fun p => p.Value.length)).getD 0 ≠ 0 then
        some (.ok ((kvp.map (fun p => p.Value)).getD ""))
      else
        match deps.GetParentType deploymentID nodeType with
        | .error e => some (.error e)
        | .ok parentType =>
          if parentType = "" then some (.ok "")
          else GetNodeTypeCapabilityType kv deps fuel deploymentID parentType capabilityName

/-- Go `GetNodeCapabilityType`. -/
def GetNodeCapabilityType (kv : KV) (deps : Deployments) (fuel : Nat)
    (deploymentID nodeName capabilityName : String) : Option (Except String String) :=
  match deps.GetNodeType deploymentID nodeName with
  | .error e => some (.error e)
  | .ok nodeType => GetNodeTypeCapabilityType kv deps fuel deploymentID nodeType capabilityName

/-- Go `GetNodeTypeCapabilityProperty`.  The first argument bounds the depth of the
recursion. -/
def GetNodeTypeCapabilityProperty (deps : Deployments) :
    Nat → (deploymentID nodeType capabilityName propertyName propDataType : String) →
      Option Found
  | 0, _, _, _, _, _ => none
  | fuel + 1, deploymentID, nodeType, capabilityName, propertyName, propDataType =>
    let capPropPath := pathJoin [DeploymentKVPrefix, deploymentID, "topology/types", nodeType,
      "capabilities", capabilityName, "properties", propertyName]
    let r := deps.getValueAssignmentWithDataType deploymentID capPropPath "" "" "" propDataType []
    if r.err.isSome ∨ r.found = true then
      some { found := r.found, value := r.value,
             err := errorsWrap r.err ("Failed to get property " ++ goQuote propertyName ++
               " for capability " ++ goQuote capabilityName ++ " on node type " ++
               goQuote nodeType) }
    else
      match deps.GetParentType deploymentID nodeType with
      | .error e => some { found := false, value := "", err := some e }
      | .ok parentType =>
        if parentType = "" then some { found := false, value := "", err := none }
        else
          GetNodeTypeCapabilityProperty deps fuel deploymentID parentType capabilityName
            propertyName propDataType

/-- Lines 96-109 of `GetCapabilityProperty`: `hasProp` and `propDataType` for the
capability type (both zero values for the empty capability type). -/
def capabilityPropertyTyping (deps : Deployments) (deploymentID capabilityType propertyName : String) :
    Except String (Bool × String) :=
  if capabilityType ≠ "" then
    match deps.TypeHasProperty deploymentID capabilityType propertyName true with
    | .error e => .error e
    | .ok hasProp =>
      if hasProp then
        match deps.GetTypePropertyDataType deploymentID capabilityType propertyName with
        | .error e => .error e
        | .ok propDataType => .ok (true, propDataType)
      else .ok (false, "")
  else .ok (false, "")

/-- Lines 155-186 of `GetCapabilityProperty`: the value was found nowhere; an optional
property, or an optional last nested key, still counts as found with the empty value. -/
def capabilityPropertyNotFound (deps : Deployments) (deploymentID capabilityType propertyName : String)
    (hasProp : Bool) (propDataType : String) (nestedKeys : List String) : Found :=
  if hasProp = true ∧ capabilityType ≠ "" then
    match deps.IsTypePropertyRequired deploymentID capabilityType propertyName with
    | .error e => { found := false, value := "", err := some e }
    | .ok isRequired =>
      if !isRequired then { found := true, value := "", err := none }
      else if nestedKeys.length > 1 ∧ propDataType ≠ "" then
        match deps.GetNestedDataType deploymentID propDataType nestedKeys.dropLast with
        | .error e => { found := false, value := "", err := some e }
        | .ok nestedKeyType =>
          match deps.IsTypePropertyRequired deploymentID nestedKeyType
              (nestedKeys.getLast?.getD "") with
          | .error e => { found := false, value := "", err := some e }
          | .ok isRequired1 =>
            if !isRequired1 then { found := true, value := "", err := none }
            else { found := false, value := "", err := none }
      else { found := false, value := "", err := none }
  else { found := false, value := "", err := none }

/-- The key of the node-level assignment of a capability property (line 111). -/
def capPropPath (deploymentID nodeName capabilityName propertyName : String) : String :=
  pathJoin [DeploymentKVPrefix, deploymentID, "topology/nodes", nodeName, "capabilities",
    capabilityName, "properties", propertyName]

/-- Go `GetCapabilityProperty`.  The first argument bounds the depth of every recursion
(the HostedOn chain and the type hierarchies); `none` is the exhausted budget. -/
def GetCapabilityProperty (kv : KV) (deps : Deployments) :
    Nat → (deploymentID nodeName capabilityName propertyName : String) →
      (nestedKeys : List String) → Option Found
  | 0, _, _, _, _, _ => none
  | fuel + 1, deploymentID, nodeName, capabilityName, propertyName, nestedKeys =>
    match GetNodeCapabilityType kv deps (fuel + 1) deploymentID nodeName capabilityName with
    | none => none
    | some (.error e) => some { found := false, value := "", err := some e }
    | some (.ok capabilityType) =>
      match capabilityPropertyTyping deps deploymentID capabilityType propertyName with
      | .error e => some { found := false, value := "", err := some e }
      | .ok (hasProp, propDataType) =>
        let r := deps.getValueAssignmentWithDataType deploymentID
          (capPropPath deploymentID nodeName capabilityName propertyName) nodeName "" ""
          propDataType nestedKeys
        if r.err.isSome ∨ r.found = true then
          some { found := r.found, value := r.value,
                 err := errorsWrap r.err ("Failed to get property " ++ goQuote propertyName ++
                   " for capability " ++ goQuote capabilityName ++ " on node " ++
                   goQuote nodeName) }
        else
          match deps.GetNodeType deploymentID nodeName with
          | .error e => some { found := false, value := "", err := some e }
          | .ok nodeType =>
            match GetNodeTypeCapabilityProperty deps (fuel + 1) deploymentID nodeType
                capabilityName propertyName propDataType with
            | none => none
            | some r1 =>
              if r1.err.isSome ∨ r1.found = true then some r1
              else
                let viaHost : Option Found :=
                  match deps.GetHostedOnNode deploymentID nodeName with
                  | .error e => some { found := false, value := "", err := some e }
                  | .ok host =>
                    let giveUp := capabilityPropertyNotFound deps deploymentID capabilityType
                      propertyName hasProp propDataType nestedKeys
                    if host ≠ "" then
                      match GetCapabilityProperty kv deps fuel deploymentID host capabilityName
                          propertyName nestedKeys with
                      | none => none
                      | some r2 => if r2.err.isSome ∨ r2.found = true then some r2 else some giveUp
                    else some giveUp
                if capabilityType ≠ "" then
                  match deps.getTypeDefaultProperty deploymentID capabilityType propertyName
                      nestedKeys with
                  | .error e => some { found := false, value := "", err := some e }
                  | .ok (found, result, isFunction) =>
                    if found then
                      if !isFunction then some { found := true, value := result, err := none }
                      else
                        let res := deps.resolveValueAssignmentAsString deploymentID nodeName
                          "" "" result nestedKeys
                        some { found := true, value := res.1, err := res.2 }
                    else viaHost
                else viaHost

/-- The key of the instance-level assignment of a capability attribute (line 215). -/
def capAttrPath (deploymentID nodeName instanceName capabilityName attributeName : String) :
    String :=
  pathJoin [DeploymentKVPrefix, deploymentID, "topology/instances", nodeName, instanceName,
    "capabilities", capabilityName, "attributes", attributeName]

/-- The key of the node-level assignment of a capability attribute (line 223). -/
def nodeCapPath (deploymentID nodeName capabilityName attributeName : String) : String :=
  pathJoin [DeploymentKVPrefix, deploymentID, "topology/nodes", nodeName, "capabilities",
    capabilityName, "attributes", attributeName]

/-- Lines 200-212 of `GetInstanceCapabilityAttribute`: `attrDataType` for the capability
type (empty for the empty capability type or an undeclared attribute). -/
def capabilityAttributeTyping (deps : Deployments) (deploymentID capabilityType attributeName : String) :
    Except String String :=
  if capabilityType ≠ "" then
    match deps.TypeHasAttribute deploymentID capabilityType attributeName true with
    | .error e => .error e
    | .ok hasProp =>
      if hasProp then deps.GetTypeAttributeDataType deploymentID capabilityType attributeName
      else .ok ""
  else .ok ""

/-- Go `GetInstanceCapabilityAttribute`.  The first argument bounds the depth of every
recursion; `none` is the exhausted budget. -/
def GetInstanceCapabilityAttribute (kv : KV) (deps : Deployments) :
    Nat → (deploymentID nodeName instanceName capabilityName attributeName : String) →
      (nestedKeys : List String) → Option Found
  | 0, _, _, _, _, _, _ => none
  | fuel + 1, deploymentID, nodeName, instanceName, capabilityName, attributeName, nestedKeys =>
    match GetNodeCapabilityType kv deps (fuel + 1) deploymentID nodeName capabilityName with
    | none => none
    | some (.error e) => some { found := false, value := "", err := some e }
    | some (.ok capabilityType) =>
      match capabilityAttributeTyping deps deploymentID capabilityType attributeName with
      | .error e => some { found := false, value := "", err := some e }
      | .ok attrDataType =>
        let wrapMsg := "Failed to get attribute " ++ goQuote attributeName ++
          " for capability " ++ goQuote capabilityName ++ " on node " ++ goQuote nodeName ++
          " (instance " ++ goQuote instanceName ++ ")"
        let r := deps.getValueAssignmentWithDataType deploymentID
          (capAttrPath deploymentID nodeName instanceName capabilityName attributeName)
          nodeName instanceName "" attrDataType nestedKeys
        if r.err.isSome ∨ r.found = true then
          some { found := r.found, value := r.value, err := errorsWrap r.err wrapMsg }
        else
          let r1 := deps.getValueAssignmentWithDataType deploymentID
            (nodeCapPath deploymentID nodeName capabilityName attributeName)
            nodeName instanceName "" attrDataType nestedKeys
          if r1.err.isSome ∨ r1.found = true then
            some { found := r1.found, value := r1.value, err := errorsWrap r1.err wrapMsg }
          else
            let viaHost : Option Found :=
              match deps.GetHostedOnNode deploymentID nodeName with
              | .error e => some { found := false, value := "", err := some e }
              | .ok host =>
                let asProperty := GetCapabilityProperty kv deps (fuel + 1) deploymentID nodeName
                  capabilityName attributeName nestedKeys
                if host ≠ "" then
                  match GetInstanceCapabilityAttribute kv deps fuel deploymentID host
                      instanceName capabilityName attributeName nestedKeys with
                  | none => none
                  | some r2 => if r2.err.isSome ∨ r2.found = true then some r2 else asProperty
                else asProperty
            if capabilityType ≠ "" then
              match deps.getTypeDefaultAttribute deploymentID capabilityType attributeName
                  nestedKeys with
              | .error e => some { found := false, value := "", err := some e }
              | .ok (found, result, isFunction) =>
                if found then
                  if !isFunction then some { found := true, value := result, err := none }
                  else
                    let res := deps.resolveValueAssignmentAsString deploymentID nodeName
                      instanceName "" result nestedKeys
                    some { found := true, value := res.1, err := res.2 }
                else viaHost
            else viaHost

/-! ## A small deployment for the capability lookups -/

/-- The variable part of the example deployment: the stored value assignments by key,
the capability-type default of property `port`, and whether `port` and the nested key
`low` of its data type are required. -/
structure Scenario where
  values : List (String × String)
  portDefault : Option String
  portRequired : Bool
  lowRequired : Bool

/-- The type part of the example deployment: node types `WebType` and `AppType` both
carry a capability `endpoint` of capability type `Endpoint`. -/
def scenarioKV : KV :=
  memKV
    [⟨"_yorc/deployments/dep/topology/types/AppType/capabilities/endpoint/type", "Endpoint"⟩,
     ⟨"_yorc/deployments/dep/topology/types/WebType/capabilities/endpoint/type", "Endpoint"⟩]

/-- Modelled from the spec: the example deployment of scenario S5 (section 8), extended
with a hosted node.  Node `web` has type `WebType`, node `app` has type `AppType` and is
HostedOn `web`; capability type `Endpoint` declares the property `port` (data type
`PortRange`, with nested key `low`) and the attribute `ip_address`; value assignments
are looked up by key in `sc.values`. -/
def scenarioDeps (sc : Scenario) : Deployments where
  ConsulGenericErrMsg := "Consul communication error"
  GetNodeType _ nodeName :=
    if nodeName = "web" then .ok "WebType"
    else if nodeName = "app" then .ok "AppType"
    else .error ("Missing mandatory parameter \"type\" on node " ++ goQuote nodeName)
  GetParentType _ _ := .ok ""
  IsTypeDerivedFrom _ nodeType derives := .ok (decide (nodeType = derives))
  TypeHasProperty _ typeName propertyName _ :=
    .ok (decide (typeName = "Endpoint" ∧ propertyName = "port"))
  TypeHasAttribute _ typeName attributeName _ :=
    .ok (decide (typeName = "Endpoint" ∧ attributeName = "ip_address"))
  GetTypePropertyDataType _ _ _ := .ok "PortRange"
  GetTypeAttributeDataType _ _ _ := .ok "string"
  getValueAssignmentWithDataType _ vaPath _ _ _ _ _ :=
    match mapLookup vaPath sc.values with
    | some v => { found := true, value := v, err := none }
    | none => { found := false, value := "", err := none }
  getTypeDefaultProperty _ typeName propertyName _ :=
    match sc.portDefault with
    | some d =>
      if typeName = "Endpoint" ∧ propertyName = "port" then .ok (true, d, false)
      else .ok (false, "", false)
    | none => .ok (false, "", false)
  getTypeDefaultAttribute _ _ _ _ := .ok (false, "", false)
  resolveValueAssignmentAsString _ _ _ _ valueAssignment _ := (valueAssignment, none)
  GetHostedOnNode _ nodeName := if nodeName = "app" then .ok "web" else .ok ""
  IsTypePropertyRequired _ typeName propertyName :=
    if typeName = "Endpoint" ∧ propertyName = "port" then .ok sc.portRequired
    else if typeName = "PortRange" ∧ propertyName = "low" then .ok sc.lowRequired
    else .ok true
  GetNestedDataType _ baseType _ := .ok baseType

/-- Scenario S5, first half: only the capability-type default `80`. -/
def s5Default : Scenario :=
  { values := [], portDefault := some "80", portRequired := true, lowRequired := true }

/-- Scenario S5, second half: the node-level value `8080` is set as well. -/
def s5NodeLevel : Scenario :=
  { values := [("_yorc/deployments/dep/topology/nodes/web/capabilities/endpoint/properties/port",
      "8080")],
    portDefault := some "80", portRequired := true, lowRequired := true }

/-- The node type `WebType` assigns `8000` to `port`, next to the capability-type
default `80`. -/
def nodeTypeValue : Scenario :=
  { values := [("_yorc/deployments/dep/topology/types/WebType/capabilities/endpoint/properties/port",
      "8000")],
    portDefault := some "80", portRequired := true, lowRequired := true }

/-- No value anywhere; `port` is required but the nested key `low` is optional. -/
def nothingStored (portRequired lowRequired : Bool) : Scenario :=
  { values := [], portDefault := none, portRequired := portRequired,
    lowRequired := lowRequired }

/-- The hosting node `web` holds `ip_address` of capability `endpoint` for each of its
instances `0` and `1`, at instance level; the hosted node `app` holds nothing. -/
def hostHasAddresses : Scenario :=
  { values := [("_yorc/deployments/dep/topology/instances/web/0/capabilities/endpoint/attributes/ip_address",
      "10.0.0.1"),
     ("_yorc/deployments/dep/topology/instances/web/1/capabilities/endpoint/attributes/ip_address",
      "10.0.0.2")],
    portDefault := none, portRequired := true, lowRequired := true }

/-- The hosting node `web` holds `ip_address` of capability `endpoint` at node level, for
all its instances; the hosted node `app` holds nothing. -/
def hostHasNodeAddress : Scenario :=
  { values := [("_yorc/deployments/dep/topology/nodes/web/capabilities/endpoint/attributes/ip_address",
      "10.0.0.9")],
    portDefault := none, portRequired := true, lowRequired := true }

/-- The node `nodeName` defines the capability attribute for the instance
`instanceName`, with value `v`: the first of the three levels that
`GetInstanceCapabilityAttribute` reads on a node before it turns to the host (the
instance-scoped assignment, the node-level assignment, the default of the capability
type, resolved when it is a function) that holds a value holds `v`, without error. -/
def HoldsCapabilityAttribute (deps : Deployments)
    (deploymentID nodeName instanceName capabilityName attributeName : String)
    (nestedKeys : List String) (capabilityType attrDataType v : String) : Prop :=
  deps.getValueAssignmentWithDataType deploymentID
      (capAttrPath deploymentID nodeName instanceName capabilityName attributeName)
      nodeName instanceName "" attrDataType nestedKeys =
    { found := true, value := v, err := none } ∨
  ((deps.getValueAssignmentWithDataType deploymentID
        (capAttrPath deploymentID nodeName instanceName capabilityName attributeName)
        nodeName instanceName "" attrDataType nestedKeys).found = false ∧
    (deps.getValueAssignmentWithDataType deploymentID
        (capAttrPath deploymentID nodeName instanceName capabilityName attributeName)
        nodeName instanceName "" attrDataType nestedKeys).err = none ∧
    deps.getValueAssignmentWithDataType deploymentID
        (nodeCapPath deploymentID nodeName capabilityName attributeName)
        nodeName instanceName "" attrDataType nestedKeys =
      { found := true, value := v, err := none }) ∨
  ((deps.getValueAssignmentWithDataType deploymentID
        (capAttrPath deploymentID nodeName instanceName capabilityName attributeName)
        nodeName instanceName "" attrDataType nestedKeys).found = false ∧
    (deps.getValueAssignmentWithDataType deploymentID
        (capAttrPath deploymentID nodeName instanceName capabilityName attributeName)
        nodeName instanceName "" attrDataType nestedKeys).err = none ∧
    (deps.getValueAssignmentWithDataType deploymentID
        (nodeCapPath deploymentID nodeName capabilityName attributeName)
        nodeName instanceName "" attrDataType nestedKeys).found = false ∧
    (deps.getValueAssignmentWithDataType deploymentID
        (nodeCapPath deploymentID nodeName capabilityName attributeName)
        nodeName instanceName "" attrDataType nestedKeys).err = none ∧
    capabilityType ≠ "" ∧
    (deps.getTypeDefaultAttribute deploymentID capabilityType attributeName nestedKeys =
        .ok (true, v, false) ∨
      ∃ d, deps.getTypeDefaultAttribute deploymentID capabilityType attributeName nestedKeys =
          .ok (true, d, true) ∧
        deps.resolveValueAssignmentAsString deploymentID nodeName instanceName "" d
          nestedKeys = (v, none)))

/-! ## Specification vocabulary for `GetCapabilitiesOfType` -/

/-- Keys of the capabilities that the type `typeName` defines itself, as listed by
`kv.Keys(typePath + "/capabilities/", "/")`. -/
def capabilityKeys (kv : KV) (deploymentID typeName : String) : List String :=
  match kv.Keys (pathJoin [DeploymentKVPrefix, deploymentID, "topology", "types", typeName] ++
      "/capabilities/") "/" with
  | .ok ks => ks
  | .error _ => []

/-- The capability stored under key `capName` carries a type and that type is derived
from `capabilityTypeName`. -/
def capabilityMatches (kv : KV) (deps : Deployments) (deploymentID capabilityTypeName : String)
    (capName : String) : Bool :=
  match kv.Get (pathJoin [capName, "type"]) with
  | .ok (some kvp) =>
    match deps.IsTypeDerivedFrom deploymentID kvp.Value capabilityTypeName with
    | .ok b => b
    | .error _ => false
  | _ => false

/-- The capability stored under key `capName` carries a non-empty type and the
derivation check on it answers. -/
def capabilityTyped (kv : KV) (deps : Deployments) (deploymentID capabilityTypeName : String)
    (capName : String) : Bool :=
  match kv.Get (pathJoin [capName, "type"]) with
  | .ok (some kvp) =>
    decide (kvp.Value.length ≠ 0) &&
      (match deps.IsTypeDerivedFrom deploymentID kvp.Value capabilityTypeName with
      | .ok _ => true
      | .error _ => false)
  | _ => false

/-- Names of the capabilities among `keys` whose type is derived from
`capabilityTypeName`, in key order. -/
def matchingNames (kv : KV) (deps : Deployments) (deploymentID capabilityTypeName : String)
    (keys : List String) : List String :=
  (keys.filter (capabilityMatches kv deps deploymentID capabilityTypeName)).map pathBase

/-- The type `typeName` defines a capability named `name` whose capability type is
derived from `capabilityTypeName`. -/
def DefinesCapability (kv : KV) (deps : Deployments) (deploymentID capabilityTypeName : String)
    (typeName name : String) : Prop :=
  ∃ capName ∈ capabilityKeys kv deploymentID typeName,
    pathBase capName = name ∧
    capabilityMatches kv deps deploymentID capabilityTypeName capName = true

/-- `b` is the parent (`derived_from`) of type `a`. -/
def ParentOf (deps : Deployments) (deploymentID : String) (a b : String) : Prop :=
  deps.GetParentType deploymentID a = .ok b ∧ b ≠ ""

/-- The capabilities of `typeName` can be listed and all carry a type. -/
def levelOK (kv : KV) (deps : Deployments) (deploymentID capabilityTypeName typeName : String) :
    Bool :=
  (match kv.Keys (pathJoin [DeploymentKVPrefix, deploymentID, "topology", "types", typeName] ++
      "/capabilities/") "/" with
  | .ok _ => true
  | .error _ => false) &&
  (capabilityKeys kv deploymentID typeName).all
    (capabilityTyped kv deps deploymentID capabilityTypeName)

/-- The `derived_from` chain of `typeName` ends after at most `n` steps, and every type
on it has capabilities that all carry a type. -/
def hierarchyOK (kv : KV) (deps : Deployments) (deploymentID capabilityTypeName : String) :
    Nat → String → Bool
  | 0, typeName =>
    levelOK kv deps deploymentID capabilityTypeName typeName &&
      (match deps.GetParentType deploymentID typeName with
      | .ok p => decide (p = "")
      | .error _ => false)
  | n + 1, typeName =>
    levelOK kv deps deploymentID capabilityTypeName typeName &&
      (match deps.GetParentType deploymentID typeName with
      | .ok p => decide (p = "") || hierarchyOK kv deps deploymentID capabilityTypeName n p
      | .error _ => false)

/-- The type `typeName` followed by its ancestors, nearest first (at most `n` of them). -/
def typeChain (deps : Deployments) (deploymentID : String) : Nat → String → List String
  | 0, typeName => [typeName]
  | n + 1, typeName =>
    typeName ::
      (match deps.GetParentType deploymentID typeName with
      | .ok p => if p = "" then [] else typeChain deps deploymentID n p
      | .error _ => [])

/-- A type `Child` derived from `Parent`; both define a capability `endpoint` of type
`Endpoint`, `Parent` also `admin` of type `Endpoint`, `Child` also `scalable` of type
`Scalable`. -/
def hierarchyKV : KV :=
  memKV
    [⟨"_yorc/deployments/dep/topology/types/Child/capabilities/endpoint/type", "Endpoint"⟩,
     ⟨"_yorc/deployments/dep/topology/types/Child/capabilities/scalable/type", "Scalable"⟩,
     ⟨"_yorc/deployments/dep/topology/types/Parent/capabilities/admin/type", "Endpoint"⟩,
     ⟨"_yorc/deployments/dep/topology/types/Parent/capabilities/endpoint/type", "Endpoint"⟩]

/-- The example deployment with `Child` derived from `Parent`. -/
def hierarchyDeps : Deployments :=
  { scenarioDeps s5Default with
    GetParentType := fun _ typeName => if typeName = "Child" then .ok "Parent" else .ok "" }

/-! ## `src/prov/operations/inputs.go` -/

/-- Go `type EnvInput struct`. -/
structure EnvInput where
  Name : String
  Value : String
  InstanceName : String
  deriving DecidableEq

/-- Go `prov.RelationshipOperation` (declared in package `prov`), with the fields read
here. -/
structure RelationshipOperation where
  IsRelationshipOperation : Bool
  TargetNodeName : String

/-- Go `prov.Operation` (declared in package `prov`), with the fields read here. -/
structure Operation where
  Name : String
  ImplementedInType : String
  ImplementedInNodeTemplate : String
  RelOp : RelationshipOperation

/-- Go `deployments.OperationInputResult` (declared in package `deployments`). -/
structure OperationInputResult where
  NodeName : String
  InstanceName : String
  Value : String

/-- The functions of packages `deployments`, `tasks`, `provutil` and `operations` that
`ResolveInputsWithInstances` calls and whose source is not available; they are
parameters of the resolver.  `IsTaskDataNotFoundError` classifies an error value. -/
structure InputsAPI where
  GetOperationInputs : (deploymentID nodeTemplateImpl typeNameImpl operationName : String) →
    Except String (List String)
  IsOperationInputAPropertyDefinition : (deploymentID nodeTemplateImpl typeNameImpl
    operationName inputName : String) → Except String Bool
  GetTaskInput : (taskID inputName : String) → Except String String
  IsTaskDataNotFoundError : String → Bool
  GetOperationInputPropertyDefinitionDefault : (deploymentID nodeName : String) →
    Operation → (inputName : String) → Except String (List OperationInputResult)
  GetNodeInstancesIds : (deploymentID nodeName : String) → Except String (List String)
  GetOperationInput : (deploymentID nodeName : String) → Operation → (inputName : String) →
    Except String (List OperationInputResult)
  SanitizeForShell : String → String
  GetInstanceName : (nodeName instanceID : String) → String

/-- The literal `&EnvInput{Name: input, InstanceName: GetInstanceName(iv.NodeName,
iv.InstanceName), Value: iv.Value}` of lines 90 and 113. -/
def envInputOfValue (api : InputsAPI) (input : String) (iv : OperationInputResult) : EnvInput :=
  { Name := input, InstanceName := api.GetInstanceName iv.NodeName iv.InstanceName,
    Value := iv.Value }

/-- The literal `&EnvInput{Name: input, InstanceName: GetInstanceName(nodeName, ins),
Value: inputValue}` of line 102. -/
def envInputOfInstance (api : InputsAPI) (input nodeName inputValue ins : String) : EnvInput :=
  { Name := input, InstanceName := api.GetInstanceName nodeName ins, Value := inputValue }

/-- The loops `for i, iv := range values` (lines 89-94 and 112-117): one `EnvInput` per
value, and the variable name once, at index 0. -/
def appendInputValues (api : InputsAPI) (input : String) :
    List OperationInputResult → Nat → List EnvInput → List String →
      List EnvInput × List String
  | [], _, envInputs, varInputsNames => (envInputs, varInputsNames)
  | iv :: rest, i, envInputs, varInputsNames =>
    appendInputValues api input rest (i + 1) (envInputs ++ [envInputOfValue api input iv])
      (if i = 0 then varInputsNames ++ [api.SanitizeForShell input] else varInputsNames)

/-- The loop `for i, ins := range instances` (lines 101-106). -/
def appendInstances (api : InputsAPI) (input nodeName inputValue : String) :
    List String → Nat → List EnvInput → List String → List EnvInput × List String
  | [], _, envInputs, varInputsNames => (envInputs, varInputsNames)
  | ins :: rest, i, envInputs, varInputsNames =>
    appendInstances api input nodeName inputValue rest (i + 1)
      (envInputs ++ [envInputOfInstance api input nodeName inputValue ins])
      (if i = 0 then varInputsNames ++ [api.SanitizeForShell input] else varInputsNames)

/-- The loop `for _, input := range inputKeys` of `ResolveInputsWithInstances` (lines
73-119); `envInputs` and `varInputsNames` are the two results so far. -/
def resolveInputsLoop (api : InputsAPI) (deploymentID nodeName taskID : String)
    (operation : Operation) :
    List String → List EnvInput → List String → Except String (List EnvInput × List String)
  | [], envInputs, varInputsNames => .ok (envInputs, varInputsNames)
  | input :: rest, envInputs, varInputsNames =>
    match api.IsOperationInputAPropertyDefinition deploymentID
        operation.ImplementedInNodeTemplate operation.ImplementedInType operation.Name
        input with
    | .error e => .error e
    | .ok isPropDef =>
      if isPropDef then
        match api.GetTaskInput taskID input with
        | .error e =>
          if !api.IsTaskDataNotFoundError e then .error e
          else
            match api.GetOperationInputPropertyDefinitionDefault deploymentID nodeName
                operation input with
            | .error e1 => .error e1
            | .ok defaultInputValues =>
              resolveInputsLoop api deploymentID nodeName taskID operation rest
                (appendInputValues api input defaultInputValues 0 envInputs varInputsNames).1
                (appendInputValues api input defaultInputValues 0 envInputs varInputsNames).2
        | .ok inputValue =>
          match api.GetNodeInstancesIds deploymentID nodeName with
          | .error e => .error e
          | .ok instances =>
            resolveInputsLoop api deploymentID nodeName taskID operation rest
              (appendInstances api input nodeName inputValue instances 0 envInputs
                varInputsNames).1
              (appendInstances api input nodeName inputValue instances 0 envInputs
                varInputsNames).2
      else
        match api.GetOperationInput deploymentID nodeName operation input with
        | .error e => .error e
        | .ok inputValues =>
          resolveInputsLoop api deploymentID nodeName taskID operation rest
            (appendInputValues api input inputValues 0 envInputs varInputsNames).1
            (appendInputValues api input inputValues 0 envInputs varInputsNames).2

/-- Go `ResolveInputsWithInstances`: the environment inputs and the variable names, or
the error.  The two instance lists are parameters of the Go function that it does not
read. -/
def ResolveInputsWithInstances (api : InputsAPI) (deploymentID nodeName taskID : String)
    (operation : Operation) (_sourceNodeInstances _targetNodeInstances : List String) :
    Except String (List EnvInput × List String) :=
  match api.GetOperationInputs deploymentID operation.ImplementedInNodeTemplate
      operation.ImplementedInType operation.Name with
  | .error e => .error e
  | .ok inputKeys => resolveInputsLoop api deploymentID nodeName taskID operation inputKeys [] []

/-- The environment inputs that one operation input gives rise to (empty when one of
its lookups fails). -/
def inputBlock (api : InputsAPI) (deploymentID nodeName taskID : String) (operation : Operation)
    (input : String) : List EnvInput :=
  match api.IsOperationInputAPropertyDefinition deploymentID
      operation.ImplementedInNodeTemplate operation.ImplementedInType operation.Name
      input with
  | .error _ => []
  | .ok isPropDef =>
    if isPropDef then
      match api.GetTaskInput taskID input with
      | .error _ =>
        match api.GetOperationInputPropertyDefinitionDefault deploymentID nodeName
            operation input with
        | .error _ => []
        | .ok values => values.map (envInputOfValue api input)
      | .ok inputValue =>
        match api.GetNodeInstancesIds deploymentID nodeName with
        | .error _ => []
        | .ok instances => instances.map (envInputOfInstance api input nodeName inputValue)
    else
      match api.GetOperationInput deploymentID nodeName operation input with
      | .error _ => []
      | .ok values => values.map (envInputOfValue api input)

/-- Modelled from the spec: `provutil.SanitizeForShell`, whose source is not available.
Variable names are sanitised for shell use: alphanumerics and underscore only, prefixed
if starting with a digit (section 4.9). -/
def specSanitizeForShell (s : String) : String :=
  let kept := s.data.filter (fun c => c.isAlphanum || c == '_')
  match kept with
  | [] => ""
  | c :: rest => if c.isDigit then String.mk ('_' :: c :: rest) else String.mk (c :: rest)

/-- Modelled from the spec: an operation with the three inputs `a.b`, `a,b` and `idle`
on a node with the instances `0` and `1`.  The first two are property definitions with
the task-level values `1` and `2`; `idle` is resolved from the deployment and has no
value.  Instance names are built from the node name and the instance id. -/
def exampleInputsAPI : InputsAPI where
  GetOperationInputs _ _ _ _ := .ok ["a.b", "a,b", "idle"]
  IsOperationInputAPropertyDefinition _ _ _ _ inputName := .ok (decide (inputName ≠ "idle"))
  GetTaskInput _ inputName :=
    if inputName = "a.b" then .ok "1"
    else if inputName = "a,b" then .ok "2"
    else .error "task data not found"
  IsTaskDataNotFoundError e := decide (e = "task data not found")
  GetOperationInputPropertyDefinitionDefault _ _ _ _ := .ok []
  GetNodeInstancesIds _ _ := .ok ["0", "1"]
  GetOperationInput _ _ _ _ := .ok []
  SanitizeForShell := specSanitizeForShell
  GetInstanceName nodeName instanceID := specSanitizeForShell (nodeName ++ "_" ++ instanceID)

/-- The operation `standard.create` of node type `WebType`. -/
def exampleOperation : Operation :=
  { Name := "standard.create", ImplementedInType := "WebType", ImplementedInNodeTemplate := "",
    RelOp := { IsRelationshipOperation := false, TargetNodeName := "" } }

/-! ## `src/prov/scheduling/scheduling.go` -/

/-- Go `prov.Action` (declared in package `prov`), with the fields read here.  `Data` is
a Go map: the list gives its entries in the order in which `range` visits them. -/
structure Action where
  ActionType : String
  Data : List (String × String)

/-- Go `time.Duration`: a number of nanoseconds. -/
abbrev Duration := Int

/-- Modelled from the spec: `consulutil.SchedulingKVPrefix`, declared in a package whose
source is not available; the persisted layout of the spec (section 6) puts scheduled
actions under `_yorc/scheduling/actions/<id>/`. -/
def SchedulingKVPrefix : String := "_yorc/scheduling"

/-- Consul `api.KVTxnOp` with verb `api.KVSet`: a key and the value to set. -/
structure KVTxnOp where
  Key : String
  Value : String
  deriving DecidableEq

/-- What Consul answers to `Txn`: the transaction was applied, it was rolled back with
the listed errors (`ok == false`), or the call failed. -/
inductive TxnOutcome where
  | committed
  | rolledBack (errors : List String)
  | failed (err : String)

/-- Effect of a committed transaction of `KVSet` operations: the keys are set in the
order of the operations. -/
def applyOps (store : TaskStore) : List KVTxnOp → TaskStore
  | [] => store
  | op :: rest => applyOps (store.put op.Key op.Value) rest

/-- The key prefix of one scheduled action, `scaPath` of line 41. -/
def scaPath (id : String) : String := pathJoin [SchedulingKVPrefix, "actions", id]

/-- The operations `RegisterAction` puts in its transaction (lines 42-68). -/
def registerOps (durationString : Duration → String) (id deploymentID : String)
    (timeInterval : Duration) (action : Action) : List KVTxnOp :=
  [{ Key := pathJoin [scaPath id, "deploymentID"], Value := deploymentID },
   { Key := pathJoin [scaPath id, "type"], Value := action.ActionType },
   { Key := pathJoin [scaPath id, "interval"], Value := durationString timeInterval }] ++
  action.Data.map (fun kv => { Key := pathJoin [scaPath id, kv.1], Value := kv.2 })

/-- Go `RegisterAction`.  `id` is the identifier drawn by `uuid.NewV4()`, `txn` what
Consul answers to the transaction, `durationString` the method `time.Duration.String`,
and a `nil` action is `none`.  Returns the Go result and the store afterwards. -/
def RegisterAction (durationString : Duration → String) (store : TaskStore) (id : String)
    (txn : TxnOutcome) (deploymentID : String) (timeInterval : Duration)
    (action : Option Action) : Except String String × TaskStore :=
  if deploymentID = "" then
    (.error "deploymentID is mandatory parameter to register scheduled action", store)
  else
    match action with
    | none => (.error "actionType is mandatory parameter to register scheduled action", store)
    | some a =>
      if a.ActionType = "" then
        (.error "actionType is mandatory parameter to register scheduled action", store)
      else
        match txn with
        | .failed err =>
          (.error ("Failed to register scheduled action for deploymentID:" ++
            goQuote deploymentID ++ ", type:" ++ goQuote a.ActionType ++ ", id:" ++
            goQuote id ++ ": " ++ err), store)
        | .rolledBack errs =>
          (.error ("Failed to register scheduled action for deploymentID:" ++
            goQuote deploymentID ++ ", type:" ++ goQuote a.ActionType ++ ", id:" ++
            goQuote id ++ " due to:" ++ joinWith ", " errs), store)
        | .committed =>
          (.ok id, applyOps store (registerOps durationString id deploymentID timeInterval a))

/-- Modelled from the spec: a textual form for intervals that are whole seconds (the
method `time.Duration.String` belongs to the Go library). -/
def secondsString (d : Duration) : String := toString (d / 1000000000) ++ "s"

/-- The empty store. -/
def emptyStore : TaskStore := fun _ => none

/-- Go `UnregisterAction`.  `putErr` is the error of the Consul `Put` (`none` when the
write is accepted, and then the store holds the pair).  Returns the Go error
(`errors.Wrap` of a nil error is nil) and the store afterwards. -/
def UnregisterAction (putErr : Option String) (store : TaskStore) (id : String) :
    Option String × TaskStore :=
  match putErr with
  | none =>
    (errorsWrap none "Failed to flag scheduled action for removal",
      store.put (pathJoin [scaPath id, ".unregisterFlag"]) "true")
  | some e => (errorsWrap (some e) "Failed to flag scheduled action for removal", store)

/-- Go `ResolveInputs`.  `GetInstances` is `tasks.GetInstances`, whose source is not
available; it is a parameter. -/
def ResolveInputs (api : InputsAPI)
    (GetInstances : (taskID deploymentID nodeName : String) → Except String (List String))
    (deploymentID nodeName taskID : String) (operation : Operation) :
    Except String (List EnvInput × List String) :=
  match GetInstances taskID deploymentID nodeName with
  | .error e => .error e
  | .ok sourceInstances =>
    if operation.RelOp.IsRelationshipOperation then
      match GetInstances taskID deploymentID operation.RelOp.TargetNodeName with
      | .error e => .error e
      | .ok targetInstances =>
        ResolveInputsWithInstances api deploymentID nodeName taskID operation sourceInstances
          targetInstances
    else
      ResolveInputsWithInstances api deploymentID nodeName taskID operation sourceInstances []

/-! ## `src/prov/hostspool/hostspool_mgr_enum.go` -/

/-- Go `strings.ToLower` on ASCII strings: the letters `A` to `Z` become `a` to `z`. -/
def ToLower (s : String) : String := String.mk (s.data.map Char.toLower)

/-- Go `strings.ToUpper` on ASCII strings: the letters `a` to `z` become `A` to `Z`. -/
def ToUpper (s : String) : String := String.mk (s.data.map Char.toUpper)

/-- Go `type HostStatus int`. -/
abbrev HostStatus := Int

/-- Constant `HostStatusFree` (`iota` = 0). -/
def HostStatusFree : HostStatus := 0
/-- Constant `HostStatusAllocated`. -/
def HostStatusAllocated : HostStatus := 1

/-- Constant `_HostStatusName`. -/
def _HostStatusName : String := "FreeAllocated"

/-- Variable `_HostStatusMap`. -/
def _HostStatusMap : List (HostStatus × String) :=
  [(0, slice _HostStatusName 0 4),
   (1, slice _HostStatusName 4 13)]

/-- Method `HostStatus.String`. -/
def HostStatus.String (i : HostStatus) : String :=
  match mapLookup i _HostStatusMap with
  | some str => str
  | none => "HostStatus(" ++ toString i ++ ")"

/-- Variable `_HostStatusValue`. -/
def _HostStatusValue : List (String × HostStatus) :=
  [(slice _HostStatusName 0 4, 0),
   (ToLower (slice _HostStatusName 0 4), 0),
   (slice _HostStatusName 4 13, 1),
   (ToLower (slice _HostStatusName 4 13), 1)]

/-- Go `ParseHostStatus`. -/
def ParseHostStatus (name : String) : Except String HostStatus :=
  match mapLookup name _HostStatusValue with
  | some x => .ok x
  | none => .error (name ++ " is not a valid HostStatus")

/-! ## `src/rest/dep_workflow.go` -/

/-- Go `http.StatusCreated`. -/
def StatusCreated : Nat := 201
/-- Modelled from the spec: status written by `writeError(w, r, newConflictRequest(..))`
(the error helpers of package `rest` are not available; spec section 7: Conflict is
409). -/
def StatusConflict : Nat := 409

/-- Go `rest.NodeInstances` (declared elsewhere in package `rest`). -/
structure NodeInstances where
  NodeName : String
  Instances : List String

/-- Go `rest.WorkflowRequest` (declared elsewhere in package `rest`).  `Inputs` is a Go
map from input name to a decoded JSON value: the list gives its entries in the order in
which `range` visits them, each value in its `%v` form. -/
structure WorkflowRequest where
  NodesInstances : List NodeInstances
  Inputs : List (String × String)

/-- Go `tosca.PropertyDefinition`, with the two pointer fields read here (`none` is
`nil`). -/
structure PropertyDefinition where
  Required : Option Bool
  Default : Option String

/-- Go `tosca.Workflow`, with the field read here; `Inputs` is a Go map, listed in the
order in which `range` visits it. -/
structure Workflow where
  Inputs : List (String × PropertyDefinition)

/-- The functions that `newWorkflowHandler` calls and whose source is not available
(packages `deployments`, `tasks`, `encoding/json` and other files of package `rest`);
they are parameters of the handler.  `checkBlockingOperationOnDeployment` gives the
status it wrote when it answers `false`, and `UPDATE_IN_PROGRESS` is the constant of
`deployments.DeploymentStatus`. -/
structure WorkflowAPI where
  DoesDeploymentExists : (deploymentID : String) → Except String Bool
  checkBlockingOperationOnDeployment : (deploymentID : String) → Option Nat
  GetDeploymentStatus : (deploymentID : String) → Except String Int
  UPDATE_IN_PROGRESS : Int
  GetWorkflows : (deploymentID : String) → Except String (List String)
  jsonUnmarshal : (body : String) → Except String WorkflowRequest
  DoesNodeExist : (deploymentID nodeName : String) → Except String Bool
  checkInstances : (deploymentID nodeName : String) → (instances : List String) → Bool × String
  GetWorkflow : (deploymentID workflowName : String) → Except String (Option Workflow)
  RegisterTaskWithData : (deploymentID : String) → TaskType → (data : TaskStore) →
    Except String String
  IsAnotherLivingTaskAlreadyExistsError : String → Bool

/-- The request as the handler reads it: the two router parameters, the parsed query
(`r.URL.Query()`, a map from key to values) and what `ioutil.ReadAll(r.Body)` gives. -/
structure WorkflowSubmission where
  id : String
  workflowName : String
  query : List (String × List String)
  body : Except String String

/-- What `newWorkflowHandler` leaves behind: the HTTP status written (if any), the
message of `log.Panic` (if it panicked), the `Location` header, the task data handed to
`RegisterTaskWithData` (if it was called) and the identifier of the registered task. -/
structure WorkflowResponse where
  status : Option Nat
  panic : Option String
  location : Option String
  submitted : Option TaskStore
  taskID : Option String

/-- A handler that stops early: after writing an error status, or by a panic. -/
inductive Abort where
  | status (code : Nat)
  | panic (msg : String)

/-- The response of a handler that stopped early. -/
def Abort.toResponse : Abort → WorkflowResponse
  | .status c => { status := some c, panic := none, location := none, submitted := none,
                   taskID := none }
  | .panic m => { status := none, panic := some m, location := none, submitted := none,
                  taskID := none }

/-- The loop `for _, nodeInstances := range wfRequest.NodesInstances` (lines 92-111). -/
def nodesInstancesLoop (api : WorkflowAPI) (deploymentID : String) :
    List NodeInstances → TaskStore → Except Abort TaskStore
  | [], data => .ok data
  | nodeInstances :: rest, data =>
    match api.DoesNodeExist deploymentID nodeInstances.NodeName with
    | .error e => .error (.panic e)
    | .ok nodeExists =>
      if !nodeExists then .error (.status StatusBadRequest)
      else if !(api.checkInstances deploymentID nodeInstances.NodeName
          nodeInstances.Instances).1 then
        .error (.status StatusBadRequest)
      else
        nodesInstancesLoop api deploymentID rest
          (data.put ("nodes/" ++ nodeInstances.NodeName) (joinWith "," nodeInstances.Instances))

/-- The loop `for inputName, inputValue := range wfRequest.Inputs` (lines 114-116). -/
def requestInputsLoop : List (String × String) → TaskStore → TaskStore
  | [], data => data
  | (inputName, inputValue) :: rest, data =>
    requestInputsLoop rest (data.put (pathJoin ["inputs", inputName]) inputValue)

/-- The test of line 129: required by default, unless `Required` is set to false, and
without default. -/
def PropertyDefinition.mustBeGiven (d : PropertyDefinition) : Bool :=
  (d.Required == none || d.Required == some true) && d.Default == none

/-- The loop `for inputName, def := range wf.Inputs` (lines 126-136). -/
def requiredInputsLoop (requestInputs : List (String × String)) :
    List (String × PropertyDefinition) → Except Abort Unit
  | [] => .ok ()
  | (inputName, d) :: rest =>
    if d.mustBeGiven && (mapLookup inputName requestInputs).isNone then
      .error (.status StatusBadRequest)
    else requiredInputsLoop requestInputs rest

/-- The block `if len(body) > 0` of `newWorkflowHandler` (lines 86-138). -/
def workflowBody (api : WorkflowAPI) (deploymentID workflowName body : String)
    (data : TaskStore) : Except Abort TaskStore :=
  match api.jsonUnmarshal body with
  | .error e => .error (.panic e)
  | .ok wfRequest =>
    match nodesInstancesLoop api deploymentID wfRequest.NodesInstances data with
    | .error a => .error a
    | .ok data1 =>
      let data2 := requestInputsLoop wfRequest.Inputs data1
      match api.GetWorkflow deploymentID workflowName with
      | .error e => .error (.panic e)
      | .ok none =>
        .error (.panic ("Can't check inputs of workflow " ++ goQuote workflowName ++
          " in deployment " ++ goQuote deploymentID ++ ", workflow definition not found"))
      | .ok (some wf) =>
        match requiredInputsLoop wfRequest.Inputs wf.Inputs with
        | .error a => .error a
        | .ok _ => .ok data2

/-- The task data before the body is read (lines 73-79). -/
def initialTaskData (workflowName : String) (query : List (String × List String)) : TaskStore :=
  (emptyStore.put "workflowName" workflowName).put "continueOnError"
    (if (mapLookup "continueOnError" query).isSome then "true" else "false")

/-- The end of `newWorkflowHandler` (lines 140-150). -/
def registerWorkflowTask (api : WorkflowAPI) (deploymentID : String) (data : TaskStore) :
    WorkflowResponse :=
  match api.RegisterTaskWithData deploymentID TaskTypeCustomWorkflow data with
  | .error e =>
    if api.IsAnotherLivingTaskAlreadyExistsError e then
      { status := some StatusBadRequest, panic := none, location := none,
        submitted := some data, taskID := none }
    else
      { status := none, panic := some e, location := none, submitted := some data,
        taskID := none }
  | .ok taskID =>
    { status := some StatusCreated, panic := none,
      location := some ("/deployments/" ++ deploymentID ++ "/tasks/" ++ taskID),
      submitted := some data, taskID := some taskID }

/-- Go `(*Server).newWorkflowHandler`. -/
def newWorkflowHandler (api : WorkflowAPI) (r : WorkflowSubmission) : WorkflowResponse :=
  match api.DoesDeploymentExists r.id with
  | .error e => (Abort.panic e).toResponse
  | .ok dExits =>
    if !dExits then (Abort.status StatusNotFound).toResponse
    else
      match api.checkBlockingOperationOnDeployment r.id with
      | some c => (Abort.status c).toResponse
      | none =>
        match api.GetDeploymentStatus r.id with
        | .error e => (Abort.panic e).toResponse
        | .ok deploymentStatus =>
          if deploymentStatus = api.UPDATE_IN_PROGRESS then
            (Abort.status StatusConflict).toResponse
          else
            match api.GetWorkflows r.id with
            | .error e => (Abort.panic e).toResponse
            | .ok workflows =>
              if !workflows.contains r.workflowName then
                (Abort.status StatusNotFound).toResponse
              else
                match r.body with
                | .error e => (Abort.panic e).toResponse
                | .ok body =>
                  if body.length > 0 then
                    match workflowBody api r.id r.workflowName body
                        (initialTaskData r.workflowName r.query) with
                    | .error a => a.toResponse
                    | .ok data => registerWorkflowTask api r.id data
                  else registerWorkflowTask api r.id (initialTaskData r.workflowName r.query)

/-- Modelled from the spec: a deployment `dep-1` with the workflows `install` and
`backup`, the node `web` with instances `0` and `1`, and the workflow input `target`
declared by `backup` (required, without default).  `status` is what
`GetDeploymentStatus` answers (7 stands for `UPDATE_IN_PROGRESS`), `living` tells
whether a task is alive on the deployment, in which case registration fails with the
error that `IsAnotherLivingTaskAlreadyExistsError` recognises, and `decoded` is the
request that the body decodes to. -/
def exampleWorkflowAPI (status : Int) (living : Bool) (decoded : WorkflowRequest) :
    WorkflowAPI where
  DoesDeploymentExists id := .ok (id == "dep-1")
  checkBlockingOperationOnDeployment _ := none
  GetDeploymentStatus _ := .ok status
  UPDATE_IN_PROGRESS := 7
  GetWorkflows _ := .ok ["install", "backup"]
  jsonUnmarshal _ := .ok decoded
  DoesNodeExist _ nodeName := .ok (nodeName == "web")
  checkInstances _ _ instances :=
    match instances.find? (fun i => !(i == "0" || i == "1")) with
    | some i => (false, i)
    | none => (true, "")
  GetWorkflow _ workflowName :=
    if workflowName = "backup" then
      .ok (some { Inputs := [("target", { Required := none, Default := none })] })
    else .ok (some { Inputs := [] })
  RegisterTaskWithData _ _ _ :=
    if living then .error "another living task already exists" else .ok "task-1"
  IsAnotherLivingTaskAlreadyExistsError e := e == "another living task already exists"

/-- A submission of workflow `wf` on `dep-1` with the given query and body. -/
def exampleSubmission (wf : String) (query : List (String × List String)) (body : String) :
    WorkflowSubmission :=
  { id := "dep-1", workflowName := wf, query := query, body := .ok body }

/-! ## `src/prov/hostspool/hostspool_mgr_connection.go` -/

/-- Go `hostspool.Connection` (declared elsewhere in package `hostspool`); `Port` is a
`uint64`. -/
structure Connection where
  User : String
  Password : String
  PrivateKey : String
  Host : String
  Port : Nat
  deriving DecidableEq

/-- Constant `hostConnectionErrorMessage`. -/
def hostConnectionErrorMessage : String := "failed to connect to host"

/-- Go `strconv.ParseUint(s, 10, 64)`: at least one decimal digit, no sign, and a value
below `2^64`. -/
def ParseUint (s : String) : Except String Nat :=
  if s.data = [] then .error ("strconv.ParseUint: parsing " ++ goQuote s ++ ": invalid syntax")
  else
    match parseDigits s.data 0 with
    | none => .error ("strconv.ParseUint: parsing " ++ goQuote s ++ ": invalid syntax")
    | some n =>
      if n < 2 ^ 64 then .ok n
      else .error ("strconv.ParseUint: parsing " ++ goQuote s ++ ": value out of range")

/-- What `consulManager` relies on and whose source is not available: constants of
package `consulutil`, the status `HostStatusError` (the enumeration file declares only
`Free` and `Allocated`), the error Consul gives on reading a key (`none` when it
answers), the template resolver of package `config`, the methods `GetHostStatus`,
`lockKey` (its error), `backupHostStatus`, `setHostStatusWithMessage` and
`restoreHostStatus` (whose own errors the callers drop), what Consul answers to the
transaction, and the two steps of the SSH check (their errors). -/
structure consulManager where
  HostsPoolPrefix : String
  ConsulGenericErrMsg : String
  HostStatusError : HostStatus
  getErr : (key : String) → Option String
  ResolveValueWithTemplates : (name value : String) → String
  GetHostStatus : TaskStore → (locationName hostname : String) → Except String HostStatus
  lockKey : (locationName hostname : String) → Option String
  txn : List KVTxnOp → TxnOutcome
  getSSHConfig : Connection → Option String
  RunCommand : Connection → Option String
  backupHostStatus : TaskStore → (locationName hostname : String) → TaskStore
  setHostStatusWithMessage : TaskStore → (locationName hostname : String) → HostStatus →
    (message : String) → TaskStore
  restoreHostStatus : TaskStore → (locationName hostname : String) → TaskStore

/-- One `kv.Get` of `GetHostConnection`: the communication error, or the stored value. -/
def consulManager.get (cm : consulManager) (store : TaskStore) (key : String) :
    Except String (Option String) :=
  match cm.getErr key with
  | some e => .error (cm.ConsulGenericErrMsg ++ ": " ++ e)
  | none => .ok (store key)

/-- Go `(*consulManager).GetHostConnection`; the connection read so far, which Go
returns next to an error, is not kept since no caller reads it. -/
def GetHostConnection (cm : consulManager) (store : TaskStore) (locationName hostname : String) :
    Except String Connection :=
  if locationName = "" then .error "\"locationName\" missing"
  else if hostname = "" then .error "\"hostname\" missing"
  else
    let connKVPrefix := pathJoin [cm.HostsPoolPrefix, locationName, hostname, "connection"]
    match cm.get store (pathJoin [connKVPrefix, "host"]) with
    | .error e => .error e
    | .ok host =>
      match cm.get store (pathJoin [connKVPrefix, "user"]) with
      | .error e => .error e
      | .ok user =>
        match cm.get store (pathJoin [connKVPrefix, "password"]) with
        | .error e => .error e
        | .ok password =>
          match cm.get store (pathJoin [connKVPrefix, "private_key"]) with
          | .error e => .error e
          | .ok privateKey =>
            match cm.get store (pathJoin [connKVPrefix, "port"]) with
            | .error e => .error e
            | .ok port =>
              match (match port with
                     | none => Except.ok 0
                     | some v => ParseUint v) with
              | .error e =>
                .error ("failed to retrieve connection port for host " ++ goQuote hostname ++
                  ": " ++ e)
              | .ok p =>
                .ok { Host := (host.map (cm.ResolveValueWithTemplates "Connection.Host")).getD "",
                      User := (user.map (cm.ResolveValueWithTemplates "Connection.User")).getD "",
                      Password :=
                        (password.map (cm.ResolveValueWithTemplates "Connection.Password")).getD "",
                      PrivateKey :=
                        (privateKey.map
                          (cm.ResolveValueWithTemplates "Connection.PrivateKey")).getD "",
                      Port := p }

/-- Go `(*consulManager).DoesHostHasConnectionPrivateKey`. -/
def DoesHostHasConnectionPrivateKey (cm : consulManager) (store : TaskStore)
    (locationName hostname : String) : Except String Bool :=
  match GetHostConnection cm store locationName hostname with
  | .error e => .error e
  | .ok c => .ok (decide (c.PrivateKey ≠ ""))

/-- Go `(*consulManager).DoesHostHasConnectionPassword`. -/
def DoesHostHasConnectionPassword (cm : consulManager) (store : TaskStore)
    (locationName hostname : String) : Except String Bool :=
  match GetHostConnection cm store locationName hostname with
  | .error e => .error e
  | .ok c => .ok (decide (c.Password ≠ ""))

/-- Lines 73-89 of `updateConnectionWait`: the connection as the block leaves it
(`conn.PrivateKey` is reset when it was `-`) and the operations appended, or the error
returned. -/
def privateKeyOps (cm : consulManager) (store : TaskStore) (locationName hostname : String)
    (hostKVPrefix : String) (conn : Connection) : Except String (Connection × List KVTxnOp) :=
  if conn.PrivateKey ≠ "" then
    if conn.PrivateKey = "-" then
      match DoesHostHasConnectionPassword cm store locationName hostname with
      | .error e => .error e
      | .ok ok =>
        if (!ok && conn.Password == "") || (ok && conn.Password == "-") then
          .error "at any time at least one of \"password\" or \"private_key\" is required"
        else
          .ok ({ conn with PrivateKey := "" },
               [{ Key := pathJoin [hostKVPrefix, "connection", "private_key"], Value := "" }])
    else
      .ok (conn, [{ Key := pathJoin [hostKVPrefix, "connection", "private_key"],
                    Value := conn.PrivateKey }])
  else .ok (conn, [])

/-- Lines 90-106 of `updateConnectionWait`, on the connection as lines 73-89 left it. -/
def passwordOps (cm : consulManager) (store : TaskStore) (locationName hostname : String)
    (hostKVPrefix : String) (conn : Connection) : Except String (Connection × List KVTxnOp) :=
  if conn.Password ≠ "" then
    if conn.Password = "-" then
      match DoesHostHasConnectionPrivateKey cm store locationName hostname with
      | .error e => .error e
      | .ok ok =>
        if (!ok && conn.PrivateKey == "") || (ok && conn.PrivateKey == "-") then
          .error "at any time at least one of \"password\" or \"private_key\" is required"
        else
          .ok ({ conn with Password := "" },
               [{ Key := pathJoin [hostKVPrefix, "connection", "password"], Value := "" }])
    else
      .ok (conn, [{ Key := pathJoin [hostKVPrefix, "connection", "password"],
                    Value := conn.Password }])
  else .ok (conn, [])

/-- Lines 50-106 of `updateConnectionWait`: the operations of the transaction, or the
error returned before it. -/
def connectionOps (cm : consulManager) (store : TaskStore) (locationName hostname : String)
    (conn : Connection) : Except String (List KVTxnOp) :=
  let hostKVPrefix := pathJoin [cm.HostsPoolPrefix, locationName, hostname]
  let ops0 : List KVTxnOp :=
    (if conn.User ≠ "" then
      [{ Key := pathJoin [hostKVPrefix, "connection", "user"], Value := conn.User }] else []) ++
    (if conn.Port ≠ 0 then
      [{ Key := pathJoin [hostKVPrefix, "connection", "port"], Value := toString conn.Port }]
      else []) ++
    (if conn.Host ≠ "" then
      [{ Key := pathJoin [hostKVPrefix, "connection", "host"], Value := conn.Host }] else [])
  match privateKeyOps cm store locationName hostname hostKVPrefix conn with
  | .error e => .error e
  | .ok (conn1, ops1) =>
    match passwordOps cm store locationName hostname hostKVPrefix conn1 with
    | .error e => .error e
    | .ok (_, ops2) => .ok (ops0 ++ ops1 ++ ops2)

/-- Go `(*consulManager).checkConnection`: the error, `none` when the host answers. -/
def checkConnection (cm : consulManager) (store : TaskStore) (locationName hostname : String) :
    Option String :=
  match GetHostConnection cm store locationName hostname with
  | .error e => some ("failed to connect to host " ++ goQuote hostname ++ ": " ++ e)
  | .ok conn =>
    match cm.getSSHConfig conn with
    | some e => some ("failed to connect to host " ++ goQuote hostname ++ ": " ++ e)
    | none =>
      errorsWrap (cm.RunCommand conn) ("failed to connect to host " ++ goQuote hostname)

/-- Go `(*consulManager).updateConnectionWait`: the error returned and the store
afterwards (the lock is released on every return and is not kept in the store). -/
def updateConnectionWait (cm : consulManager) (store : TaskStore)
    (locationName hostname : String) (conn : Connection) : Option String × TaskStore :=
  if locationName = "" then (some "\"locationName\" missing", store)
  else if hostname = "" then (some "\"hostname\" missing", store)
  else
    match cm.GetHostStatus store locationName hostname with
    | .error e => (some e, store)
    | .ok status =>
      match connectionOps cm store locationName hostname conn with
      | .error e => (some e, store)
      | .ok ops =>
        match cm.lockKey locationName hostname with
        | some e => (some e, store)
        | none =>
          match cm.txn ops with
          | .failed err => (some (cm.ConsulGenericErrMsg ++ ": " ++ err), store)
          | .rolledBack errs =>
            (some ("Failed to update host " ++ goQuote hostname ++ " connection on location " ++
              goQuote locationName ++ ": " ++ joinWith ", " errs), store)
          | .committed =>
            match checkConnection cm (applyOps store ops) locationName hostname with
            | some err =>
              if status ≠ cm.HostStatusError then
                (some err,
                  cm.setHostStatusWithMessage
                    (cm.backupHostStatus (applyOps store ops) locationName hostname)
                    locationName hostname cm.HostStatusError hostConnectionErrorMessage)
              else (some err, applyOps store ops)
            | none =>
              if status = cm.HostStatusError then
                (none, cm.restoreHostStatus (applyOps store ops) locationName hostname)
              else (none, applyOps store ops)

/-- Go `(*consulManager).updateConnectionStatus`: the store afterwards. -/
def updateConnectionStatus (cm : consulManager) (store : TaskStore) (locationName name : String) :
    TaskStore :=
  match cm.GetHostStatus store locationName name with
  | .error _ => store
  | .ok status =>
    match checkConnection cm store locationName name with
    | some _ =>
      if status ≠ cm.HostStatusError then
        cm.setHostStatusWithMessage (cm.backupHostStatus store locationName name)
          locationName name cm.HostStatusError hostConnectionErrorMessage
      else store
    | none =>
      if status = cm.HostStatusError then cm.restoreHostStatus store locationName name
      else store

/-- Modelled from the spec: a host pool kept under `_yorc/hosts-pool/<loc>/<host>/`
(section 6), with the status in the key `status` as one of `free`, `allocated` and
`error`, saved in the sibling key `status_backup` on a connection failure and restored
from it on recovery (section 3).  Consul answers every call, templates resolve to
themselves, and `reachable` tells whether the host answers over SSH. -/
def examplePool (reachable : Bool) : consulManager where
  HostsPoolPrefix := "_yorc/hosts-pool"
  ConsulGenericErrMsg := "Consul communication error"
  HostStatusError := 2
  getErr _ := none
  ResolveValueWithTemplates _ value := value
  GetHostStatus store locationName hostname :=
    match store ("_yorc/hosts-pool/" ++ locationName ++ "/" ++ hostname ++ "/status") with
    | some "free" => .ok 0
    | some "allocated" => .ok 1
    | some "error" => .ok 2
    | _ => .error ("host " ++ goQuote hostname ++ " has no valid status")
  lockKey _ _ := none
  txn _ := .committed
  getSSHConfig _ := none
  RunCommand _ := if reachable then none else some "ssh: handshake failed"
  backupHostStatus store locationName hostname :=
    match store ("_yorc/hosts-pool/" ++ locationName ++ "/" ++ hostname ++ "/status") with
    | some v =>
      store.put ("_yorc/hosts-pool/" ++ locationName ++ "/" ++ hostname ++ "/status_backup") v
    | none => store
  setHostStatusWithMessage store locationName hostname status message :=
    (store.put ("_yorc/hosts-pool/" ++ locationName ++ "/" ++ hostname ++ "/status")
      (if status = 0 then "free" else if status = 1 then "allocated" else "error")).put
      ("_yorc/hosts-pool/" ++ locationName ++ "/" ++ hostname ++ "/message") message
  restoreHostStatus store locationName hostname :=
    match store ("_yorc/hosts-pool/" ++ locationName ++ "/" ++ hostname ++ "/status_backup") with
    | some v =>
      store.put ("_yorc/hosts-pool/" ++ locationName ++ "/" ++ hostname ++ "/status") v
    | none => store

/-- A host `h1` of location `loc` in the given status, holding a private key and no
password. -/
def keyOnlyHost (status : String) : TaskStore :=
  TaskStore.ofList
    [("_yorc/hosts-pool/loc/h1/status", status),
     ("_yorc/hosts-pool/loc/h1/connection/host", "10.0.0.5"),
     ("_yorc/hosts-pool/loc/h1/connection/user", "yorc"),
     ("_yorc/hosts-pool/loc/h1/connection/private_key", "~/.ssh/id_rsa")]

/-- The `Connection` argument that changes nothing. -/
def noChange : Connection := { User := "", Password := "", PrivateKey := "", Host := "", Port := 0 }

/-- A host `h2` of location `loc`, holding a password and no private key. -/
def passwordOnlyHost (status : String) : TaskStore :=
  TaskStore.ofList
    [("_yorc/hosts-pool/loc/h2/status", status),
     ("_yorc/hosts-pool/loc/h2/connection/host", "10.0.0.6"),
     ("_yorc/hosts-pool/loc/h2/connection/user", "yorc"),
     ("_yorc/hosts-pool/loc/h2/connection/password", "secret")]

/-! ## `src/commands/server.go` -/

/-- Go `strings.HasPrefix`. -/
def HasPrefix (s pre : String) : Bool := (dropPrefix? s.data pre.data).isSome

/-- Go `strings.ContainsRune`. -/
def ContainsRune (s : String) (r : Char) : Bool := s.data.contains r

/-- Worker of `Split`: `cur` is the part being read, in reverse. -/
def splitAux (sep : Char) : List Char → List Char → List String
  | [], cur => [String.mk cur.reverse]
  | c :: s, cur =>
    if c = sep then String.mk cur.reverse :: splitAux sep s [] else splitAux sep s (c :: cur)

/-- Go `strings.Split(s, sep)` for a separator of one character: the parts between the
separators, empty parts included. -/
def Split (s : String) (sep : Char) : List String := splitAux sep s.data []

/-- Go `strings.SplitN(s, sep, 2)` for a separator of one character: `s` cut at the
first separator, or `s` alone when it has none. -/
def SplitN2 (s : String) (sep : Char) : List String :=
  if s.data.contains sep then
    [String.mk (s.data.takeWhile (fun c => c != sep)),
     String.mk ((s.data.dropWhile (fun c => c != sep)).drop 1)]
  else [s]

/-- Go `strings.TrimLeft(s, cutset)`: `s` without its leading characters that belong to
`cutset`. -/
def TrimLeft (s cutset : String) : String :=
  String.mk (s.data.dropWhile (fun c => cutset.data.contains c))

/-- Worker of `Replace`: `n` replacements are left, and `skip` characters of the match
just replaced are still to be passed over. -/
def replaceAux (old new : List Char) : List Char → Nat → Nat → List Char
  | [], _, _ => []
  | _ :: rest, n, skip + 1 => replaceAux old new rest n skip
  | c :: rest, 0, 0 => c :: rest
  | c :: rest, n + 1, 0 =>
    if (dropPrefix? (c :: rest) old).isSome then
      new ++ replaceAux old new rest n (old.length - 1)
    else c :: replaceAux old new rest (n + 1) 0

/-- Go `strings.Replace(s, old, new, n)` for a non-empty `old` and `n ≥ 0`: the first `n`
non-overlapping occurrences of `old` are replaced by `new`. -/
def Replace (s old new : String) (n : Nat) : String :=
  String.mk (replaceAux old.data new.data s.data n 0)

/-- Go `type serverExtraParams struct`, without its two function fields: `storeFn` and
`readConfFn` are named by `extraParamStore` below. -/
structure serverExtraParams where
  argPrefix : String
  envPrefix : String
  viperPrefix : String
  viperNames : List String
  subSplit : Nat

/-- The first element of `resolvedServerExtraParams` (lines 98-106). -/
def infraExtraParams : serverExtraParams :=
  { argPrefix := "infrastructure_", envPrefix := "YORC_INFRA_",
    viperPrefix := "infrastructures.", viperNames := [], subSplit := 1 }

/-- The second element of `resolvedServerExtraParams` (lines 107-114); `subSplit` is
left at its zero value. -/
def vaultExtraParams : serverExtraParams :=
  { argPrefix := "vault_", envPrefix := "YORC_VAULT_", viperPrefix := "vault.",
    viperNames := [], subSplit := 0 }

/-- The calls made on `viper` and on the flag set of `serverCmd`, in order. -/
inductive ViperCall where
  | flagBool (flagName : String)
  | flagString (flagName : String)
  | setDefaultBool (viperName : String)
  | setDefaultString (viperName : String)
  | bindPFlag (viperName flagName : String)
  | bindEnv (viperName envName : String)
  deriving DecidableEq

/-- The flag name of lines 124 and 136. -/
def flagNameOf (arg : String) : String :=
  if ContainsRune arg '=' then TrimLeft ((Split arg '=').headD "") "-"
  else TrimLeft arg "-"

/-- The viper name of lines 125 and 137. -/
def viperNameOf (sep : serverExtraParams) (flagName : String) : String :=
  Replace (Replace flagName sep.argPrefix sep.viperPrefix 1) "_" "." sep.subSplit

/-- The viper name of line 155, from the name of an environment variable. -/
def envViperNameOf (sep : serverExtraParams) (envName : String) : String :=
  ToLower (Replace (Replace envName sep.envPrefix sep.viperPrefix 1) "_" "." sep.subSplit)

/-- The body of the loop `for i := range args` (lines 119-150) for `args[i]`, with
`next` the argument `args[i+1]` when there is one. -/
def argCalls (sep : serverExtraParams) (arg : String) (next : Option String) :
    List ViperCall :=
  if ContainsRune arg '=' then
    (if (Split arg '=').length = 1 then
      [ViperCall.flagBool (flagNameOf arg),
       ViperCall.setDefaultBool (viperNameOf sep (flagNameOf arg))]
    else
      [ViperCall.flagString (flagNameOf arg),
       ViperCall.setDefaultString (viperNameOf sep (flagNameOf arg))]) ++
    [ViperCall.bindPFlag (viperNameOf sep (flagNameOf arg)) (flagNameOf arg)]
  else
    (match next with
     | some a =>
       if !HasPrefix a "--" then
         [ViperCall.flagString (flagNameOf arg),
          ViperCall.setDefaultString (viperNameOf sep (flagNameOf arg))]
       else
         [ViperCall.flagBool (flagNameOf arg),
          ViperCall.setDefaultBool (viperNameOf sep (flagNameOf arg))]
     | none =>
       [ViperCall.flagBool (flagNameOf arg),
        ViperCall.setDefaultBool (viperNameOf sep (flagNameOf arg))]) ++
    [ViperCall.bindPFlag (viperNameOf sep (flagNameOf arg)) (flagNameOf arg)]

/-- The loop `for i := range args` (lines 118-151): the calls made and the viper names
appended, in order. -/
def argsLoop (sep : serverExtraParams) : List String → List ViperCall × List String
  | [] => ([], [])
  | arg :: rest =>
    if HasPrefix arg ("--" ++ sep.argPrefix) then
      (argCalls sep arg rest.head? ++ (argsLoop sep rest).1,
        viperNameOf sep (flagNameOf arg) :: (argsLoop sep rest).2)
    else argsLoop sep rest

/-- The loop `for _, envVar := range os.Environ()` (lines 152-161), from the viper
names gathered so far. -/
def envLoop (sep : serverExtraParams) : List String → List String →
    List ViperCall × List String
  | [], viperNames => ([], viperNames)
  | envVar :: rest, viperNames =>
    if HasPrefix envVar sep.envPrefix then
      let envName := (SplitN2 envVar '=').headD ""
      let viperName := envViperNameOf sep envName
      let r := envLoop sep rest
        (if viperNames.contains viperName then viperNames else viperNames ++ [viperName])
      (ViperCall.bindEnv viperName envName :: r.1, r.2)
    else envLoop sep rest viperNames

/-- One turn of the loop `for _, sep := range resolvedServerExtraParams`. -/
def extraFlagsOf (sep : serverExtraParams) (args environ : List String) :
    List ViperCall × serverExtraParams :=
  let a := argsLoop sep args
  let e := envLoop sep environ (sep.viperNames ++ a.2)
  (a.1 ++ e.1, { sep with viperNames := e.2 })

/-- Go `serverInitExtraFlags`: the calls made on viper and on the flag set, and
`resolvedServerExtraParams` afterwards; `environ` is what `os.Environ()` returns. -/
def serverInitExtraFlags (args environ : List String) :
    List ViperCall × List serverExtraParams :=
  ((extraFlagsOf infraExtraParams args environ).1 ++
      (extraFlagsOf vaultExtraParams args environ).1,
    [(extraFlagsOf infraExtraParams args environ).2,
     (extraFlagsOf vaultExtraParams args environ).2])

/-- Go `config.Configuration`, with the two fields written here: `Infrastructures` maps
a name to a `config.DynamicMap` (`none` is the nil map) and `Vault` is a
`config.DynamicMap`; the values are kept in textual form. -/
structure Configuration where
  Infrastructures : Option (String → Option TaskStore)
  Vault : TaskStore

/-- Go `addServerExtraInfraParams`; `viperGet` is `viper.Get`.  Indexing `paramParts`
beyond its length is a runtime panic. -/
def addServerExtraInfraParams (viperGet : String → String) (cfg : Configuration)
    (infraParam : String) : Outcome Configuration :=
  let infras : String → Option TaskStore := cfg.Infrastructures.getD (fun _ => none)
  let paramParts := Split infraParam '.'
  match paramParts.get? 1 with
  | none =>
    .panic ("runtime error: index out of range [1] with length " ++ toString paramParts.length)
  | some provider =>
    match paramParts.get? 2 with
    | none =>
      .panic ("runtime error: index out of range [2] with length " ++
        toString paramParts.length)
    | some key =>
      .ok { cfg with
            Infrastructures := some (fun name =>
              if name = provider then
                some (((infras provider).getD emptyStore).put key (viperGet infraParam))
              else infras name) }

/-- Go `addServerExtraVaultParam`. -/
def addServerExtraVaultParam (viperGet : String → String) (cfg : Configuration)
    (vaultParam : String) : Outcome Configuration :=
  match (Split vaultParam '.').get? 1 with
  | none =>
    .panic ("runtime error: index out of range [1] with length " ++
      toString (Split vaultParam '.').length)
  | some key => .ok { cfg with Vault := cfg.Vault.put key (viperGet vaultParam) }

/-- A name written in lower-case ASCII and without `=`, as a flag name and the name of
an environment variable can both spell it. -/
def lowerName (s : String) : Bool :=
  s.data.all (fun c => decide (c.toNat < 128) && !c.isUpper && c != '=')

/-! ## Basic facts -/

theorem rc_set (vm : VisitedMap) (k : String) (v : visitStep) (n : String) :
    rc (vm.set k v) n = if n = k then v.refCount else rc vm n := by
  unfold rc VisitedMap.set
  by_cases h : n = k <;> simp [h]

theorem rc_of_none {vm : VisitedMap} {n : String} (h : vm n = none) : rc vm n = 0 := by
  unfold rc; rw [h]

theorem rc_of_some {vm : VisitedMap} {n : String} {vs : visitStep} (h : vm n = some vs) :
    rc vm n = vs.refCount := by
  unfold rc; rw [h]

theorem inDeg_nil (nx : String → List String) (n : String) : inDeg nx [] n = 0 := rfl

theorem inDeg_append (nx : String → List String) (a b : List String) (n : String) :
    inDeg nx (a ++ b) n = inDeg nx a n + inDeg nx b n := by
  simp [inDeg]

theorem inDeg_single (nx : String → List String) (s n : String) :
    inDeg nx [s] n = (nx s).count n := by
  simp [inDeg]

theorem inDeg_pos_of_mem {nx : String → List String} {L : List String} {t n : String}
    (ht : t ∈ L) (hn : n ∈ nx t) : 1 ≤ inDeg nx L n := by
  induction L with
  | nil => cases ht
  | cons a L ih =>
    have hcons : inDeg nx (a :: L) n = (nx a).count n + inDeg nx L n := by simp [inDeg]
    rw [hcons]
    rcases List.mem_cons.1 ht with h | h
    · subst h
      have := List.count_pos_iff.2 hn
      omega
    · have := ih h
      omega

theorem inDeg_eq_zero {nx : String → List String} {L : List String} {n : String}
    (h : ∀ t ∈ L, n ∉ nx t) : inDeg nx L n = 0 := by
  induction L with
  | nil => rfl
  | cons a L ih =>
    have hcons : inDeg nx (a :: L) n = (nx a).count n + inDeg nx L n := by simp [inDeg]
    rw [hcons, ih (fun t ht => h t (List.mem_cons_of_mem _ ht)),
      List.count_eq_zero.2 (h a (List.mem_cons_self _ _))]

theorem Persist.refl (vm : VisitedMap) : Persist vm vm :=
  fun _ vs h => ⟨vs, h, rfl⟩

theorem Persist.trans {a b c : VisitedMap} (h1 : Persist a b) (h2 : Persist b c) :
    Persist a c := by
  intro t vs h
  obtain ⟨vs1, hb, e1⟩ := h1 t vs h
  obtain ⟨vs2, hc, e2⟩ := h2 t vs1 hb
  exact ⟨vs2, hc, e2.trans e1⟩

/-! ## The invariant is kept by the two map updates -/

theorem Persist.of_bump {vm : VisitedMap} {n : String} {vs : visitStep} (h : vm n = some vs) :
    Persist vm (vm.set n { vs with refCount := vs.refCount + 1 }) := by
  intro t ws ht
  by_cases e : t = n
  · subst e
    rw [h] at ht
    cases ht
    exact ⟨{ vs with refCount := vs.refCount + 1 }, by simp [VisitedMap.set], rfl⟩
  · exact ⟨ws, by simp [VisitedMap.set, e, ht], rfl⟩

theorem Good.bump {nx : String → List String} {vm : VisitedMap} {L : List String}
    (g : Good nx vm L) {n : String} {vs : visitStep} (h : vm n = some vs) :
    Good nx (vm.set n { vs with refCount := vs.refCount + 1 }) L := by
  have look : ∀ s ws, (vm.set n { vs with refCount := vs.refCount + 1 }) s = some ws →
      ∃ ws0, vm s = some ws0 ∧ ws0.step = ws.step := by
    intro s ws hs
    by_cases e : s = n
    · subst e
      simp [VisitedMap.set] at hs
      exact ⟨vs, h, by rw [← hs]⟩
    · simp [VisitedMap.set, e] at hs
      exact ⟨ws, hs, rfl⟩
  refine ⟨g.nodup, ?_, g.ranked, ?_, ?_, ?_⟩
  · intro s
    rw [g.dom s]
    constructor
    · rintro ⟨ws, hs⟩
      obtain ⟨ws1, h1, _⟩ := Persist.of_bump h s ws hs
      exact ⟨ws1, h1⟩
    · rintro ⟨ws, hs⟩
      obtain ⟨ws0, h0, _⟩ := look s ws hs
      exact ⟨ws0, h0⟩
  · intro s ws hs
    obtain ⟨ws0, h0, e0⟩ := look s ws hs
    rw [← e0]
    exact g.name s ws0 h0
  · intro s ws hs
    obtain ⟨ws0, h0, e0⟩ := look s ws hs
    rw [← e0]
    exact g.next s ws0 h0
  · intro s ws hs c hc
    obtain ⟨ws0, h0, e0⟩ := look s ws hs
    rw [← e0] at hc
    obtain ⟨vc, hvc, ec⟩ := g.child s ws0 h0 c hc
    obtain ⟨vc1, hvc1, ec1⟩ := Persist.of_bump h c.Name vc hvc
    exact ⟨vc1, hvc1, ec1.trans ec⟩

theorem le_sum_map_of_mem (rank : String → Nat) {l : List String} {n : String} (h : n ∈ l) :
    rank n ≤ (l.map rank).sum := by
  induction l with
  | nil => cases h
  | cons a l ih =>
    simp only [List.map_cons, List.sum_cons]
    rcases List.mem_cons.1 h with e | e
    · subst e
      omega
    · have := ih e
      omega

theorem Good.insert {nx : String → List String} {vm : VisitedMap} {L : List String}
    (g : Good nx vm L) {s : String} {st : Step} (hs : s ∉ L)
    (hclosed : ∀ n ∈ nx s, n ∈ L) (hname : st.Name = s)
    (hnext : st.Next.map Step.Name = nx s)
    (hchild : ∀ c ∈ st.Next, ∃ vc, vm c.Name = some vc ∧ vc.step = c) :
    Good nx (vm.set s { refCount := 0, step := st }) (L ++ [s]) := by
  have keep : ∀ t ws, vm t = some ws →
      (vm.set s { refCount := 0, step := st }) t = some ws := by
    intro t ws ht
    have : t ≠ s := by
      rintro rfl
      exact hs ((g.dom _).2 ⟨ws, ht⟩)
    simp [VisitedMap.set, this, ht]
  have look : ∀ t ws, (vm.set s { refCount := 0, step := st }) t = some ws →
      (t = s ∧ ws.step = st) ∨ (t ≠ s ∧ vm t = some ws) := by
    intro t ws ht
    by_cases e : t = s
    · subst e
      simp [VisitedMap.set] at ht
      exact Or.inl ⟨rfl, by rw [← ht]⟩
    · simp [VisitedMap.set, e] at ht
      exact Or.inr ⟨e, ht⟩
  refine ⟨?_, ?_, ?_, ?_, ?_, ?_⟩
  · exact List.nodup_append.2 ⟨g.nodup, List.nodup_singleton s, by
      intro a ha hb
      rw [List.mem_singleton] at hb
      subst hb
      exact hs ha⟩
  · intro t
    rw [List.mem_append, List.mem_singleton, g.dom t]
    constructor
    · rintro (⟨ws, ht⟩ | rfl)
      · exact ⟨ws, keep t ws ht⟩
      · exact ⟨{ refCount := 0, step := st }, by simp [VisitedMap.set]⟩
    · rintro ⟨ws, ht⟩
      rcases look t ws ht with ⟨e, _⟩ | ⟨_, h0⟩
      · exact Or.inr e
      · exact Or.inl ⟨ws, h0⟩
  · obtain ⟨rank, hr⟩ := g.ranked
    refine ⟨fun x => if x = s then ((nx s).map rank).sum + 1 else rank x, ?_⟩
    intro t ht n hn
    rcases List.mem_append.1 ht with h | h
    · have tne : t ≠ s := fun e => hs (e ▸ h)
      obtain ⟨hnL, hlt⟩ := hr t h n hn
      have nne : n ≠ s := fun e => hs (e ▸ hnL)
      simp only [tne, nne, if_false]
      exact ⟨List.mem_append_left _ hnL, hlt⟩
    · rw [List.mem_singleton] at h
      subst h
      have hnL := hclosed n hn
      have nne : n ≠ t := fun e => hs (e ▸ hnL)
      simp only [nne, if_false, if_true]
      exact ⟨List.mem_append_left _ hnL, Nat.lt_succ_of_le (le_sum_map_of_mem rank hn)⟩
  · intro t ws ht
    rcases look t ws ht with ⟨e, e1⟩ | ⟨_, h0⟩
    · rw [e1, e, hname]
    · exact g.name t ws h0
  · intro t ws ht
    rcases look t ws ht with ⟨e, e1⟩ | ⟨_, h0⟩
    · rw [e1, e, hnext]
    · exact g.next t ws h0
  · intro t ws ht c hc
    rcases look t ws ht with ⟨_, e1⟩ | ⟨_, h0⟩
    · rw [e1] at hc
      obtain ⟨vc, hvc, ec⟩ := hchild c hc
      exact ⟨vc, keep _ vc hvc, ec⟩
    · obtain ⟨vc, hvc, ec⟩ := g.child t ws h0 c hc
      exact ⟨vc, keep _ vc hvc, ec⟩

/-- Inside a good map no step reaches one of its own predecessors. -/
theorem Good.no_back_edge {nx : String → List String} {vm : VisitedMap} {L : List String}
    (g : Good nx vm L) {a b : String} (ha : a ∈ L) (hb : b ∈ nx a)
    (hreach : Relation.ReflTransGen (fun x y => y ∈ nx x) b a) : False := by
  obtain ⟨rank, hr⟩ := g.ranked
  have down : ∀ y, Relation.ReflTransGen (fun x y => y ∈ nx x) b y → y ∈ L ∧ rank y ≤ rank b := by
    intro y hy
    induction hy with
    | refl => exact ⟨(hr a ha b hb).1, le_refl _⟩
    | tail _ hstep ih =>
      obtain ⟨h1, h2⟩ := hr _ ih.1 _ hstep
      exact ⟨h1, by omega⟩
  have h1 := (hr a ha b hb).2
  have h2 := (down a hreach).2
  omega

theorem Good.no_cycle {nx : String → List String} {vm : VisitedMap} {L : List String}
    (g : Good nx vm L) {a : String} (ha : a ∈ L) :
    ¬ Relation.TransGen (fun x y => y ∈ nx x) a a := by
  intro h
  obtain ⟨b, hb, hreach⟩ := Relation.TransGen.head'_iff.1 h
  exact g.no_back_edge ha hb hreach

/-! ## Partial correctness of the traversal -/

theorem readNext_sound (nx : String → List String)
    (rec : String → VisitedMap → Outcome (Step × VisitedMap)) (sp : String)
    (hrec : ∀ n vm L st vm1, Good nx vm L → n ∉ L → rec n vm = .ok (st, vm1) →
      StepPost nx vm L n st vm1) :
    ∀ (pairs : List KVPair) (acc : List Step) (vm : VisitedMap) (L : List String)
      (next : List Step) (vm1 : VisitedMap), Good nx vm L →
      readNext rec sp pairs acc vm = .ok (next, vm1) →
      LoopPost nx vm L (pairs.map (fun p => TrimPrefix p.Key (sp ++ "/next/"))) acc next vm1 := by
  intro pairs
  induction pairs with
  | nil =>
    intro acc vm L next vm1 g h
    simp only [readNext, Outcome.ok.injEq, Prod.mk.injEq] at h
    obtain ⟨rfl, rfl⟩ := h
    refine ⟨⟨[], ?_, ?_, ?_, ?_, ?_⟩, ⟨[], by simp, rfl, by simp⟩, Persist.refl _⟩
    · simpa using g
    · simp
    · simp
    · simp [inDeg_nil]
    · simp
  | cons p rest ih =>
    intro acc vm L next vm1 g h
    rw [readNext] at h
    simp only [List.map_cons]
    generalize hn : TrimPrefix p.Key (sp ++ "/next/") = n at h ⊢
    cases hv : vm n with
    | some vs =>
      simp only [hv] at h
      have hnL : n ∈ L := (g.dom n).2 ⟨vs, hv⟩
      obtain ⟨⟨new, g1, hdesc, hmem, hrc, hpos⟩, ⟨steps, e1, e2, e3⟩, hp⟩ :=
        ih _ _ L next vm1 (g.bump hv) h
      have hp0 : Persist vm vm1 := (Persist.of_bump hv).trans hp
      refine ⟨⟨new, g1, ?_, ?_, ?_, ?_⟩, ⟨vs.step :: steps, ?_, ?_, ?_⟩, hp0⟩
      · intro t ht
        obtain ⟨m, hm, hr⟩ := hdesc t ht
        exact ⟨m, List.mem_cons_of_mem _ hm, hr⟩
      · intro m hm
        rcases List.mem_cons.1 hm with e | e
        · rw [e]; exact List.mem_append_left _ hnL
        · exact hmem m e
      · intro m
        rw [hrc m, rc_set, List.count_cons]
        by_cases e : m = n
        · subst e
          simp [rc_of_some hv]
          omega
        · have e' : ¬ n = m := fun x => e x.symm
          simp [e, e']
      · intro t ht
        have := hpos t ht
        rw [List.count_cons]
        omega
      · rw [e1]; simp
      · simp [e2, g.name n vs hv]
      · intro c hc
        rcases List.mem_cons.1 hc with e | e
        · subst e
          rw [g.name n vs hv]
          exact hp0 n vs hv
        · exact e3 c e
    | none =>
      simp only [hv] at h
      have hnL : n ∉ L := fun x => by
        obtain ⟨vs, hvs⟩ := (g.dom n).1 x
        rw [hv] at hvs
        cases hvs
      cases hr : rec n vm with
      | err e => simp [hr] at h
      | panic e => simp [hr] at h
      | diverge => simp [hr] at h
      | ok r =>
        obtain ⟨st, vm2⟩ := r
        simp only [hr] at h
        obtain ⟨⟨new1, g2, hin, hdesc1, hrc1, hpos1⟩, hentry, hp1⟩ := hrec n vm L st vm2 g hnL hr
        simp only [hentry] at h
        obtain ⟨⟨new, g1, hdesc, hmem, hrc, hpos⟩, ⟨steps, e1, e2, e3⟩, hp⟩ :=
          ih _ _ (L ++ new1) next vm1 (g2.bump hentry) h
        have hp2 : Persist vm2 vm1 := (Persist.of_bump hentry).trans hp
        refine ⟨⟨new1 ++ new, by simpa [List.append_assoc] using g1, ?_, ?_, ?_, ?_⟩,
          ⟨st :: steps, ?_, ?_, ?_⟩, hp1.trans hp2⟩
        · intro t ht
          rcases List.mem_append.1 ht with h1 | h1
          · exact ⟨n, List.mem_cons_self _ _, hdesc1 t h1⟩
          · obtain ⟨m, hm, hr⟩ := hdesc t h1
            exact ⟨m, List.mem_cons_of_mem _ hm, hr⟩
        · intro m hm
          rcases List.mem_cons.1 hm with e | e
          · rw [e]
            exact List.mem_append_right _ (List.mem_append_left _ hin)
          · have := hmem m e
            simpa [List.append_assoc] using this
        · intro m
          rw [hrc m, rc_set, List.count_cons, inDeg_append]
          by_cases e : m = n
          · subst e
            have := hrc1 m
            have h0 : rc vm2 m = 0 := rc_of_some hentry
            rw [h0] at this
            simp
            omega
          · have e' : ¬ n = m := fun x => e x.symm
            simp [e, e', hrc1 m]
            omega
        · intro t ht
          rw [List.count_cons, inDeg_append]
          rcases List.mem_append.1 ht with h1 | h1
          · rcases hpos1 t h1 with e | e
            · subst e
              simp
              omega
            · omega
          · have := hpos t h1
            omega
        · rw [e1]; simp
        · have := g2.name n _ hentry
          simp at this
          simp [e2, this]
        · intro c hc
          rcases List.mem_cons.1 hc with e | e
          · subst e
            have hname := g2.name n _ hentry
            simp at hname
            rw [hname]
            obtain ⟨w, hw, ew⟩ := hp2 n _ hentry
            exact ⟨w, hw, ew⟩
          · exact e3 c e

theorem nextNames_of_list {kv : KV} {sp s : String} {ps : List KVPair}
    (h : kv.List (sp ++ s ++ "/next") = .ok ps) :
    nextNames kv sp s = ps.map (fun p => TrimPrefix p.Key (sp ++ s ++ "/next/")) := by
  unfold nextNames
  rw [h]

theorem readStep_sound (kv : KV) (sp : String) :
    ∀ (fuel : Nat) (s : String) (vm : VisitedMap) (L : List String) (st : Step)
      (vm1 : VisitedMap), Good (nextNames kv sp) vm L → s ∉ L →
      readStep kv sp fuel s vm = .ok (st, vm1) →
      StepPost (nextNames kv sp) vm L s st vm1 := by
  intro fuel
  induction fuel with
  | zero =>
    intro s vm L st vm1 _ _ h
    simp [readStep] at h
  | succ fuel ih =>
    intro s vm L st vm1 g hs h
    rw [readStep] at h
    simp only at h
    cases hget : kv.Get (sp ++ s ++ "/node") with
    | error e => simp [hget] at h
    | ok o =>
      cases o with
      | none => simp [hget] at h
      | some node =>
        simp only [hget] at h
        cases hact : kv.List (sp ++ s ++ "/activity") with
        | error e => simp [hact] at h
        | ok acts =>
          simp only [hact] at h
          split at h
          · cases h
          · cases hra : readActivities (sp ++ s) acts [] with
            | error e => simp [hra] at h
            | ok activities =>
              simp only [hra] at h
              cases hnx : kv.List (sp ++ s ++ "/next") with
              | error e => simp [hnx] at h
              | ok nextPairs =>
                simp only [hnx] at h
                cases hloop : readNext (readStep kv sp fuel) (sp ++ s) nextPairs [] vm with
                | err e => simp [hloop] at h
                | panic e => simp [hloop] at h
                | diverge => simp [hloop] at h
                | ok r =>
                  obtain ⟨next, vmk⟩ := r
                  simp only [hloop, Outcome.ok.injEq, Prod.mk.injEq] at h
                  obtain ⟨rfl, rfl⟩ := h
                  have hnames := nextNames_of_list hnx
                  obtain ⟨⟨new, gk, hdesc, hmem, hrc, hpos⟩, ⟨steps, e1, e2, e3⟩, hp⟩ :=
                    readNext_sound (nextNames kv sp) (readStep kv sp fuel) (sp ++ s) ih
                      nextPairs [] vm L next vmk g hloop
                  rw [← hnames] at hdesc hmem hrc hpos e2
                  simp only [List.nil_append] at e1
                  subst e1
                  have hsk : s ∉ L ++ new := by
                    intro hin
                    rcases List.mem_append.1 hin with h1 | h1
                    · exact hs h1
                    · obtain ⟨n, hn, hr⟩ := hdesc s h1
                      exact gk.no_back_edge hin hn hr
                  have hnone : vmk s = none := by
                    cases hv : vmk s with
                    | none => rfl
                    | some vs => exact absurd ((gk.dom s).2 ⟨vs, hv⟩) hsk
                  have gfin : Good (nextNames kv sp)
                      (vmk.set s { refCount := 0, step := Step.mk s node.Value activities next })
                      (L ++ new ++ [s]) :=
                    gk.insert hsk hmem rfl e2 e3
                  refine ⟨⟨new ++ [s], by simpa [List.append_assoc] using gfin, by simp,
                    ?_, ?_, ?_⟩, by simp [VisitedMap.set], ?_⟩
                  · intro t ht
                    rcases List.mem_append.1 ht with h1 | h1
                    · obtain ⟨n, hn, hr⟩ := hdesc t h1
                      exact Relation.ReflTransGen.head hn hr
                    · rw [List.mem_singleton] at h1
                      rw [h1]
                  · intro n
                    rw [rc_set, inDeg_append, inDeg_single]
                    by_cases e : n = s
                    · subst e
                      have h0 : rc vm n = 0 := by
                        cases hv : vm n with
                        | none => exact rc_of_none hv
                        | some vs => exact absurd ((g.dom n).2 ⟨vs, hv⟩) hs
                      have h1 : inDeg (nextNames kv sp) new n = 0 :=
                        inDeg_eq_zero (fun t ht hn =>
                          hsk ((gk.ranked.choose_spec t (List.mem_append_right _ ht) n hn).1))
                      have h2 : (nextNames kv sp n).count n = 0 :=
                        List.count_eq_zero.2 (fun hn => hsk (hmem n hn))
                      simp [h0, h1, h2]
                    · simp only [e, if_false]
                      rw [hrc n]
                      omega
                  · intro t ht
                    rcases List.mem_append.1 ht with h1 | h1
                    · right
                      have := hpos t h1
                      rw [inDeg_append, inDeg_single]
                      exact this
                    · left
                      exact List.mem_singleton.1 h1
                  · intro t vs ht
                    obtain ⟨vs1, hv1, ev1⟩ := hp t vs ht
                    have tne : t ≠ s := by
                      rintro rfl
                      rw [hnone] at hv1
                      cases hv1
                    exact ⟨vs1, by simp [VisitedMap.set, tne, hv1], ev1⟩

theorem exists_of_inDeg_pos {nx : String → List String} {L : List String} {n : String}
    (h : 1 ≤ inDeg nx L n) : ∃ u ∈ L, n ∈ nx u := by
  by_contra hne
  have : inDeg nx L n = 0 := inDeg_eq_zero (fun t ht hn => hne ⟨t, ht, hn⟩)
  omega

theorem TopInv.init (nx : String → List String) (ks : List String) :
    TopInv nx ks [] VisitedMap.empty [] := by
  refine ⟨⟨List.nodup_nil, ?_, ⟨fun _ => 0, ?_⟩, ?_, ?_, ?_⟩, ?_, ?_, ?_, ?_, ?_, ?_⟩ <;>
    simp [VisitedMap.empty, rc, inDeg]

theorem readPotentialRoots_sound (kv : KV) (sp : String) (fuel : Nat) (ks : List String) :
    ∀ (keys : List String) (pr : List Step) (vm : VisitedMap) (L : List String)
      (pr1 : List Step) (vm1 : VisitedMap),
      (∀ k ∈ keys, ∀ n, keyName k = some n → n ∈ ks) →
      TopInv (nextNames kv sp) ks pr vm L →
      readPotentialRoots kv sp fuel keys pr vm = .ok (pr1, vm1) →
      ∃ L1, TopInv (nextNames kv sp) ks pr1 vm1 L1 ∧
        (∀ t ∈ L, t ∈ L1) ∧ (∀ k ∈ keys, ∀ n, keyName k = some n → n ∈ L1) := by
  intro keys
  induction keys with
  | nil =>
    intro pr vm L pr1 vm1 _ inv h
    simp only [readPotentialRoots, Outcome.ok.injEq, Prod.mk.injEq] at h
    obtain ⟨rfl, rfl⟩ := h
    exact ⟨L, inv, fun _ h => h, by simp⟩
  | cons k rest ih =>
    intro pr vm L pr1 vm1 hks inv h
    rw [readPotentialRoots] at h
    have hrest : ∀ k ∈ rest, ∀ n, keyName k = some n → n ∈ ks :=
      fun k hk => hks k (List.mem_cons_of_mem _ hk)
    cases hk : (FieldsFunc k (fun r => r == '/')).getLast? with
    | none => simp [hk] at h
    | some name =>
      have hname : name ∈ ks := hks k (List.mem_cons_self _ _) name hk
      simp only [hk] at h
      cases hv : vm name with
      | some vs =>
        simp only [hv] at h
        obtain ⟨L1, inv1, hsub, hall⟩ := ih pr vm L pr1 vm1 hrest inv h
        refine ⟨L1, inv1, hsub, ?_⟩
        intro k' hk' n hn
        rcases List.mem_cons.1 hk' with e | e
        · subst e
          have : n = name := by
            unfold keyName at hn
            rw [hk] at hn
            exact (Option.some.inj hn).symm
          rw [this]
          exact hsub name ((inv.good.dom name).2 ⟨vs, hv⟩)
        · exact hall k' e n hn
      | none =>
        simp only [hv] at h
        have hnL : name ∉ L := fun x => by
          obtain ⟨vs, hvs⟩ := (inv.good.dom name).1 x
          rw [hv] at hvs
          cases hvs
        cases hr : readStep kv sp fuel name vm with
        | err e => simp [hr] at h
        | panic e => simp [hr] at h
        | diverge => simp [hr] at h
        | ok r =>
          obtain ⟨st, vm2⟩ := r
          simp only [hr] at h
          obtain ⟨⟨new, g2, hin, hdesc, hrc, hpos⟩, hentry, hp⟩ :=
            readStep_sound kv sp fuel name vm L st vm2 inv.good hnL hr
          have hstname : st.Name = name := g2.name name _ hentry
          have hrc0 : rc vm2 name = 0 := rc_of_some hentry
          have inv2 : TopInv (nextNames kv sp) ks (pr ++ [st]) vm2 (L ++ new) := by
            refine ⟨g2, ?_, ?_, ?_, ?_, ?_, ?_⟩
            · intro n
              rw [hrc n, inv.count n, inDeg_append]
            · rw [List.map_append, List.map_singleton, hstname]
              refine List.nodup_append.2 ⟨inv.prNodup, List.nodup_singleton _, ?_⟩
              intro a ha hb
              rw [List.mem_singleton] at hb
              subst hb
              obtain ⟨c, hc, e⟩ := List.mem_map.1 ha
              obtain ⟨vc, hvc, _⟩ := inv.prEntry c hc
              rw [e, hv] at hvc
              cases hvc
            · intro c hc
              rcases List.mem_append.1 hc with h1 | h1
              · obtain ⟨vc, hvc, ec⟩ := inv.prEntry c h1
                obtain ⟨vc1, hvc1, ec1⟩ := hp _ vc hvc
                exact ⟨vc1, hvc1, ec1.trans ec⟩
              · rw [List.mem_singleton] at h1
                subst h1
                rw [hstname]
                exact ⟨_, hentry, rfl⟩
            · intro c hc
              rcases List.mem_append.1 hc with h1 | h1
              · exact inv.prFrom c h1
              · rw [List.mem_singleton] at h1
                subst h1
                rw [hstname]
                exact hname
            · intro t ht
              have viaNew : Relation.ReflTransGen (fun a b => b ∈ nextNames kv sp a) name t →
                  ∃ r ∈ pr ++ [st], rc vm2 r.Name = 0 ∧
                    Relation.ReflTransGen (fun a b => b ∈ nextNames kv sp a) r.Name t :=
                fun hr => ⟨st, by simp, by rw [hstname]; exact hrc0, by rw [hstname]; exact hr⟩
              rcases List.mem_append.1 ht with h1 | h1
              · obtain ⟨r, hrpr, hr0, hreach⟩ := inv.covered t h1
                by_cases hz : rc vm2 r.Name = 0
                · exact ⟨r, List.mem_append_left _ hrpr, hz, hreach⟩
                · have hposr : 1 ≤ inDeg (nextNames kv sp) new r.Name := by
                    have := hrc r.Name
                    omega
                  obtain ⟨u, hu, hmem⟩ := exists_of_inDeg_pos hposr
                  exact viaNew (((hdesc u hu).tail hmem).trans hreach)
              · exact viaNew (hdesc t h1)
            · intro t ht hnot
              rw [List.map_append, List.map_singleton, List.mem_append, List.mem_singleton,
                hstname] at hnot
              push_neg at hnot
              rcases List.mem_append.1 ht with h1 | h1
              · have := inv.inner t h1 hnot.1
                have := hrc t
                omega
              · rcases hpos t h1 with e | e
                · exact absurd e hnot.2
                · have := hrc t
                  omega
          obtain ⟨L1, inv1, hsub, hall⟩ := ih (pr ++ [st]) vm2 (L ++ new) pr1 vm1 hrest inv2 h
          refine ⟨L1, inv1, fun t ht => hsub t (List.mem_append_left _ ht), ?_⟩
          intro k' hk' n hn
          rcases List.mem_cons.1 hk' with e | e
          · subst e
            have : n = name := by
              unfold keyName at hn
              rw [hk] at hn
              exact (Option.some.inj hn).symm
            rw [this]
            exact hsub name (List.mem_append_right _ hin)
          · exact hall k' e n hn

theorem filterRoots_eq (vm : VisitedMap) :
    ∀ (pr acc : List Step), (∀ c ∈ pr, ∃ vc, vm c.Name = some vc) →
      filterRoots vm pr acc = .ok (acc ++ pr.filter (fun c => decide (rc vm c.Name = 0))) := by
  intro pr
  induction pr with
  | nil => intro acc _; simp [filterRoots]
  | cons c pr ih =>
    intro acc hall
    obtain ⟨vc, hvc⟩ := hall c (List.mem_cons_self _ _)
    have hrest : ∀ c ∈ pr, ∃ vc, vm c.Name = some vc :=
      fun c hc => hall c (List.mem_cons_of_mem _ hc)
    rw [filterRoots]
    simp only [hvc]
    by_cases hz : vc.refCount = 0
    · simp only [hz, if_true]
      rw [ih _ hrest, List.filter_cons]
      simp [rc_of_some hvc, hz]
    · simp only [hz, if_false]
      rw [ih _ hrest, List.filter_cons]
      simp [rc_of_some hvc, hz]

/-! ## Termination: enough fuel gives a result -/

theorem readActivities_supported (sp : String) :
    ∀ (pairs : List KVPair) (acc : List Activity),
      (∀ a ∈ pairs, TrimPrefix a.Key (sp ++ "/activity/") ∈
        ["delegate", "set-state", "operation"]) →
      readActivities sp pairs acc = .ok (acc ++ pairs.filterMap
        (fun a => activityOfKey (TrimPrefix a.Key (sp ++ "/activity/")) a.Value)) := by
  intro pairs
  induction pairs with
  | nil => intro acc _; simp [readActivities]
  | cons a rest ih =>
    intro acc h
    have ha := h a (List.mem_cons_self _ _)
    have hrest := fun b hb => h b (List.mem_cons_of_mem _ hb)
    rw [readActivities]
    simp only [List.mem_cons, List.mem_singleton, List.not_mem_nil, or_false] at ha
    rcases ha with e | e | e
    · simp [e, activityOfKey, ih _ hrest]
    · simp [e, activityOfKey, ih _ hrest]
    · simp [e, activityOfKey, ih _ hrest]

theorem readNext_total (rec : String → VisitedMap → Outcome (Step × VisitedMap)) (sp : String) :
    ∀ (pairs : List KVPair) (acc : List Step) (vm : VisitedMap),
      (∀ p ∈ pairs, ∀ vm0, ∃ st vm1,
        rec (TrimPrefix p.Key (sp ++ "/next/")) vm0 = .ok (st, vm1) ∧
        ∃ vs, vm1 (TrimPrefix p.Key (sp ++ "/next/")) = some vs) →
      ∃ r, readNext rec sp pairs acc vm = .ok r := by
  intro pairs
  induction pairs with
  | nil => intro acc vm _; exact ⟨(acc, vm), by simp [readNext]⟩
  | cons p rest ih =>
    intro acc vm h
    have hrest := fun q hq => h q (List.mem_cons_of_mem _ hq)
    rw [readNext]
    cases hv : vm (TrimPrefix p.Key (sp ++ "/next/")) with
    | some vs =>
      simp only [hv]
      exact ih _ _ hrest
    | none =>
      obtain ⟨st, vm1, hr, vs, hvs⟩ := h p (List.mem_cons_self _ _) vm
      simp only [hr, hvs]
      exact ih _ _ hrest

theorem readStep_total (kv : KV) (sp : String) (V : List String)
    (hwf : ∀ s ∈ V, StepWellFormed kv sp s ∧ ∀ n ∈ nextNames kv sp s, n ∈ V)
    (hacyc : ∀ s ∈ V, ¬ Relation.TransGen (fun a b => b ∈ nextNames kv sp a) s s) :
    ∀ (fuel : Nat) (path : List String) (s : String) (vm : VisitedMap),
      path.Nodup → s ∈ path →
      (∀ x ∈ path, x ∈ V ∧ Relation.ReflTransGen (fun a b => b ∈ nextNames kv sp a) x s) →
      V.length < fuel + path.length →
      ∃ st vm1, readStep kv sp fuel s vm = .ok (st, vm1) ∧ ∃ vs, vm1 s = some vs := by
  intro fuel
  induction fuel with
  | zero =>
    intro path s vm hnd _ hpath hlen
    have hsub : path ⊆ V := fun x hx => (hpath x hx).1
    have := (List.subperm_of_subset hnd hsub).length_le
    omega
  | succ fuel ih =>
    intro path s vm hnd hs hpath hlen
    have hsV := (hpath s hs).1
    obtain ⟨⟨⟨node, hget⟩, ⟨acts, hact, hne, hsup⟩, ⟨ps, hnx⟩⟩, hclosed⟩ := hwf s hsV
    have hnames := nextNames_of_list hnx
    have hloop : ∃ r, readNext (readStep kv sp fuel) (sp ++ s) ps [] vm = .ok r := by
      apply readNext_total
      intro p hp vm0
      have hn : TrimPrefix p.Key (sp ++ s ++ "/next/") ∈ nextNames kv sp s := by
        rw [hnames]
        exact List.mem_map_of_mem _ hp
      generalize TrimPrefix p.Key (sp ++ s ++ "/next/") = n at hn ⊢
      have hnotin : n ∉ path := by
        intro hin
        have hreach := (hpath n hin).2
        exact hacyc n (hpath n hin).1 (Relation.TransGen.tail' hreach hn)
      apply ih (n :: path) n vm0 (List.nodup_cons.2 ⟨hnotin, hnd⟩) (List.mem_cons_self _ _)
      · intro x hx
        rcases List.mem_cons.1 hx with e | e
        · subst e
          exact ⟨hclosed _ hn, Relation.ReflTransGen.refl⟩
        · exact ⟨(hpath x e).1, (hpath x e).2.tail hn⟩
      · simp only [List.length_cons]
        omega
    obtain ⟨⟨next, vmk⟩, hloop⟩ := hloop
    have hlen0 : acts.length ≠ 0 := fun h => hne (List.length_eq_zero.1 h)
    rw [readStep]
    simp only [hget, hact, hlen0, if_false, readActivities_supported (sp ++ s) acts [] hsup,
      hnx, hloop]
    refine ⟨_, _, rfl, ?_⟩
    simp [VisitedMap.set]

theorem readPotentialRoots_total (kv : KV) (sp : String) (V : List String)
    (hwf : ∀ s ∈ V, StepWellFormed kv sp s ∧ ∀ n ∈ nextNames kv sp s, n ∈ V)
    (hacyc : ∀ s ∈ V, ¬ Relation.TransGen (fun a b => b ∈ nextNames kv sp a) s s)
    (fuel : Nat) (hfuel : V.length ≤ fuel) :
    ∀ (keys : List String) (pr : List Step) (vm : VisitedMap),
      (∀ k ∈ keys, ∃ n, keyName k = some n ∧ n ∈ V) →
      ∃ r, readPotentialRoots kv sp fuel keys pr vm = .ok r := by
  intro keys
  induction keys with
  | nil => intro pr vm _; exact ⟨(pr, vm), by simp [readPotentialRoots]⟩
  | cons k rest ih =>
    intro pr vm h
    have hrest := fun q hq => h q (List.mem_cons_of_mem _ hq)
    obtain ⟨n, hn, hnV⟩ := h k (List.mem_cons_self _ _)
    unfold keyName at hn
    rw [readPotentialRoots]
    simp only [hn]
    cases hv : vm n with
    | some vs => exact ih _ _ hrest
    | none =>
      obtain ⟨st, vm1, hr, _⟩ := readStep_total kv sp V hwf hacyc fuel [n] n vm
        (List.nodup_singleton n) (List.mem_singleton_self n)
        (fun x hx => by
          rw [List.mem_singleton] at hx
          subst hx
          exact ⟨hnV, Relation.ReflTransGen.refl⟩)
        (by simp only [List.length_singleton]; omega)
      simp only [hr]
      exact ih _ _ hrest

/-! ## The traversal as a whole -/

theorem mem_stepNames_of_keys {kv : KV} {wfPrefix : String} {ks : List String}
    (hk : kv.Keys (wfPrefix ++ "/steps/") "/" = .ok ks) (n : String) :
    n ∈ stepNames kv wfPrefix ↔ ∃ k ∈ ks, keyName k = some n := by
  unfold stepNames
  rw [hk]
  simp [List.mem_filterMap]

theorem readWorkFlowVisit_sound (kv : KV) (fuel : Nat) (wfPrefix : String)
    (pr : List Step) (vm : VisitedMap)
    (h : readWorkFlowVisit kv fuel wfPrefix = .ok (pr, vm)) :
    ∃ L, TopInv (nextNames kv (wfPrefix ++ "/steps/")) (stepNames kv wfPrefix) pr vm L ∧
      ∀ t ∈ stepNames kv wfPrefix, t ∈ L := by
  unfold readWorkFlowVisit at h
  simp only at h
  cases hk : kv.Keys (wfPrefix ++ "/steps/") "/" with
  | error e => simp [hk] at h
  | ok ks =>
    simp only [hk] at h
    obtain ⟨L, inv, _, hall⟩ := readPotentialRoots_sound kv (wfPrefix ++ "/steps/") fuel
      (stepNames kv wfPrefix) ks [] VisitedMap.empty [] pr vm
      (fun k hkmem n hn => (mem_stepNames_of_keys hk n).2 ⟨k, hkmem, hn⟩)
      (TopInv.init _ _) h
    refine ⟨L, inv, ?_⟩
    intro t ht
    obtain ⟨k, hkmem, hn⟩ := (mem_stepNames_of_keys hk t).1 ht
    exact hall k hkmem t hn

theorem readWorkFlowVisit_total (kv : KV) (wfPrefix : String)
    (hwf : WorkflowWellFormed kv wfPrefix) (hac : Acyclic kv wfPrefix)
    (fuel : Nat) (hfuel : (stepNames kv wfPrefix).length ≤ fuel) :
    ∃ r, readWorkFlowVisit kv fuel wfPrefix = .ok r := by
  obtain ⟨⟨ks, hk, hnames⟩, hsteps⟩ := hwf
  unfold readWorkFlowVisit
  simp only [hk]
  apply readPotentialRoots_total kv (wfPrefix ++ "/steps/") (stepNames kv wfPrefix) hsteps hac
    fuel hfuel
  intro k hkmem
  obtain ⟨n, hn⟩ := Option.isSome_iff_exists.1 (hnames k hkmem)
  exact ⟨n, hn, (mem_stepNames_of_keys hk n).2 ⟨k, hkmem, hn⟩⟩

theorem closed_reach {nx : String → List String} {V : List String}
    (hclosed : ∀ s ∈ V, ∀ n ∈ nx s, n ∈ V) {a b : String} (ha : a ∈ V)
    (h : Relation.ReflTransGen (fun x y => y ∈ nx x) a b) : b ∈ V := by
  induction h with
  | refl => exact ha
  | tail _ hstep ih => exact hclosed _ ih _ hstep

/-- For a well-formed acyclic workflow and enough fuel, the traversal returns, its
visited map satisfies the loop invariant, and the visited steps are exactly the steps of
the workflow. -/
theorem readWorkFlowVisit_correct (kv : KV) (wfPrefix : String)
    (hwf : WorkflowWellFormed kv wfPrefix) (hac : Acyclic kv wfPrefix)
    (fuel : Nat) (hfuel : (stepNames kv wfPrefix).length ≤ fuel) :
    ∃ pr vm L, readWorkFlowVisit kv fuel wfPrefix = .ok (pr, vm) ∧
      TopInv (nextNames kv (wfPrefix ++ "/steps/")) (stepNames kv wfPrefix) pr vm L ∧
      ∀ t, t ∈ L ↔ t ∈ stepNames kv wfPrefix := by
  obtain ⟨⟨pr, vm⟩, hr⟩ := readWorkFlowVisit_total kv wfPrefix hwf hac fuel hfuel
  obtain ⟨L, inv, hall⟩ := readWorkFlowVisit_sound kv fuel wfPrefix pr vm hr
  refine ⟨pr, vm, L, hr, inv, fun t => ⟨?_, hall t⟩⟩
  intro ht
  obtain ⟨r, hrpr, _, hreach⟩ := inv.covered t ht
  exact closed_reach (fun s hs => (hwf.2 s hs).2) (inv.prFrom r hrpr) hreach

theorem readWorkFlowFromConsul_of_visit {kv : KV} {fuel : Nat} {wfPrefix : String}
    {pr : List Step} {vm : VisitedMap} {nx : String → List String} {ks L : List String}
    (hr : readWorkFlowVisit kv fuel wfPrefix = .ok (pr, vm)) (inv : TopInv nx ks pr vm L) :
    readWorkFlowFromConsul kv fuel wfPrefix =
      .ok (pr.filter (fun c => decide (rc vm c.Name = 0))) := by
  unfold readWorkFlowFromConsul
  rw [hr]
  simp only
  rw [filterRoots_eq vm pr [] (fun c hc => by
    obtain ⟨vc, hvc, _⟩ := inv.prEntry c hc
    exact ⟨vc, hvc⟩)]
  simp

theorem Step.Reaches.tail {s m c : Step} (h : Step.Reaches s m) (hc : c ∈ m.Next) :
    Step.Reaches s c := by
  induction h with
  | refl s => exact Step.Reaches.next s c c hc (Step.Reaches.refl c)
  | next s d t hd _ ih => exact Step.Reaches.next s d c hd (ih hc)

theorem Good.reaches {nx : String → List String} {vm : VisitedMap} {L : List String}
    (g : Good nx vm L) {a b : String} {va : visitStep} (ha : vm a = some va)
    (h : Relation.ReflTransGen (fun x y => y ∈ nx x) a b) :
    ∃ vb, vm b = some vb ∧ Step.Reaches va.step vb.step := by
  induction h with
  | refl => exact ⟨va, ha, Step.Reaches.refl _⟩
  | tail _ hstep ih =>
    obtain ⟨vmid, hmid, hreach⟩ := ih
    rw [← g.next _ vmid hmid] at hstep
    obtain ⟨c, hc, hcname⟩ := List.mem_map.1 hstep
    obtain ⟨vc, hvc, ec⟩ := g.child _ vmid hmid c hc
    rw [hcname] at hvc
    exact ⟨vc, hvc, by rw [ec]; exact hreach.tail hc⟩

theorem acyclic_of_rank (kv : KV) (wfPrefix : String) (rank : String → Nat)
    (h : ∀ s ∈ stepNames kv wfPrefix, ∀ n ∈ nextNames kv (wfPrefix ++ "/steps/") s,
      n ∈ stepNames kv wfPrefix ∧ rank n < rank s) :
    Acyclic kv wfPrefix := by
  intro s hs hcyc
  have down : ∀ y, Relation.TransGen (fun a b => b ∈ nextNames kv (wfPrefix ++ "/steps/") a) s y →
      y ∈ stepNames kv wfPrefix ∧ rank y < rank s := by
    intro y hy
    induction hy with
    | single hstep => exact h s hs _ hstep
    | tail _ hstep ih =>
      obtain ⟨h1, h2⟩ := h _ ih.1 _ hstep
      exact ⟨h1, by omega⟩
  have := (down s hcyc).2
  omega

theorem chainStore_stepNames : stepNames (memKV chainStore) "wf" = ["A", "B"] := by decide

theorem chainStore_wellFormed : WorkflowWellFormed (memKV chainStore) "wf" := by
  refine ⟨⟨_, rfl, by decide⟩, ?_⟩
  intro s hs
  rw [chainStore_stepNames] at hs ⊢
  simp only [List.mem_cons, List.mem_singleton, List.not_mem_nil, or_false] at hs
  rcases hs with rfl | rfl
  · exact ⟨⟨⟨_, rfl⟩, ⟨_, rfl, by decide, by decide⟩, ⟨_, rfl⟩⟩, by decide⟩
  · exact ⟨⟨⟨_, rfl⟩, ⟨_, rfl, by decide, by decide⟩, ⟨_, rfl⟩⟩, by decide⟩

theorem chainStore_acyclic : Acyclic (memKV chainStore) "wf" :=
  acyclic_of_rank _ _ (fun s => if s = "A" then 1 else 0) (by decide)

theorem chainStore_distinct : ∀ s ∈ stepNames (memKV chainStore) "wf",
    (nextNames (memKV chainStore) ("wf" ++ "/steps/") s).Nodup := by decide

/-! ## C1 to C4: the workflow planner -/

/-- C1. For a well-formed workflow with acyclic `next` edges and fuel at least the number
of listed steps, `readWorkFlowFromConsul` returns; the names of the returned steps are
pairwise distinct (each root once); a name is returned exactly when it is a step of the
workflow that no step of the workflow lists under `next`, and exactly when it is a step
whose recorded `refCount` is zero. -/
theorem readWorkFlowFromConsul_roots (kv : KV) (wfPrefix : String)
    (hwf : WorkflowWellFormed kv wfPrefix) (hac : Acyclic kv wfPrefix)
    (fuel : Nat) (hfuel : (stepNames kv wfPrefix).length ≤ fuel) :
    ∃ roots pr vm, readWorkFlowVisit kv fuel wfPrefix = .ok (pr, vm) ∧
      readWorkFlowFromConsul kv fuel wfPrefix = .ok roots ∧
      (roots.map Step.Name).Nodup ∧
      (∀ n, n ∈ roots.map Step.Name ↔
        (n ∈ stepNames kv wfPrefix ∧
          ∀ t ∈ stepNames kv wfPrefix, n ∉ nextNames kv (wfPrefix ++ "/steps/") t)) ∧
      (∀ n, n ∈ roots.map Step.Name ↔
        (n ∈ stepNames kv wfPrefix ∧ ∃ vs, vm n = some vs ∧ vs.refCount = 0)) := by
  obtain ⟨pr, vm, L, hr, inv, hL⟩ := readWorkFlowVisit_correct kv wfPrefix hwf hac fuel hfuel
  have hroots := readWorkFlowFromConsul_of_visit hr inv
  have key : ∀ n, n ∈ (pr.filter (fun c => decide (rc vm c.Name = 0))).map Step.Name ↔
      (n ∈ stepNames kv wfPrefix ∧ rc vm n = 0) := by
    intro n
    constructor
    · intro hn
      obtain ⟨c, hc, rfl⟩ := List.mem_map.1 hn
      obtain ⟨hcpr, hz⟩ := List.mem_filter.1 hc
      exact ⟨inv.prFrom c hcpr, of_decide_eq_true hz⟩
    · rintro ⟨hnV, hz⟩
      have hnL := (hL n).2 hnV
      have hin : n ∈ pr.map Step.Name := by
        by_contra hnot
        have := inv.inner n hnL hnot
        omega
      obtain ⟨c, hc, rfl⟩ := List.mem_map.1 hin
      exact List.mem_map.2 ⟨c, List.mem_filter.2 ⟨hc, decide_eq_true hz⟩, rfl⟩
  refine ⟨_, pr, vm, hr, hroots, ?_, ?_, ?_⟩
  · exact inv.prNodup.sublist ((List.filter_sublist pr).map Step.Name)
  · intro n
    rw [key n]
    refine and_congr_right (fun hnV => ?_)
    rw [inv.count n]
    constructor
    · intro hz t ht hmem
      have := inDeg_pos_of_mem ((hL t).2 ht) hmem
      omega
    · intro hno
      exact inDeg_eq_zero (fun t ht => hno t ((hL t).1 ht))
  · intro n
    rw [key n]
    refine and_congr_right (fun hnV => ?_)
    obtain ⟨vs, hvs⟩ := (inv.good.dom n).1 ((hL n).2 hnV)
    rw [rc_of_some hvs]
    constructor
    · intro hz
      exact ⟨vs, hvs, hz⟩
    · rintro ⟨ws, hws, hz⟩
      rw [hvs] at hws
      cases hws
      exact hz

/-- C1, on the workflow `A → B` with fuel 2. -/
theorem readWorkFlowFromConsul_roots_witness :
    ∃ roots pr vm, readWorkFlowVisit (memKV chainStore) 2 "wf" = .ok (pr, vm) ∧
      readWorkFlowFromConsul (memKV chainStore) 2 "wf" = .ok roots ∧
      (roots.map Step.Name).Nodup ∧
      (∀ n, n ∈ roots.map Step.Name ↔
        (n ∈ stepNames (memKV chainStore) "wf" ∧
          ∀ t ∈ stepNames (memKV chainStore) "wf",
            n ∉ nextNames (memKV chainStore) ("wf" ++ "/steps/") t)) ∧
      (∀ n, n ∈ roots.map Step.Name ↔
        (n ∈ stepNames (memKV chainStore) "wf" ∧ ∃ vs, vm n = some vs ∧ vs.refCount = 0)) :=
  readWorkFlowFromConsul_roots (memKV chainStore) "wf" chainStore_wellFormed
    chainStore_acyclic 2 (by decide)

theorem inDeg_eq_filter_length {nx : String → List String} {L : List String} (n : String)
    (h : ∀ t ∈ L, (nx t).Nodup) :
    inDeg nx L n = (L.filter (fun t => decide (n ∈ nx t))).length := by
  induction L with
  | nil => rfl
  | cons a L ih =>
    have hcons : inDeg nx (a :: L) n = (nx a).count n + inDeg nx L n := by simp [inDeg]
    rw [hcons, ih (fun t ht => h t (List.mem_cons_of_mem _ ht)), List.filter_cons]
    by_cases hmem : n ∈ nx a
    · rw [List.count_eq_one_of_mem (h a (List.mem_cons_self _ _)) hmem]
      simp [hmem]
      omega
    · rw [List.count_eq_zero.2 hmem]
      simp [hmem]

/-- C2. For a well-formed acyclic workflow in which no step lists the same successor
twice, once the traversal of `readWorkFlowFromConsul` has run (with fuel at least the
number of listed steps), every step of the workflow is in the visited map and its
recorded `refCount` is the number of steps of the workflow that list it under `next`. -/
theorem readWorkFlowVisit_refCount (kv : KV) (wfPrefix : String)
    (hwf : WorkflowWellFormed kv wfPrefix) (hac : Acyclic kv wfPrefix)
    (hdistinct : ∀ s ∈ stepNames kv wfPrefix, (nextNames kv (wfPrefix ++ "/steps/") s).Nodup)
    (fuel : Nat) (hfuel : (stepNames kv wfPrefix).length ≤ fuel) :
    ∃ pr vm, readWorkFlowVisit kv fuel wfPrefix = .ok (pr, vm) ∧
      ∀ n ∈ stepNames kv wfPrefix, ∃ vs, vm n = some vs ∧
        vs.refCount = ((stepNames kv wfPrefix).dedup.filter
          (fun t => decide (n ∈ nextNames kv (wfPrefix ++ "/steps/") t))).length := by
  obtain ⟨pr, vm, L, hr, inv, hL⟩ := readWorkFlowVisit_correct kv wfPrefix hwf hac fuel hfuel
  refine ⟨pr, vm, hr, ?_⟩
  intro n hn
  obtain ⟨vs, hvs⟩ := (inv.good.dom n).1 ((hL n).2 hn)
  refine ⟨vs, hvs, ?_⟩
  have hperm : L.Perm (stepNames kv wfPrefix).dedup :=
    (List.perm_ext_iff_of_nodup inv.good.nodup (List.nodup_dedup _)).2
      (fun a => by rw [hL a, List.mem_dedup])
  rw [← rc_of_some hvs, inv.count n,
    inDeg_eq_filter_length n (fun t ht => hdistinct t ((hL t).1 ht))]
  exact (hperm.filter _).length_eq

/-- C2, on the workflow `A → B` with fuel 2. -/
theorem readWorkFlowVisit_refCount_witness :
    ∃ pr vm, readWorkFlowVisit (memKV chainStore) 2 "wf" = .ok (pr, vm) ∧
      ∀ n ∈ stepNames (memKV chainStore) "wf", ∃ vs, vm n = some vs ∧
        vs.refCount = ((stepNames (memKV chainStore) "wf").dedup.filter
          (fun t => decide (n ∈ nextNames (memKV chainStore) ("wf" ++ "/steps/") t))).length :=
  readWorkFlowVisit_refCount (memKV chainStore) "wf" chainStore_wellFormed
    chainStore_acyclic chainStore_distinct 2 (by decide)

/-- C3. For a well-formed acyclic workflow and fuel at least the number of listed steps,
`readWorkFlowFromConsul` returns roots such that every step of the workflow is the name
of a step record reached from one of the roots by following `Next` links. -/
theorem readWorkFlowFromConsul_reachable (kv : KV) (wfPrefix : String)
    (hwf : WorkflowWellFormed kv wfPrefix) (hac : Acyclic kv wfPrefix)
    (fuel : Nat) (hfuel : (stepNames kv wfPrefix).length ≤ fuel) :
    ∃ roots, readWorkFlowFromConsul kv fuel wfPrefix = .ok roots ∧
      ∀ s ∈ stepNames kv wfPrefix, ∃ r ∈ roots, ∃ st, Step.Reaches r st ∧ st.Name = s := by
  obtain ⟨pr, vm, L, hr, inv, hL⟩ := readWorkFlowVisit_correct kv wfPrefix hwf hac fuel hfuel
  refine ⟨_, readWorkFlowFromConsul_of_visit hr inv, ?_⟩
  intro s hs
  obtain ⟨r, hrpr, hz, hreach⟩ := inv.covered s ((hL s).2 hs)
  obtain ⟨vr, hvr, er⟩ := inv.prEntry r hrpr
  obtain ⟨vb, hvb, hsteps⟩ := inv.good.reaches hvr hreach
  refine ⟨r, List.mem_filter.2 ⟨hrpr, decide_eq_true hz⟩, vb.step, ?_, inv.good.name s vb hvb⟩
  rw [← er]
  exact hsteps

/-- C3, on the workflow `A → B` with fuel 2. -/
theorem readWorkFlowFromConsul_reachable_witness :
    ∃ roots, readWorkFlowFromConsul (memKV chainStore) 2 "wf" = .ok roots ∧
      ∀ s ∈ stepNames (memKV chainStore) "wf",
        ∃ r ∈ roots, ∃ st, Step.Reaches r st ∧ st.Name = s :=
  readWorkFlowFromConsul_reachable (memKV chainStore) "wf" chainStore_wellFormed
    chainStore_acyclic 2 (by decide)

/-- C4 (amended). When the `next` edges of the workflow contain a cycle,
`readWorkFlowFromConsul` returns no plan, whatever the fuel. -/
theorem readWorkFlowFromConsul_cyclic_no_plan (kv : KV) (wfPrefix : String)
    (hcyc : Cyclic kv wfPrefix) (fuel : Nat) (roots : List Step) :
    readWorkFlowFromConsul kv fuel wfPrefix ≠ .ok roots := by
  intro h
  obtain ⟨s, hs, hloop⟩ := hcyc
  unfold readWorkFlowFromConsul at h
  cases hr : readWorkFlowVisit kv fuel wfPrefix with
  | err e => simp [hr] at h
  | panic e => simp [hr] at h
  | diverge => simp [hr] at h
  | ok r =>
    obtain ⟨pr, vm⟩ := r
    obtain ⟨L, inv, hall⟩ := readWorkFlowVisit_sound kv fuel wfPrefix pr vm hr
    exact inv.good.no_cycle (hall s hs) hloop

theorem selfLoopStore_cyclic : Cyclic (memKV selfLoopStore) "wf" :=
  ⟨"A", by decide, Relation.TransGen.single (by decide)⟩

/-- C4 (amended), on the one-step workflow whose step lists itself. -/
theorem readWorkFlowFromConsul_cyclic_no_plan_witness :
    Cyclic (memKV selfLoopStore) "wf" ∧
      ∀ roots, readWorkFlowFromConsul (memKV selfLoopStore) 5 "wf" ≠ .ok roots :=
  ⟨selfLoopStore_cyclic, fun roots =>
    readWorkFlowFromConsul_cyclic_no_plan (memKV selfLoopStore) "wf" selfLoopStore_cyclic 5 roots⟩

theorem selfLoopStore_readStep_diverge (fuel : Nat) :
    readStep (memKV selfLoopStore) ("wf" ++ "/steps/") fuel "A" VisitedMap.empty = .diverge := by
  induction fuel with
  | zero => rfl
  | succ fuel ih =>
    have hget : (memKV selfLoopStore).Get ("wf" ++ "/steps/" ++ "A" ++ "/node") =
        .ok (some ⟨"wf/steps/A/node", "Compute"⟩) := rfl
    have hact : (memKV selfLoopStore).List ("wf" ++ "/steps/" ++ "A" ++ "/activity") =
        .ok [⟨"wf/steps/A/activity/delegate", "install"⟩] := rfl
    have hra : readActivities ("wf" ++ "/steps/" ++ "A")
        [⟨"wf/steps/A/activity/delegate", "install"⟩] [] =
        .ok [Activity.DelegateActivity "install"] := rfl
    have hnx : (memKV selfLoopStore).List ("wf" ++ "/steps/" ++ "A" ++ "/next") =
        .ok [⟨"wf/steps/A/next/A", ""⟩] := rfl
    have htrim : TrimPrefix "wf/steps/A/next/A" ("wf" ++ "/steps/" ++ "A" ++ "/next/") = "A" := by
      decide
    rw [readStep]
    simp only [hget, hact, hra, hnx, readNext, htrim, VisitedMap.empty, List.length_singleton,
      one_ne_zero, if_false]
    simp only [ih]

/-- C4 as stated fails: on the one-step workflow whose step lists itself under `next`
(a cycle), `readWorkFlowFromConsul` returns no error; its recursion never ends, whatever
the fuel. -/
theorem readWorkFlowFromConsul_selfLoop_diverges :
    Cyclic (memKV selfLoopStore) "wf" ∧
      (∀ fuel, readWorkFlowFromConsul (memKV selfLoopStore) fuel "wf" = .diverge) ∧
      ¬ ∃ fuel e, readWorkFlowFromConsul (memKV selfLoopStore) fuel "wf" = .err e := by
  have hdiv : ∀ fuel, readWorkFlowFromConsul (memKV selfLoopStore) fuel "wf" = .diverge := by
    intro fuel
    have hk : (memKV selfLoopStore).Keys ("wf" ++ "/steps/") "/" = .ok ["wf/steps/A/"] := rfl
    have hname : (FieldsFunc "wf/steps/A/" (fun r => r == '/')).getLast? = some "A" := by
      decide
    unfold readWorkFlowFromConsul readWorkFlowVisit
    simp only [hk, readPotentialRoots, hname, VisitedMap.empty]
    simp only [selfLoopStore_readStep_diverge fuel]
  refine ⟨selfLoopStore_cyclic, hdiv, ?_⟩
  rintro ⟨fuel, e, h⟩
  rw [hdiv fuel] at h
  cases h

/-! ## C5: activity kinds accepted by `readStep` -/

theorem readActivities_unsupported (sp : String) :
    ∀ (pairs : List KVPair) (acc : List Activity),
      (∃ a ∈ pairs, TrimPrefix a.Key (sp ++ "/activity/") ∉
        ["delegate", "set-state", "operation"]) →
      ∃ k, k ∉ ["delegate", "set-state", "operation"] ∧
        (∃ a ∈ pairs, TrimPrefix a.Key (sp ++ "/activity/") = k) ∧
        readActivities sp pairs acc = .error ("Unsupported activity type: " ++ k) := by
  intro pairs
  induction pairs with
  | nil => rintro acc ⟨a, ha, _⟩; cases ha
  | cons p rest ih =>
    intro acc hbad
    by_cases hp : TrimPrefix p.Key (sp ++ "/activity/") ∈ ["delegate", "set-state", "operation"]
    · have hrest : ∃ a ∈ rest, TrimPrefix a.Key (sp ++ "/activity/") ∉
          ["delegate", "set-state", "operation"] := by
        obtain ⟨a, ha, hna⟩ := hbad
        rcases List.mem_cons.1 ha with e | e
        · subst e; exact absurd hp hna
        · exact ⟨a, e, hna⟩
      have step : ∀ acc, ∃ acc1, readActivities sp (p :: rest) acc = readActivities sp rest acc1 := by
        intro acc
        rw [readActivities]
        simp only [List.mem_cons, List.mem_singleton, List.not_mem_nil, or_false] at hp
        rcases hp with e | e | e
        · exact ⟨acc ++ [Activity.DelegateActivity p.Value], by simp [e]⟩
        · exact ⟨acc ++ [Activity.SetStateActivity p.Value], by simp [e]⟩
        · exact ⟨acc ++ [Activity.CallOperationActivity p.Value], by simp [e]⟩
      obtain ⟨acc1, hstep⟩ := step acc
      obtain ⟨k, hk, ⟨a, ha, hak⟩, hres⟩ := ih acc1 hrest
      exact ⟨k, hk, ⟨a, List.mem_cons_of_mem _ ha, hak⟩, by rw [hstep, hres]⟩
    · refine ⟨_, hp, ⟨p, List.mem_cons_self _ _, rfl⟩, ?_⟩
      simp only [List.mem_cons, List.mem_singleton, List.not_mem_nil, or_false, not_or] at hp
      rw [readActivities]
      simp [hp.1, hp.2.1, hp.2.2]

theorem activityOfKey_isSome {key : String} (value : String)
    (h : key ∈ ["delegate", "set-state", "operation"]) :
    ∃ act, activityOfKey key value = some act := by
  simp only [List.mem_cons, List.mem_singleton, List.not_mem_nil, or_false] at h
  rcases h with e | e | e <;> subst e <;> simp [activityOfKey]

theorem filterMap_activityOfKey_length (pre : String) :
    ∀ (acts : List KVPair),
      (∀ a ∈ acts, TrimPrefix a.Key pre ∈ ["delegate", "set-state", "operation"]) →
      (acts.filterMap (fun a => activityOfKey (TrimPrefix a.Key pre) a.Value)).length =
        acts.length := by
  intro acts
  induction acts with
  | nil => intro _; rfl
  | cons a rest ih =>
    intro hsup
    obtain ⟨act, hact⟩ := activityOfKey_isSome a.Value (hsup a (List.mem_cons_self _ _))
    rw [List.filterMap_cons, hact]
    simp only [List.length_cons]
    rw [ih (fun b hb => hsup b (List.mem_cons_of_mem _ hb))]

/-- C5 (amended). For a step that has its `node` attribute and at least one activity:
when every activity is stored under `delegate`, `set-state` or `operation`, `readStep`
builds one delegate, set-state or call-operation activity per key and returns the step
whenever its successors are read; when some activity is stored under any other key
(`inline` and `call-operation` included), `readStep` fails with
`Unsupported activity type: <key>`. -/
theorem readStep_activity_kinds (kv : KV) (sp s : String) (fuel : Nat) (vm : VisitedMap)
    (node : KVPair) (acts : List KVPair)
    (hget : kv.Get (sp ++ s ++ "/node") = .ok (some node))
    (hact : kv.List (sp ++ s ++ "/activity") = .ok acts) (hne : acts ≠ []) :
    ((∀ a ∈ acts, TrimPrefix a.Key (sp ++ s ++ "/activity/") ∈
        ["delegate", "set-state", "operation"]) →
      ∃ activities, readActivities (sp ++ s) acts [] = .ok activities ∧
        activities.length = acts.length ∧
        (∀ act ∈ activities, act.ActivityType ∈ ["delegate", "set-state", "call-operation"]) ∧
        ∀ nextPairs next vm1, kv.List (sp ++ s ++ "/next") = .ok nextPairs →
          readNext (readStep kv sp fuel) (sp ++ s) nextPairs [] vm = .ok (next, vm1) →
          readStep kv sp (fuel + 1) s vm =
            .ok (Step.mk s node.Value activities next,
              vm1.set s { refCount := 0, step := Step.mk s node.Value activities next })) ∧
    ((∃ a ∈ acts, TrimPrefix a.Key (sp ++ s ++ "/activity/") ∉
        ["delegate", "set-state", "operation"]) →
      ∃ k, k ∉ ["delegate", "set-state", "operation"] ∧
        (∃ a ∈ acts, TrimPrefix a.Key (sp ++ s ++ "/activity/") = k) ∧
        readStep kv sp (fuel + 1) s vm = .err ("Unsupported activity type: " ++ k)) := by
  have hlen0 : acts.length ≠ 0 := fun h => hne (List.length_eq_zero.1 h)
  constructor
  · intro hsup
    have hra := readActivities_supported (sp ++ s) acts [] hsup
    refine ⟨_, hra, ?_, ?_, ?_⟩
    · rw [List.nil_append]
      exact filterMap_activityOfKey_length _ acts hsup
    · intro act hmem
      simp only [List.nil_append, List.mem_filterMap] at hmem
      obtain ⟨a, _, ha⟩ := hmem
      unfold activityOfKey at ha
      split_ifs at ha <;> cases ha <;> simp [Activity.ActivityType]
    · intro nextPairs next vm1 hnx hloop
      rw [readStep]
      simp only [hget, hact, hlen0, if_false, hra, hnx, hloop]
  · intro hbad
    obtain ⟨k, hk, hfrom, hres⟩ := readActivities_unsupported (sp ++ s) acts [] hbad
    refine ⟨k, hk, hfrom, ?_⟩
    rw [readStep]
    simp only [hget, hact, hlen0, if_false, hres]

/-- C5 (amended), on step `B` of the workflow `A → B`. -/
theorem readStep_activity_kinds_witness :
    ((∀ a ∈ [(⟨"wf/steps/B/activity/set-state", "started"⟩ : KVPair)],
        TrimPrefix a.Key ("wf/steps/" ++ "B" ++ "/activity/") ∈
          ["delegate", "set-state", "operation"]) →
      ∃ activities, readActivities ("wf/steps/" ++ "B")
          [⟨"wf/steps/B/activity/set-state", "started"⟩] [] = .ok activities ∧
        activities.length = [(⟨"wf/steps/B/activity/set-state", "started"⟩ : KVPair)].length ∧
        (∀ act ∈ activities, act.ActivityType ∈ ["delegate", "set-state", "call-operation"]) ∧
        ∀ nextPairs next vm1,
          (memKV chainStore).List ("wf/steps/" ++ "B" ++ "/next") = .ok nextPairs →
          readNext (readStep (memKV chainStore) "wf/steps/" 0) ("wf/steps/" ++ "B") nextPairs []
            VisitedMap.empty = .ok (next, vm1) →
          readStep (memKV chainStore) "wf/steps/" (0 + 1) "B" VisitedMap.empty =
            .ok (Step.mk "B" (KVPair.mk "wf/steps/B/node" "App").Value activities next,
              vm1.set "B"
                { refCount := 0
                  step := Step.mk "B" (KVPair.mk "wf/steps/B/node" "App").Value activities next })) ∧
    ((∃ a ∈ [(⟨"wf/steps/B/activity/set-state", "started"⟩ : KVPair)],
        TrimPrefix a.Key ("wf/steps/" ++ "B" ++ "/activity/") ∉
          ["delegate", "set-state", "operation"]) →
      ∃ k, k ∉ ["delegate", "set-state", "operation"] ∧
        (∃ a ∈ [(⟨"wf/steps/B/activity/set-state", "started"⟩ : KVPair)],
          TrimPrefix a.Key ("wf/steps/" ++ "B" ++ "/activity/") = k) ∧
        readStep (memKV chainStore) "wf/steps/" (0 + 1) "B" VisitedMap.empty =
          .err ("Unsupported activity type: " ++ k)) :=
  readStep_activity_kinds (memKV chainStore) "wf/steps/" "B" 0 VisitedMap.empty
    ⟨"wf/steps/B/node", "App"⟩ [⟨"wf/steps/B/activity/set-state", "started"⟩]
    rfl rfl (by decide)

/-- C5 as stated fails: a step whose only activity is stored under `inline` is not
accepted; `readStep` fails with `Unsupported activity type: inline`. -/
theorem readStep_inline_rejected :
    readStep (memKV inlineStore) "wf/steps/" 1 "A" VisitedMap.empty =
      .err "Unsupported activity type: inline" := by
  rfl

/-! ## C6 to C8: the task enumerations -/

theorem mapLookup_some_mem {α β : Type} [DecidableEq α] {k : α} {v : β} :
    ∀ {l : List (α × β)}, mapLookup k l = some v → (k, v) ∈ l := by
  intro l
  induction l with
  | nil => intro h; cases h
  | cons p rest ih =>
    obtain ⟨a, b⟩ := p
    intro h
    rw [mapLookup] at h
    by_cases e : k = a
    · simp only [e, if_true, Option.some.injEq] at h
      rw [e, h]
      exact List.mem_cons_self _ _
    · simp only [e, if_false] at h
      exact List.mem_cons_of_mem _ (ih h)

theorem mapLookup_isSome_iff {α β : Type} [DecidableEq α] (k : α) :
    ∀ (l : List (α × β)), (∃ v, mapLookup k l = some v) ↔ k ∈ l.map Prod.fst := by
  intro l
  induction l with
  | nil => simp [mapLookup]
  | cons p rest ih =>
    obtain ⟨a, b⟩ := p
    rw [mapLookup]
    by_cases e : k = a
    · simp [e]
    · simp only [e, if_false, List.map_cons, List.mem_cons, false_or]
      exact ih

theorem ParseTaskStatus_ok_iff (name : String) (x : TaskStatus) :
    ParseTaskStatus name = .ok x ↔ mapLookup name _TaskStatusValue = some x := by
  unfold ParseTaskStatus
  cases h : mapLookup name _TaskStatusValue with
  | none => simp
  | some y => simp

theorem ParseTaskType_ok_iff (name : String) (x : TaskType) :
    ParseTaskType name = .ok x ↔ mapLookup name _TaskTypeValue = some x := by
  unfold ParseTaskType
  cases h : mapLookup name _TaskTypeValue with
  | none => simp
  | some y => simp

/-- C6. `ParseTaskStatus` succeeds exactly on the five names INITIAL, RUNNING, DONE,
FAILED and CANCELED; when it succeeds, `String` of the result is the name parsed; and
parsing `String` of each of the five statuses gives the status back. -/
theorem ParseTaskStatus_String_roundtrip :
    (∀ name, (∃ x, ParseTaskStatus name = .ok x) ↔
      name ∈ ["INITIAL", "RUNNING", "DONE", "FAILED", "CANCELED"]) ∧
    (∀ name x, ParseTaskStatus name = .ok x → TaskStatus.String x = name) ∧
    (∀ s ∈ [TaskStatusINITIAL, TaskStatusRUNNING, TaskStatusDONE, TaskStatusFAILED,
        TaskStatusCANCELED], ParseTaskStatus (TaskStatus.String s) = .ok s) := by
  refine ⟨?_, ?_, ?_⟩
  · intro name
    have hnames : _TaskStatusValue.map Prod.fst =
        ["INITIAL", "RUNNING", "DONE", "FAILED", "CANCELED"] := by decide
    rw [← hnames, ← mapLookup_isSome_iff]
    exact exists_congr (fun x => ParseTaskStatus_ok_iff name x)
  · intro name x h
    have hall : ∀ p ∈ _TaskStatusValue, TaskStatus.String p.2 = p.1 := by decide
    exact hall (name, x) (mapLookup_some_mem ((ParseTaskStatus_ok_iff name x).1 h))
  · intro s hs
    simp only [List.mem_cons, List.mem_singleton, List.not_mem_nil, or_false] at hs
    rcases hs with rfl | rfl | rfl | rfl | rfl <;> rfl

/-- C7 as stated fails: `ParseTaskType` also accepts the name `ForcePurge`, which is
not one of the eleven listed names. -/
theorem ParseTaskType_ForcePurge_accepted :
    ParseTaskType "ForcePurge" = .ok TaskTypeForcePurge ∧
      "ForcePurge" ∉ ["Deploy", "UnDeploy", "ScaleOut", "ScaleIn", "Purge", "CustomCommand",
        "CustomWorkflow", "Query", "Action", "AddNodes", "RemoveNodes"] :=
  ⟨rfl, by decide⟩

/-- C7 (amended). `ParseTaskType` accepts exactly twelve names: Deploy, UnDeploy,
ScaleOut, ScaleIn, Purge, CustomCommand, CustomWorkflow, Query, Action, the deprecated
ForcePurge, AddNodes and RemoveNodes; it rejects every other string. -/
theorem ParseTaskType_accepts_iff (name : String) :
    (∃ x, ParseTaskType name = .ok x) ↔
      name ∈ ["Deploy", "UnDeploy", "ScaleOut", "ScaleIn", "Purge", "CustomCommand",
        "CustomWorkflow", "Query", "Action", "ForcePurge", "AddNodes", "RemoveNodes"] := by
  have hnames : _TaskTypeValue.map Prod.fst =
      ["Deploy", "UnDeploy", "ScaleOut", "ScaleIn", "Purge", "CustomCommand",
        "CustomWorkflow", "Query", "Action", "ForcePurge", "AddNodes", "RemoveNodes"] := by
    decide
  rw [← hnames, ← mapLookup_isSome_iff]
  exact exists_congr (fun x => ParseTaskType_ok_iff name x)

/-- C8. The numeric codes: task types 0 to 6 are named Deploy, UnDeploy, ScaleOut,
ScaleIn, Purge, CustomCommand, CustomWorkflow and parse back to 0 to 6; task statuses 0
to 4 are named INITIAL, RUNNING, DONE, FAILED, CANCELED and parse back to 0 to 4;
ForcePurge is 9, AddNodes 10 and RemoveNodes 11; no name parses to status 5 or to type
6666, and the strings `String` gives for those two codes are rejected by the parsers. -/
theorem task_numeric_codes :
    [TaskTypeDeploy, TaskTypeUnDeploy, TaskTypeScaleOut, TaskTypeScaleIn, TaskTypePurge,
        TaskTypeCustomCommand, TaskTypeCustomWorkflow] = [0, 1, 2, 3, 4, 5, 6] ∧
    [(0 : TaskType), 1, 2, 3, 4, 5, 6].map TaskType.String =
      ["Deploy", "UnDeploy", "ScaleOut", "ScaleIn", "Purge", "CustomCommand",
        "CustomWorkflow"] ∧
    (∀ p ∈ [("Deploy", (0 : TaskType)), ("UnDeploy", 1), ("ScaleOut", 2), ("ScaleIn", 3),
        ("Purge", 4), ("CustomCommand", 5), ("CustomWorkflow", 6)],
      ParseTaskType p.1 = .ok p.2) ∧
    [TaskStatusINITIAL, TaskStatusRUNNING, TaskStatusDONE, TaskStatusFAILED,
        TaskStatusCANCELED] = [0, 1, 2, 3, 4] ∧
    [(0 : TaskStatus), 1, 2, 3, 4].map TaskStatus.String =
      ["INITIAL", "RUNNING", "DONE", "FAILED", "CANCELED"] ∧
    (∀ p ∈ [("INITIAL", (0 : TaskStatus)), ("RUNNING", 1), ("DONE", 2), ("FAILED", 3),
        ("CANCELED", 4)], ParseTaskStatus p.1 = .ok p.2) ∧
    (TaskTypeForcePurge = 9 ∧ TaskTypeAddNodes = 10 ∧ TaskTypeRemoveNodes = 11) ∧
    [(9 : TaskType), 10, 11].map TaskType.String = ["ForcePurge", "AddNodes", "RemoveNodes"] ∧
    (ParseTaskType "ForcePurge" = .ok 9 ∧ ParseTaskType "AddNodes" = .ok 10 ∧
      ParseTaskType "RemoveNodes" = .ok 11) ∧
    (∀ name, ParseTaskStatus name ≠ .ok 5) ∧
    ParseTaskStatus (TaskStatus.String 5) = .error "TaskStatus(5) is not a valid TaskStatus" ∧
    (∀ name, ParseTaskType name ≠ .ok 6666) ∧
    ParseTaskType (TaskType.String 6666) = .error "TaskType(6666) is not a valid TaskType" := by
  refine ⟨rfl, by decide, ?_, rfl, by decide, ?_, ⟨rfl, rfl, rfl⟩, by decide, ⟨rfl, rfl, rfl⟩,
    ?_, rfl, ?_, rfl⟩
  · intro p hp
    simp only [List.mem_cons, List.mem_singleton, List.not_mem_nil, or_false] at hp
    rcases hp with rfl | rfl | rfl | rfl | rfl | rfl | rfl <;> rfl
  · intro p hp
    simp only [List.mem_cons, List.mem_singleton, List.not_mem_nil, or_false] at hp
    rcases hp with rfl | rfl | rfl | rfl | rfl <;> rfl
  · intro name h
    have hall : ∀ p ∈ _TaskStatusValue, p.2 ≠ 5 := by decide
    exact hall (name, 5) (mapLookup_some_mem ((ParseTaskStatus_ok_iff name 5).1 h)) rfl
  · intro name h
    have hall : ∀ p ∈ _TaskTypeValue, p.2 ≠ 6666 := by decide
    exact hall (name, 6666) (mapLookup_some_mem ((ParseTaskType_ok_iff name 6666).1 h)) rfl

/-! ## C9 and C10: the task handlers -/

theorem taskKey_inj (t f g : String) (h : taskKey t f = taskKey t g) : f = g := by
  unfold taskKey at h
  have := congrArg String.data h
  simp only [String.data_append, List.append_cancel_left_eq] at this
  exact String.ext this

theorem put_other (kv : TaskStore) (k v x : String) (h : x ≠ k) : (kv.put k v) x = kv x := by
  simp [TaskStore.put, h]

theorem put_same (kv : TaskStore) (k v : String) : (kv.put k v) k = some v := by
  simp [TaskStore.put]

/-- C9. For an existing task whose target is the deployment (the pre-checks pass) and
whose status reads as `st`: `cancelTaskHandler` answers 202 exactly when `st` is RUNNING
or INITIAL, and then the key `.canceledFlag` of the task holds `"true"`; otherwise it
answers 400 and leaves the store as it was (no flag is set); in both cases the stored
status is the one stored before, and the handler does not panic. -/
theorem cancelTaskHandler_spec (kv : TaskStore) (id taskID : String) (st : TaskStatus)
    (hpre : tasksPreChecks kv id taskID = .pass) (hst : GetTaskStatus kv taskID = .ok st) :
    ((cancelTaskHandler kv id taskID).status = some StatusAccepted ↔
      (st = TaskStatusRUNNING ∨ st = TaskStatusINITIAL)) ∧
    ((st = TaskStatusRUNNING ∨ st = TaskStatusINITIAL) →
      (cancelTaskHandler kv id taskID).store (taskKey taskID ".canceledFlag") = some "true") ∧
    (¬ (st = TaskStatusRUNNING ∨ st = TaskStatusINITIAL) →
      (cancelTaskHandler kv id taskID).status = some StatusBadRequest ∧
      (cancelTaskHandler kv id taskID).store = kv) ∧
    (cancelTaskHandler kv id taskID).store (taskKey taskID "status") =
      kv (taskKey taskID "status") ∧
    GetTaskStatus (cancelTaskHandler kv id taskID).store taskID = .ok st ∧
    (cancelTaskHandler kv id taskID).panic = none := by
  have hkey : taskKey taskID "status" ≠ taskKey taskID ".canceledFlag" :=
    fun h => absurd (taskKey_inj _ _ _ h) (by decide)
  by_cases hc : st = TaskStatusRUNNING ∨ st = TaskStatusINITIAL
  · have hcond : ¬ (st ≠ TaskStatusRUNNING ∧ st ≠ TaskStatusINITIAL) := by
      rintro ⟨h1, h2⟩
      rcases hc with h | h
      · exact h1 h
      · exact h2 h
    have hres : cancelTaskHandler kv id taskID =
        { store := kv.put (taskKey taskID ".canceledFlag") "true",
          status := some StatusAccepted, panic := none } := by
      unfold cancelTaskHandler
      simp only [hpre, hst, hcond, if_false, CancelTask]
    rw [hres]
    refine ⟨⟨fun _ => hc, fun _ => rfl⟩, fun _ => put_same _ _ _, fun h => absurd hc h,
      put_other _ _ _ _ hkey, ?_, rfl⟩
    unfold GetTaskStatus at hst ⊢
    simp only [put_other _ _ _ _ hkey]
    exact hst
  · have hcond : st ≠ TaskStatusRUNNING ∧ st ≠ TaskStatusINITIAL :=
      ⟨fun h => hc (Or.inl h), fun h => hc (Or.inr h)⟩
    have hres : cancelTaskHandler kv id taskID =
        { store := kv, status := some StatusBadRequest, panic := none } := by
      unfold cancelTaskHandler
      simp only [hpre, hst]
      rw [if_pos hcond]
    rw [hres]
    refine ⟨⟨fun h => ?_, fun h => absurd h hc⟩, fun h => absurd h hc, fun _ => ⟨rfl, rfl⟩,
      rfl, hst, rfl⟩
    simp [StatusBadRequest, StatusAccepted] at h

/-- C9, on task `t1` of deployment `id1` (status INITIAL) of the test store. -/
theorem cancelTaskHandler_spec_witness :
    ((cancelTaskHandler testTaskStore "id1" "t1").status = some StatusAccepted ↔
      ((0 : TaskStatus) = TaskStatusRUNNING ∨ (0 : TaskStatus) = TaskStatusINITIAL)) ∧
    (((0 : TaskStatus) = TaskStatusRUNNING ∨ (0 : TaskStatus) = TaskStatusINITIAL) →
      (cancelTaskHandler testTaskStore "id1" "t1").store (taskKey "t1" ".canceledFlag") =
        some "true") ∧
    (¬ ((0 : TaskStatus) = TaskStatusRUNNING ∨ (0 : TaskStatus) = TaskStatusINITIAL) →
      (cancelTaskHandler testTaskStore "id1" "t1").status = some StatusBadRequest ∧
      (cancelTaskHandler testTaskStore "id1" "t1").store = testTaskStore) ∧
    (cancelTaskHandler testTaskStore "id1" "t1").store (taskKey "t1" "status") =
      testTaskStore (taskKey "t1" "status") ∧
    GetTaskStatus (cancelTaskHandler testTaskStore "id1" "t1").store "t1" = .ok 0 ∧
    (cancelTaskHandler testTaskStore "id1" "t1").panic = none :=
  cancelTaskHandler_spec testTaskStore "id1" "t1" 0 (by decide) rfl

/-- The store is changed by `updateTaskStepStatusHandler` only through
`UpdateTaskStepStatus`, and only after `CheckTaskStepStatusChange` allowed the change. -/
theorem updateTaskStepStatusHandler_store_changed (reg : StepRegistry) (kv : TaskStore)
    (deploymentID taskID stepID : String) (body : Except String TaskStep)
    (h : (updateTaskStepStatusHandler reg kv deploymentID taskID stepID body).store ≠ kv) :
    ∃ before step kv1, body = .ok step ∧
      reg.TaskStepExists kv taskID stepID = .ok (true, some before) ∧
      reg.CheckTaskStepStatusChange before.Status step.Status = .ok true ∧
      reg.UpdateTaskStepStatus kv taskID step = .ok kv1 ∧
      (updateTaskStepStatusHandler reg kv deploymentID taskID stepID body).store = kv1 := by
  unfold updateTaskStepStatusHandler at h ⊢
  cases hpre : tasksPreChecks kv deploymentID taskID with
  | reject c => simp [hpre] at h
  | panic e => simp [hpre] at h
  | pass =>
    simp only [hpre] at h ⊢
    cases hex : reg.TaskStepExists kv taskID stepID with
    | error e => simp [hex] at h
    | ok r =>
      obtain ⟨stExists, stepBefore⟩ := r
      simp only [hex] at h ⊢
      cases stExists with
      | false => simp at h
      | true =>
        simp only [Bool.not_true, Bool.false_eq_true, if_false] at h ⊢
        cases body with
        | error e => simp at h
        | ok step =>
          simp only at h ⊢
          cases stepBefore with
          | none => simp at h
          | some before =>
            simp only at h ⊢
            cases hchk : reg.CheckTaskStepStatusChange before.Status step.Status with
            | error e => simp [hchk] at h
            | ok allowed =>
              simp only [hchk] at h ⊢
              cases allowed with
              | false => simp at h
              | true =>
                simp only [Bool.not_true, Bool.false_eq_true, if_false] at h ⊢
                cases hupd : reg.UpdateTaskStepStatus kv taskID step with
                | error e => simp [hupd] at h
                | ok kv1 => exact ⟨before, step, kv1, rfl, rfl, hchk, hupd, rfl⟩

/-- C10. For an existing task of the deployment, an existing step with previous record
`before` and a decoded request `step`: when `CheckTaskStepStatusChange(before.Status,
step.Status)` does not allow the transition, the handler answers 403 and the store is
unchanged; when it allows it, whatever `UpdateTaskStepStatus` stores is the new store and
the answer is 200; and the store differs from the previous one only if the check allowed
the transition. -/
theorem updateTaskStepStatusHandler_gate (reg : StepRegistry) (kv : TaskStore)
    (deploymentID taskID stepID : String) (before step : TaskStep)
    (hpre : tasksPreChecks kv deploymentID taskID = .pass)
    (hex : reg.TaskStepExists kv taskID stepID = .ok (true, some before)) :
    (reg.CheckTaskStepStatusChange before.Status step.Status = .ok false →
      (updateTaskStepStatusHandler reg kv deploymentID taskID stepID (.ok step)).status =
        some StatusForbidden ∧
      (updateTaskStepStatusHandler reg kv deploymentID taskID stepID (.ok step)).store = kv) ∧
    (∀ kv1, reg.CheckTaskStepStatusChange before.Status step.Status = .ok true →
      reg.UpdateTaskStepStatus kv taskID step = .ok kv1 →
      (updateTaskStepStatusHandler reg kv deploymentID taskID stepID (.ok step)).status =
        some StatusOK ∧
      (updateTaskStepStatusHandler reg kv deploymentID taskID stepID (.ok step)).store = kv1) ∧
    ((updateTaskStepStatusHandler reg kv deploymentID taskID stepID (.ok step)).store ≠ kv →
      reg.CheckTaskStepStatusChange before.Status step.Status = .ok true) := by
  refine ⟨?_, ?_, ?_⟩
  · intro hchk
    unfold updateTaskStepStatusHandler
    simp [hpre, hex, hchk]
  · intro kv1 hchk hupd
    unfold updateTaskStepStatusHandler
    simp [hpre, hex, hchk, hupd]
  · intro hne
    obtain ⟨before1, step1, kv1, hb, hex1, hchk, _, _⟩ :=
      updateTaskStepStatusHandler_store_changed reg kv deploymentID taskID stepID (.ok step) hne
    cases hb
    rw [hex] at hex1
    cases hex1
    exact hchk

/-- C10, on step `Compute_create` (status done) of task `t2`, asked to go to running. -/
theorem updateTaskStepStatusHandler_gate_witness :
    (specRegistry.CheckTaskStepStatusChange
        (TaskStep.mk "Compute_create" "done").Status
        (TaskStep.mk "Compute_create" "running").Status = .ok false →
      (updateTaskStepStatusHandler specRegistry testTaskStore "id1" "t2" "Compute_create"
        (.ok ⟨"Compute_create", "running"⟩)).status = some StatusForbidden ∧
      (updateTaskStepStatusHandler specRegistry testTaskStore "id1" "t2" "Compute_create"
        (.ok ⟨"Compute_create", "running"⟩)).store = testTaskStore) ∧
    (∀ kv1, specRegistry.CheckTaskStepStatusChange
        (TaskStep.mk "Compute_create" "done").Status
        (TaskStep.mk "Compute_create" "running").Status = .ok true →
      specRegistry.UpdateTaskStepStatus testTaskStore "t2" ⟨"Compute_create", "running"⟩ =
        .ok kv1 →
      (updateTaskStepStatusHandler specRegistry testTaskStore "id1" "t2" "Compute_create"
        (.ok ⟨"Compute_create", "running"⟩)).status = some StatusOK ∧
      (updateTaskStepStatusHandler specRegistry testTaskStore "id1" "t2" "Compute_create"
        (.ok ⟨"Compute_create", "running"⟩)).store = kv1) ∧
    ((updateTaskStepStatusHandler specRegistry testTaskStore "id1" "t2" "Compute_create"
        (.ok ⟨"Compute_create", "running"⟩)).store ≠ testTaskStore →
      specRegistry.CheckTaskStepStatusChange
        (TaskStep.mk "Compute_create" "done").Status
        (TaskStep.mk "Compute_create" "running").Status = .ok true) :=
  updateTaskStepStatusHandler_gate specRegistry testTaskStore "id1" "t2" "Compute_create"
    ⟨"Compute_create", "done"⟩ ⟨"Compute_create", "running"⟩ (by decide) rfl

/-! ## C11 to C15: capability properties and attributes -/

/-- C11. When the type lookups that precede it succeed and the node-level assignment of
the capability property exists with value `v`, `GetCapabilityProperty` returns
`(true, v, nil)`, whatever the other lookups (node type, capability-type default, hosting
node) would give. -/
theorem GetCapabilityProperty_node_level (kv : KV) (deps : Deployments) (fuel : Nat)
    (deploymentID nodeName capabilityName propertyName : String) (nestedKeys : List String)
    (capabilityType : String) (hasProp : Bool) (propDataType v : String)
    (htype : GetNodeCapabilityType kv deps (fuel + 1) deploymentID nodeName capabilityName =
      some (.ok capabilityType))
    (htyping : capabilityPropertyTyping deps deploymentID capabilityType propertyName =
      .ok (hasProp, propDataType))
    (hnode : deps.getValueAssignmentWithDataType deploymentID
      (capPropPath deploymentID nodeName capabilityName propertyName) nodeName "" ""
      propDataType nestedKeys = { found := true, value := v, err := none }) :
    GetCapabilityProperty kv deps (fuel + 1) deploymentID nodeName capabilityName propertyName
      nestedKeys = some { found := true, value := v, err := none } := by
  rw [GetCapabilityProperty]
  simp only [htype, htyping, hnode]
  simp [errorsWrap]

/-- C11, on scenario S5: with the node-level value 8080 set next to the capability-type
default 80, the result is `(true, "8080")`; with the default 80 only it is `(true, "80")`. -/
theorem GetCapabilityProperty_node_level_witness :
    GetCapabilityProperty scenarioKV (scenarioDeps s5NodeLevel) (0 + 1) "dep" "web" "endpoint"
        "port" [] = some { found := true, value := "8080", err := none } ∧
      GetCapabilityProperty scenarioKV (scenarioDeps s5Default) (0 + 1) "dep" "web" "endpoint"
        "port" [] = some { found := true, value := "80", err := none } :=
  ⟨GetCapabilityProperty_node_level scenarioKV (scenarioDeps s5NodeLevel) 0 "dep" "web"
    "endpoint" "port" [] "Endpoint" true "PortRange" "8080" rfl rfl rfl, rfl⟩

/-- C12 (amended). When the type lookups succeed, the capability has a capability type,
the property has no node-level value and no value in the node-type hierarchy, and the
capability type gives the default `d`, `GetCapabilityProperty` returns found=true with
`d` when the default is a literal, and with what `resolveValueAssignmentAsString` makes
of `d` when it is a function. -/
theorem GetCapabilityProperty_type_default (kv : KV) (deps : Deployments) (fuel : Nat)
    (deploymentID nodeName capabilityName propertyName : String) (nestedKeys : List String)
    (capabilityType : String) (hasProp : Bool) (propDataType nodeType d : String)
    (isFunction : Bool) (r1 : Found)
    (htype : GetNodeCapabilityType kv deps (fuel + 1) deploymentID nodeName capabilityName =
      some (.ok capabilityType))
    (hne : capabilityType ≠ "")
    (htyping : capabilityPropertyTyping deps deploymentID capabilityType propertyName =
      .ok (hasProp, propDataType))
    (hnode : (deps.getValueAssignmentWithDataType deploymentID
      (capPropPath deploymentID nodeName capabilityName propertyName) nodeName "" ""
      propDataType nestedKeys).found = false)
    (hnodeErr : (deps.getValueAssignmentWithDataType deploymentID
      (capPropPath deploymentID nodeName capabilityName propertyName) nodeName "" ""
      propDataType nestedKeys).err = none)
    (hnt : deps.GetNodeType deploymentID nodeName = .ok nodeType)
    (hlevel : GetNodeTypeCapabilityProperty deps (fuel + 1) deploymentID nodeType
      capabilityName propertyName propDataType = some r1)
    (hr1 : r1.found = false) (hr1e : r1.err = none)
    (hdef : deps.getTypeDefaultProperty deploymentID capabilityType propertyName nestedKeys =
      .ok (true, d, isFunction)) :
    GetCapabilityProperty kv deps (fuel + 1) deploymentID nodeName capabilityName propertyName
      nestedKeys =
      some (if isFunction then
          { found := true,
            value := (deps.resolveValueAssignmentAsString deploymentID nodeName "" "" d
              nestedKeys).1,
            err := (deps.resolveValueAssignmentAsString deploymentID nodeName "" "" d
              nestedKeys).2 }
        else { found := true, value := d, err := none }) := by
  rw [GetCapabilityProperty]
  simp only [htype, htyping, hnode, hnodeErr, hnt, hlevel, hr1, hr1e, hdef]
  cases isFunction <;> simp [hne]

/-- C12 (amended), on scenario S5 with the default 80 only. -/
theorem GetCapabilityProperty_type_default_witness :
    GetCapabilityProperty scenarioKV (scenarioDeps s5Default) (0 + 1) "dep" "web" "endpoint"
      "port" [] =
      some (if false = true then
          { found := true,
            value := ((scenarioDeps s5Default).resolveValueAssignmentAsString "dep" "web" "" ""
              "80" []).1,
            err := ((scenarioDeps s5Default).resolveValueAssignmentAsString "dep" "web" "" ""
              "80" []).2 }
        else { found := true, value := "80", err := none }) :=
  GetCapabilityProperty_type_default scenarioKV (scenarioDeps s5Default) 0 "dep" "web"
    "endpoint" "port" [] "Endpoint" true "PortRange" "WebType" "80" false
    { found := false, value := "", err := none } rfl (by decide) rfl rfl rfl rfl rfl rfl rfl rfl

/-- C12 as stated fails: with no node-level value and the capability-type default 80,
but the value 8000 assigned in the node type, `GetCapabilityProperty` returns
`(true, "8000")`, not the default. -/
theorem GetCapabilityProperty_node_type_before_default :
    (scenarioDeps nodeTypeValue).getValueAssignmentWithDataType "dep"
        (capPropPath "dep" "web" "endpoint" "port") "web" "" "" "PortRange" [] =
        { found := false, value := "", err := none } ∧
      (scenarioDeps nodeTypeValue).getTypeDefaultProperty "dep" "Endpoint" "port" [] =
        .ok (true, "80", false) ∧
      GetCapabilityProperty scenarioKV (scenarioDeps nodeTypeValue) 1 "dep" "web" "endpoint"
        "port" [] = some { found := true, value := "8000", err := none } :=
  ⟨rfl, rfl, rfl⟩

/-- When the value is found at none of the levels, `GetCapabilityProperty` returns what
the final check on optional properties gives. -/
theorem GetCapabilityProperty_not_found (kv : KV) (deps : Deployments) (fuel : Nat)
    (deploymentID nodeName capabilityName propertyName : String) (nestedKeys : List String)
    (capabilityType : String) (hasProp : Bool) (propDataType nodeType host : String)
    (r1 : Found)
    (htype : GetNodeCapabilityType kv deps (fuel + 1) deploymentID nodeName capabilityName =
      some (.ok capabilityType))
    (htyping : capabilityPropertyTyping deps deploymentID capabilityType propertyName =
      .ok (hasProp, propDataType))
    (hnode : (deps.getValueAssignmentWithDataType deploymentID
      (capPropPath deploymentID nodeName capabilityName propertyName) nodeName "" ""
      propDataType nestedKeys).found = false)
    (hnodeErr : (deps.getValueAssignmentWithDataType deploymentID
      (capPropPath deploymentID nodeName capabilityName propertyName) nodeName "" ""
      propDataType nestedKeys).err = none)
    (hnt : deps.GetNodeType deploymentID nodeName = .ok nodeType)
    (hlevel : GetNodeTypeCapabilityProperty deps (fuel + 1) deploymentID nodeType
      capabilityName propertyName propDataType = some r1)
    (hr1 : r1.found = false) (hr1e : r1.err = none)
    (hdef : capabilityType = "" ∨ ∃ x y, deps.getTypeDefaultProperty deploymentID
      capabilityType propertyName nestedKeys = .ok (false, x, y))
    (hhost : deps.GetHostedOnNode deploymentID nodeName = .ok host)
    (hvia : host = "" ∨ ∃ r2, GetCapabilityProperty kv deps fuel deploymentID host
      capabilityName propertyName nestedKeys = some r2 ∧ r2.found = false ∧ r2.err = none) :
    GetCapabilityProperty kv deps (fuel + 1) deploymentID nodeName capabilityName propertyName
      nestedKeys =
      some (capabilityPropertyNotFound deps deploymentID capabilityType propertyName hasProp
        propDataType nestedKeys) := by
  rw [GetCapabilityProperty]
  simp only [htype, htyping, hnode, hnodeErr, hnt, hlevel, hr1, hr1e, hhost]
  rcases hdef with h | ⟨x, y, h⟩ <;> rcases hvia with hv | ⟨r2, h2, hf, he⟩
  · simp [h, hv]
  · simp [h, h2, hf, he]
  · by_cases hc : capabilityType = "" <;> simp [h, hv, hc]
  · by_cases hc : capabilityType = "" <;> simp [h, h2, hf, he, hc]

/-- C13 (amended). When `GetCapabilityProperty` finds no value at node level, in the
node-type hierarchy, as a capability-type default or through the HostedOn chain: it
returns `(true, "")` if the capability type declares the property and declares it not
required; if the property is required it returns found=false when there is at most one
nested key or the property has no data type, and otherwise `(true, "")` exactly when the
last nested key is declared not required in its nested data type; it returns found=false
when the capability type does not declare the property. -/
theorem GetCapabilityProperty_optional (kv : KV) (deps : Deployments) (fuel : Nat)
    (deploymentID nodeName capabilityName propertyName : String) (nestedKeys : List String)
    (capabilityType : String) (hasProp : Bool) (propDataType nodeType host : String)
    (r1 : Found)
    (htype : GetNodeCapabilityType kv deps (fuel + 1) deploymentID nodeName capabilityName =
      some (.ok capabilityType))
    (htyping : capabilityPropertyTyping deps deploymentID capabilityType propertyName =
      .ok (hasProp, propDataType))
    (hnode : (deps.getValueAssignmentWithDataType deploymentID
      (capPropPath deploymentID nodeName capabilityName propertyName) nodeName "" ""
      propDataType nestedKeys).found = false)
    (hnodeErr : (deps.getValueAssignmentWithDataType deploymentID
      (capPropPath deploymentID nodeName capabilityName propertyName) nodeName "" ""
      propDataType nestedKeys).err = none)
    (hnt : deps.GetNodeType deploymentID nodeName = .ok nodeType)
    (hlevel : GetNodeTypeCapabilityProperty deps (fuel + 1) deploymentID nodeType
      capabilityName propertyName propDataType = some r1)
    (hr1 : r1.found = false) (hr1e : r1.err = none)
    (hdef : capabilityType = "" ∨ ∃ x y, deps.getTypeDefaultProperty deploymentID
      capabilityType propertyName nestedKeys = .ok (false, x, y))
    (hhost : deps.GetHostedOnNode deploymentID nodeName = .ok host)
    (hvia : host = "" ∨ ∃ r2, GetCapabilityProperty kv deps fuel deploymentID host
      capabilityName propertyName nestedKeys = some r2 ∧ r2.found = false ∧ r2.err = none) :
    (hasProp = true → capabilityType ≠ "" →
      deps.IsTypePropertyRequired deploymentID capabilityType propertyName = .ok false →
      GetCapabilityProperty kv deps (fuel + 1) deploymentID nodeName capabilityName
        propertyName nestedKeys = some { found := true, value := "", err := none }) ∧
    (deps.IsTypePropertyRequired deploymentID capabilityType propertyName = .ok true →
      (nestedKeys.length ≤ 1 ∨ propDataType = "") →
      GetCapabilityProperty kv deps (fuel + 1) deploymentID nodeName capabilityName
        propertyName nestedKeys = some { found := false, value := "", err := none }) ∧
    (hasProp = true → capabilityType ≠ "" →
      deps.IsTypePropertyRequired deploymentID capabilityType propertyName = .ok true →
      nestedKeys.length > 1 → propDataType ≠ "" →
      ∀ nestedKeyType lastRequired,
        deps.GetNestedDataType deploymentID propDataType nestedKeys.dropLast =
          .ok nestedKeyType →
        deps.IsTypePropertyRequired deploymentID nestedKeyType
          (nestedKeys.getLast?.getD "") = .ok lastRequired →
        GetCapabilityProperty kv deps (fuel + 1) deploymentID nodeName capabilityName
          propertyName nestedKeys =
          some { found := !lastRequired, value := "", err := none }) ∧
    ((hasProp = false ∨ capabilityType = "") →
      GetCapabilityProperty kv deps (fuel + 1) deploymentID nodeName capabilityName
        propertyName nestedKeys = some { found := false, value := "", err := none }) := by
  rw [GetCapabilityProperty_not_found kv deps fuel deploymentID nodeName capabilityName
    propertyName nestedKeys capabilityType hasProp propDataType nodeType host r1 htype htyping
    hnode hnodeErr hnt hlevel hr1 hr1e hdef hhost hvia]
  refine ⟨?_, ?_, ?_, ?_⟩
  · intro hp hc hreq
    simp [capabilityPropertyNotFound, hp, hc, hreq]
  · intro hreq hshort
    unfold capabilityPropertyNotFound
    by_cases hcond : hasProp = true ∧ capabilityType ≠ ""
    · have hnot : ¬ (nestedKeys.length > 1 ∧ propDataType ≠ "") := by
        rintro ⟨h1, h2⟩
        rcases hshort with h | h
        · omega
        · exact h2 h
      simp [hcond, hreq, hnot]
    · simp [hcond]
  · intro hp hc hreq hlen hdt nestedKeyType lastRequired hnested hlast
    have hcond : nestedKeys.length > 1 ∧ propDataType ≠ "" := ⟨hlen, hdt⟩
    unfold capabilityPropertyNotFound
    simp only [hp, hc, hreq, hcond, hnested, hlast]
    cases lastRequired <;> simp [hc, hdt]
  · intro hno
    have hcond : ¬ (hasProp = true ∧ capabilityType ≠ "") := by
      rintro ⟨h1, h2⟩
      rcases hno with h | h
      · rw [h] at h1
        cases h1
      · exact h2 h
    simp [capabilityPropertyNotFound, hcond]

/-- C13 (amended), on the example deployment with nothing stored and `port` declared
not required. -/
theorem GetCapabilityProperty_optional_witness :
    GetCapabilityProperty scenarioKV (scenarioDeps (nothingStored false true)) (0 + 1) "dep"
      "web" "endpoint" "port" [] = some { found := true, value := "", err := none } :=
  (GetCapabilityProperty_optional scenarioKV (scenarioDeps (nothingStored false true)) 0 "dep"
    "web" "endpoint" "port" [] "Endpoint" true "PortRange" "WebType" ""
    { found := false, value := "", err := none } rfl rfl rfl rfl rfl rfl rfl rfl
    (Or.inr ⟨"", false, rfl⟩) rfl (Or.inl rfl)).1 rfl (by decide) rfl

/-- C13 as stated fails: with nothing stored, `port` required, and the nested keys
`x`, `low` where `low` is optional in the nested data type, `GetCapabilityProperty`
returns `(true, "")` although the property is required. -/
theorem GetCapabilityProperty_required_nested_optional :
    (scenarioDeps (nothingStored true false)).IsTypePropertyRequired "dep" "Endpoint" "port" =
        .ok true ∧
      GetCapabilityProperty scenarioKV (scenarioDeps (nothingStored true false)) 1 "dep" "web"
        "endpoint" "port" ["x", "low"] = some { found := true, value := "", err := none } :=
  ⟨rfl, rfl⟩

/-- The HostedOn step of `GetInstanceCapabilityAttribute`: when the node holds nothing
at its three levels and the call on its host finds `v`, that is the result. -/
theorem GetInstanceCapabilityAttribute_via_host (kv : KV) (deps : Deployments) (fuel : Nat)
    (deploymentID nodeName instanceName capabilityName attributeName : String)
    (nestedKeys : List String) (capabilityType attrDataType host v : String)
    (htype : GetNodeCapabilityType kv deps (fuel + 1) deploymentID nodeName capabilityName =
      some (.ok capabilityType))
    (htyping : capabilityAttributeTyping deps deploymentID capabilityType attributeName =
      .ok attrDataType)
    (hinst : (deps.getValueAssignmentWithDataType deploymentID
      (capAttrPath deploymentID nodeName instanceName capabilityName attributeName)
      nodeName instanceName "" attrDataType nestedKeys).found = false)
    (hinstErr : (deps.getValueAssignmentWithDataType deploymentID
      (capAttrPath deploymentID nodeName instanceName capabilityName attributeName)
      nodeName instanceName "" attrDataType nestedKeys).err = none)
    (hnode : (deps.getValueAssignmentWithDataType deploymentID
      (nodeCapPath deploymentID nodeName capabilityName attributeName)
      nodeName instanceName "" attrDataType nestedKeys).found = false)
    (hnodeErr : (deps.getValueAssignmentWithDataType deploymentID
      (nodeCapPath deploymentID nodeName capabilityName attributeName)
      nodeName instanceName "" attrDataType nestedKeys).err = none)
    (hdef : capabilityType = "" ∨ ∃ x y, deps.getTypeDefaultAttribute deploymentID
      capabilityType attributeName nestedKeys = .ok (false, x, y))
    (hhost : deps.GetHostedOnNode deploymentID nodeName = .ok host) (hne : host ≠ "")
    (hfound : GetInstanceCapabilityAttribute kv deps fuel deploymentID host instanceName
      capabilityName attributeName nestedKeys =
      some { found := true, value := v, err := none }) :
    GetInstanceCapabilityAttribute kv deps (fuel + 1) deploymentID nodeName instanceName
      capabilityName attributeName nestedKeys =
      some { found := true, value := v, err := none } := by
  rw [GetInstanceCapabilityAttribute]
  simp only [htype, htyping, hinst, hinstErr, hnode, hnodeErr, hhost, hfound]
  rcases hdef with h | ⟨x, y, h⟩
  · simp [h, hne]
  · by_cases hc : capabilityType = "" <;> simp [h, hc, hne]

/-- A node that defines the capability attribute for an instance, at one of its own
three levels, answers `(true, v, nil)` for that instance: the result is read from the
stored assignments and the type default, whatever its host holds. -/
theorem GetInstanceCapabilityAttribute_held (kv : KV) (deps : Deployments) (fuel : Nat)
    (deploymentID nodeName instanceName capabilityName attributeName : String)
    (nestedKeys : List String) (capabilityType attrDataType v : String)
    (htype : GetNodeCapabilityType kv deps (fuel + 1) deploymentID nodeName capabilityName =
      some (.ok capabilityType))
    (htyping : capabilityAttributeTyping deps deploymentID capabilityType attributeName =
      .ok attrDataType)
    (hholds : HoldsCapabilityAttribute deps deploymentID nodeName instanceName capabilityName
      attributeName nestedKeys capabilityType attrDataType v) :
    GetInstanceCapabilityAttribute kv deps (fuel + 1) deploymentID nodeName instanceName
      capabilityName attributeName nestedKeys =
      some { found := true, value := v, err := none } := by
  rw [GetInstanceCapabilityAttribute]
  simp only [htype, htyping]
  rcases hholds with h | ⟨hf, he, h⟩ | ⟨hf, he, hnf, hne, hc, h⟩
  · simp [h, errorsWrap]
  · simp [hf, he, h, errorsWrap]
  · rcases h with h | ⟨d, h, hres⟩
    · simp [hf, he, hnf, hne, hc, h]
    · simp [hf, he, hnf, hne, hc, h, hres]

/-- C14. Node B (`nodeName`) is HostedOn node A (`host`); for each instance of B, B
holds no instance-level value, no node-level value and no capability-type default for
the capability attribute, and A defines the attribute for that instance name (at its
instance level, at its node level or as the default of its capability type) with the
value `value i`.  Then, the type lookups of both nodes succeeding,
`GetInstanceCapabilityAttribute` on B returns `(true, value i, nil)` for every instance
`i` of B. -/
theorem GetInstanceCapabilityAttribute_hosted_on (kv : KV) (deps : Deployments) (fuel : Nat)
    (deploymentID nodeName capabilityName attributeName : String) (nestedKeys : List String)
    (capabilityType attrDataType host hostCapabilityType hostAttrDataType : String)
    (instances : List String) (value : String → String)
    (htype : GetNodeCapabilityType kv deps (fuel + 2) deploymentID nodeName capabilityName =
      some (.ok capabilityType))
    (htyping : capabilityAttributeTyping deps deploymentID capabilityType attributeName =
      .ok attrDataType)
    (hnothing : ∀ i ∈ instances,
      (deps.getValueAssignmentWithDataType deploymentID
        (capAttrPath deploymentID nodeName i capabilityName attributeName)
        nodeName i "" attrDataType nestedKeys).found = false ∧
      (deps.getValueAssignmentWithDataType deploymentID
        (capAttrPath deploymentID nodeName i capabilityName attributeName)
        nodeName i "" attrDataType nestedKeys).err = none ∧
      (deps.getValueAssignmentWithDataType deploymentID
        (nodeCapPath deploymentID nodeName capabilityName attributeName)
        nodeName i "" attrDataType nestedKeys).found = false ∧
      (deps.getValueAssignmentWithDataType deploymentID
        (nodeCapPath deploymentID nodeName capabilityName attributeName)
        nodeName i "" attrDataType nestedKeys).err = none)
    (hdef : capabilityType = "" ∨ ∃ x y, deps.getTypeDefaultAttribute deploymentID
      capabilityType attributeName nestedKeys = .ok (false, x, y))
    (hhost : deps.GetHostedOnNode deploymentID nodeName = .ok host) (hne : host ≠ "")
    (hhostType : GetNodeCapabilityType kv deps (fuel + 1) deploymentID host capabilityName =
      some (.ok hostCapabilityType))
    (hhostTyping : capabilityAttributeTyping deps deploymentID hostCapabilityType
      attributeName = .ok hostAttrDataType)
    (hholds : ∀ i ∈ instances, HoldsCapabilityAttribute deps deploymentID host i
      capabilityName attributeName nestedKeys hostCapabilityType hostAttrDataType (value i)) :
    ∀ i ∈ instances,
      GetInstanceCapabilityAttribute kv deps (fuel + 2) deploymentID nodeName i capabilityName
        attributeName nestedKeys = some { found := true, value := value i, err := none } := by
  intro i hi
  obtain ⟨h1, h2, h3, h4⟩ := hnothing i hi
  exact GetInstanceCapabilityAttribute_via_host kv deps (fuel + 1) deploymentID nodeName i
    capabilityName attributeName nestedKeys capabilityType attrDataType host (value i)
    htype htyping h1 h2 h3 h4 hdef hhost hne
    (GetInstanceCapabilityAttribute_held kv deps fuel deploymentID host i capabilityName
      attributeName nestedKeys hostCapabilityType hostAttrDataType (value i) hhostType
      hhostTyping (hholds i hi))

/-- C14, on the example deployment: `app` is HostedOn `web`.  When `web` holds
`ip_address` of capability `endpoint` for each of the instances `0` and `1`, `app`
answers the address of the same instance; when `web` holds it at node level, `app`
answers that address for every instance. -/
theorem GetInstanceCapabilityAttribute_hosted_on_witness :
    (GetInstanceCapabilityAttribute scenarioKV (scenarioDeps hostHasAddresses) 2 "dep" "app"
        "0" "endpoint" "ip_address" [] =
        some { found := true, value := "10.0.0.1", err := none } ∧
      GetInstanceCapabilityAttribute scenarioKV (scenarioDeps hostHasAddresses) 2 "dep" "app"
        "1" "endpoint" "ip_address" [] =
        some { found := true, value := "10.0.0.2", err := none }) ∧
    (∀ i ∈ ["0", "1", "2"],
      GetInstanceCapabilityAttribute scenarioKV (scenarioDeps hostHasNodeAddress) 2 "dep" "app"
        i "endpoint" "ip_address" [] =
        some { found := true, value := "10.0.0.9", err := none }) := by
  have h := GetInstanceCapabilityAttribute_hosted_on scenarioKV (scenarioDeps hostHasAddresses)
    0 "dep" "app" "endpoint" "ip_address" [] "Endpoint" "string" "web" "Endpoint" "string"
    ["0", "1"] (fun i => if i = "0" then "10.0.0.1" else "10.0.0.2") rfl rfl
    (by
      intro i hi
      simp only [List.mem_cons, List.mem_singleton, List.not_mem_nil, or_false] at hi
      rcases hi with e | e <;> subst e <;> exact ⟨rfl, rfl, rfl, rfl⟩)
    (Or.inr ⟨"", false, rfl⟩) rfl (by decide) rfl rfl
    (by
      intro i hi
      simp only [List.mem_cons, List.mem_singleton, List.not_mem_nil, or_false] at hi
      rcases hi with e | e <;> subst e <;> exact Or.inl rfl)
  have h2 := GetInstanceCapabilityAttribute_hosted_on scenarioKV
    (scenarioDeps hostHasNodeAddress) 0 "dep" "app" "endpoint" "ip_address" [] "Endpoint"
    "string" "web" "Endpoint" "string" ["0", "1", "2"] (fun _ => "10.0.0.9") rfl rfl
    (by
      intro i hi
      simp only [List.mem_cons, List.mem_singleton, List.not_mem_nil, or_false] at hi
      rcases hi with e | e | e <;> subst e <;> exact ⟨rfl, rfl, rfl, rfl⟩)
    (Or.inr ⟨"", false, rfl⟩) rfl (by decide) rfl rfl
    (by
      intro i hi
      simp only [List.mem_cons, List.mem_singleton, List.not_mem_nil, or_false] at hi
      rcases hi with e | e | e <;> subst e <;> exact Or.inr (Or.inl ⟨rfl, rfl, rfl⟩))
  exact ⟨⟨h "0" (by simp), h "1" (by simp)⟩, h2⟩

/-- C15. When the type lookups succeed and the attribute is found neither at instance
level, nor at node level, nor as a capability-type default, nor through the HostedOn
chain, `GetInstanceCapabilityAttribute` returns exactly what `GetCapabilityProperty`
returns for the same node, capability, name and nested keys. -/
theorem GetInstanceCapabilityAttribute_reflects_property (kv : KV) (deps : Deployments)
    (fuel : Nat) (deploymentID nodeName instanceName capabilityName attributeName : String)
    (nestedKeys : List String) (capabilityType attrDataType host : String)
    (htype : GetNodeCapabilityType kv deps (fuel + 1) deploymentID nodeName capabilityName =
      some (.ok capabilityType))
    (htyping : capabilityAttributeTyping deps deploymentID capabilityType attributeName =
      .ok attrDataType)
    (hinst : (deps.getValueAssignmentWithDataType deploymentID
      (capAttrPath deploymentID nodeName instanceName capabilityName attributeName)
      nodeName instanceName "" attrDataType nestedKeys).found = false)
    (hinstErr : (deps.getValueAssignmentWithDataType deploymentID
      (capAttrPath deploymentID nodeName instanceName capabilityName attributeName)
      nodeName instanceName "" attrDataType nestedKeys).err = none)
    (hnode : (deps.getValueAssignmentWithDataType deploymentID
      (nodeCapPath deploymentID nodeName capabilityName attributeName)
      nodeName instanceName "" attrDataType nestedKeys).found = false)
    (hnodeErr : (deps.getValueAssignmentWithDataType deploymentID
      (nodeCapPath deploymentID nodeName capabilityName attributeName)
      nodeName instanceName "" attrDataType nestedKeys).err = none)
    (hdef : capabilityType = "" ∨ ∃ x y, deps.getTypeDefaultAttribute deploymentID
      capabilityType attributeName nestedKeys = .ok (false, x, y))
    (hhost : deps.GetHostedOnNode deploymentID nodeName = .ok host)
    (hvia : host = "" ∨ ∃ r2, GetInstanceCapabilityAttribute kv deps fuel deploymentID host
      instanceName capabilityName attributeName nestedKeys = some r2 ∧ r2.found = false ∧
      r2.err = none) :
    GetInstanceCapabilityAttribute kv deps (fuel + 1) deploymentID nodeName instanceName
      capabilityName attributeName nestedKeys =
      GetCapabilityProperty kv deps (fuel + 1) deploymentID nodeName capabilityName
        attributeName nestedKeys := by
  rw [GetInstanceCapabilityAttribute]
  simp only [htype, htyping, hinst, hinstErr, hnode, hnodeErr, hhost]
  rcases hdef with h | ⟨x, y, h⟩ <;> rcases hvia with hv | ⟨r2, h2, hf, he⟩
  · simp [h, hv]
  · simp [h, h2, hf, he]
  · by_cases hc : capabilityType = "" <;> simp [h, hv, hc]
  · by_cases hc : capabilityType = "" <;> simp [h, h2, hf, he, hc]

/-- C15, on scenario S5: the attribute `port` of `web` is stored nowhere as an attribute
and is read from the property of the same name. -/
theorem GetInstanceCapabilityAttribute_reflects_property_witness :
    GetInstanceCapabilityAttribute scenarioKV (scenarioDeps s5Default) (0 + 1) "dep" "web" "0"
        "endpoint" "port" [] =
      GetCapabilityProperty scenarioKV (scenarioDeps s5Default) (0 + 1) "dep" "web" "endpoint"
        "port" [] ∧
    GetCapabilityProperty scenarioKV (scenarioDeps s5Default) (0 + 1) "dep" "web" "endpoint"
        "port" [] = some { found := true, value := "80", err := none } :=
  ⟨GetInstanceCapabilityAttribute_reflects_property scenarioKV (scenarioDeps s5Default) 0 "dep"
    "web" "0" "endpoint" "port" [] "Endpoint" "" "" rfl rfl rfl rfl rfl rfl
    (Or.inr ⟨"", false, rfl⟩) rfl (Or.inl rfl), rfl⟩

/-! ## C16 and C17: capabilities of a type hierarchy -/

theorem capabilitiesLoop_eq (kv : KV) (deps : Deployments) (deploymentID capabilityTypeName : String) :
    ∀ (keys acc : List String),
      (∀ c ∈ keys, capabilityTyped kv deps deploymentID capabilityTypeName c = true) →
      capabilitiesLoop kv deps deploymentID capabilityTypeName keys acc =
        (acc ++ matchingNames kv deps deploymentID capabilityTypeName keys, none) := by
  intro keys
  induction keys with
  | nil => intro acc _; simp [capabilitiesLoop, matchingNames]
  | cons c rest ih =>
    intro acc h
    have hc := h c (List.mem_cons_self _ _)
    have hrest := fun d hd => h d (List.mem_cons_of_mem _ hd)
    unfold capabilityTyped at hc
    rw [capabilitiesLoop]
    cases hget : kv.Get (pathJoin [c, "type"]) with
    | error e => simp [hget] at hc
    | ok o =>
      cases o with
      | none => simp [hget] at hc
      | some kvp =>
        simp only [hget, Bool.and_eq_true, decide_eq_true_eq] at hc
        obtain ⟨hlen, hder⟩ := hc
        cases hd : deps.IsTypeDerivedFrom deploymentID kvp.Value capabilityTypeName with
        | error e => simp [hd] at hder
        | ok b =>
          have hm : capabilityMatches kv deps deploymentID capabilityTypeName c = b := by
            simp [capabilityMatches, hget, hd]
          cases b with
          | true =>
            simp only [hget, hd, hlen, if_false, if_true]
            rw [ih _ hrest]
            simp [matchingNames, List.filter_cons, hm]
          | false =>
            simp only [hget, hd, hlen, Bool.false_eq_true, if_false]
            rw [ih _ hrest]
            simp [matchingNames, List.filter_cons, hm]

theorem levelOK_keys {kv : KV} {deps : Deployments} {deploymentID capabilityTypeName typeName : String}
    (h : levelOK kv deps deploymentID capabilityTypeName typeName = true) :
    kv.Keys (pathJoin [DeploymentKVPrefix, deploymentID, "topology", "types", typeName] ++
        "/capabilities/") "/" = .ok (capabilityKeys kv deploymentID typeName) ∧
      ∀ c ∈ capabilityKeys kv deploymentID typeName,
        capabilityTyped kv deps deploymentID capabilityTypeName c = true := by
  unfold levelOK at h
  rw [Bool.and_eq_true] at h
  obtain ⟨h1, h2⟩ := h
  constructor
  · unfold capabilityKeys
    cases hk : kv.Keys (pathJoin [DeploymentKVPrefix, deploymentID, "topology", "types",
        typeName] ++ "/capabilities/") "/" with
    | error e => simp [hk] at h1
    | ok ks => rfl
  · exact fun c hc => List.all_eq_true.1 h2 c hc

theorem GetCapabilitiesOfType_eq (kv : KV) (deps : Deployments)
    (deploymentID capabilityTypeName : String) :
    ∀ (n : Nat) (typeName : String) (fuel : Nat),
      hierarchyOK kv deps deploymentID capabilityTypeName n typeName = true → n < fuel →
      GetCapabilitiesOfType kv deps fuel deploymentID typeName capabilityTypeName =
        some ((typeChain deps deploymentID n typeName).flatMap
          (fun t => matchingNames kv deps deploymentID capabilityTypeName
            (capabilityKeys kv deploymentID t)), none) := by
  intro n
  induction n with
  | zero =>
    intro typeName fuel h hfuel
    obtain ⟨f, rfl⟩ : ∃ f, fuel = f + 1 := ⟨fuel - 1, by omega⟩
    rw [hierarchyOK, Bool.and_eq_true] at h
    obtain ⟨hl, hp⟩ := h
    obtain ⟨hk, hall⟩ := levelOK_keys hl
    rw [GetCapabilitiesOfType]
    simp only [hk, capabilitiesLoop_eq kv deps deploymentID capabilityTypeName _ [] hall]
    cases hpar : deps.GetParentType deploymentID typeName with
    | error e => simp [hpar] at hp
    | ok p =>
      simp only [hpar, decide_eq_true_eq] at hp
      simp [hp, typeChain]
  | succ n ih =>
    intro typeName fuel h hfuel
    obtain ⟨f, rfl⟩ : ∃ f, fuel = f + 1 := ⟨fuel - 1, by omega⟩
    rw [hierarchyOK, Bool.and_eq_true] at h
    obtain ⟨hl, hp⟩ := h
    obtain ⟨hk, hall⟩ := levelOK_keys hl
    rw [GetCapabilitiesOfType]
    simp only [hk, capabilitiesLoop_eq kv deps deploymentID capabilityTypeName _ [] hall]
    cases hpar : deps.GetParentType deploymentID typeName with
    | error e => simp [hpar] at hp
    | ok p =>
      simp only [hpar, Bool.or_eq_true, decide_eq_true_eq] at hp
      by_cases hempty : p = ""
      · simp [hempty, typeChain, hpar]
      · have hrec := ih p f (hp.resolve_left hempty) (by omega)
        simp [hempty, typeChain, hpar, hrec]

theorem mem_typeChain_iff (kv : KV) (deps : Deployments) (deploymentID capabilityTypeName : String) :
    ∀ (n : Nat) (typeName t : String),
      hierarchyOK kv deps deploymentID capabilityTypeName n typeName = true →
      (t ∈ typeChain deps deploymentID n typeName ↔
        Relation.ReflTransGen (ParentOf deps deploymentID) typeName t) := by
  intro n
  induction n with
  | zero =>
    intro typeName t h
    rw [hierarchyOK, Bool.and_eq_true] at h
    obtain ⟨_, hp⟩ := h
    cases hpar : deps.GetParentType deploymentID typeName with
    | error e => simp [hpar] at hp
    | ok p =>
      simp only [hpar, decide_eq_true_eq] at hp
      subst hp
      simp only [typeChain, List.mem_singleton]
      constructor
      · rintro rfl
        exact Relation.ReflTransGen.refl
      · intro hr
        rcases Relation.ReflTransGen.cases_head hr with e | ⟨c, ⟨hc, hne⟩, _⟩
        · exact e.symm
        · rw [hpar] at hc
          cases hc
          exact absurd rfl hne
  | succ n ih =>
    intro typeName t h
    rw [hierarchyOK, Bool.and_eq_true] at h
    obtain ⟨_, hp⟩ := h
    cases hpar : deps.GetParentType deploymentID typeName with
    | error e => simp [hpar] at hp
    | ok p =>
      simp only [hpar, Bool.or_eq_true, decide_eq_true_eq] at hp
      simp only [typeChain, hpar, List.mem_cons]
      by_cases hempty : p = ""
      · subst hempty
        simp only [if_true, List.not_mem_nil, or_false]
        constructor
        · rintro rfl
          exact Relation.ReflTransGen.refl
        · intro hr
          rcases Relation.ReflTransGen.cases_head hr with e | ⟨c, ⟨hc, hne⟩, _⟩
          · exact e.symm
          · rw [hpar] at hc
            cases hc
            exact absurd rfl hne
      · simp only [hempty, if_false]
        rw [ih p t (hp.resolve_left hempty)]
        constructor
        · rintro (rfl | hr)
          · exact Relation.ReflTransGen.refl
          · exact Relation.ReflTransGen.head ⟨hpar, hempty⟩ hr
        · intro hr
          rcases Relation.ReflTransGen.cases_head hr with e | ⟨c, ⟨hc, _⟩, hrest⟩
          · exact Or.inl e.symm
          · rw [hpar] at hc
            cases hc
            exact Or.inr hrest

theorem mem_matchingNames_iff (kv : KV) (deps : Deployments)
    (deploymentID capabilityTypeName typeName name : String) :
    name ∈ matchingNames kv deps deploymentID capabilityTypeName
        (capabilityKeys kv deploymentID typeName) ↔
      DefinesCapability kv deps deploymentID capabilityTypeName typeName name := by
  unfold matchingNames DefinesCapability
  simp only [List.mem_map, List.mem_filter]
  constructor
  · rintro ⟨c, ⟨hc, hm⟩, hb⟩
    exact ⟨c, hc, hb, hm⟩
  · rintro ⟨c, hc, hb, hm⟩
    exact ⟨c, ⟨hc, hm⟩, hb⟩

/-- C16. For a type whose `derived_from` chain ends after at most `n` steps and whose
capabilities all carry a type, `GetCapabilitiesOfType` with fuel above `n` returns
without error, and a name is in the result if and only if the type or one of its
ancestors defines a capability of that name whose capability type is derived from
`capabilityTypeName`. -/
theorem GetCapabilitiesOfType_mem_iff (kv : KV) (deps : Deployments)
    (deploymentID typeName capabilityTypeName : String) (n fuel : Nat)
    (hok : hierarchyOK kv deps deploymentID capabilityTypeName n typeName = true)
    (hfuel : n < fuel) :
    ∃ capabilities,
      GetCapabilitiesOfType kv deps fuel deploymentID typeName capabilityTypeName =
        some (capabilities, none) ∧
      ∀ name, name ∈ capabilities ↔
        ∃ t, Relation.ReflTransGen (ParentOf deps deploymentID) typeName t ∧
          DefinesCapability kv deps deploymentID capabilityTypeName t name := by
  refine ⟨_, GetCapabilitiesOfType_eq kv deps deploymentID capabilityTypeName n typeName fuel
    hok hfuel, ?_⟩
  intro name
  rw [List.mem_flatMap]
  constructor
  · rintro ⟨t, ht, hname⟩
    exact ⟨t, (mem_typeChain_iff kv deps deploymentID capabilityTypeName n typeName t hok).1 ht,
      (mem_matchingNames_iff kv deps deploymentID capabilityTypeName t name).1 hname⟩
  · rintro ⟨t, ht, hdef⟩
    exact ⟨t, (mem_typeChain_iff kv deps deploymentID capabilityTypeName n typeName t hok).2 ht,
      (mem_matchingNames_iff kv deps deploymentID capabilityTypeName t name).2 hdef⟩

/-- C16, on the type `Child` derived from `Parent`, for capability type `Endpoint`. -/
theorem GetCapabilitiesOfType_mem_iff_witness :
    ∃ capabilities,
      GetCapabilitiesOfType hierarchyKV hierarchyDeps 2 "dep" "Child" "Endpoint" =
        some (capabilities, none) ∧
      ∀ name, name ∈ capabilities ↔
        ∃ t, Relation.ReflTransGen (ParentOf hierarchyDeps "dep") "Child" t ∧
          DefinesCapability hierarchyKV hierarchyDeps "dep" "Endpoint" t name :=
  GetCapabilitiesOfType_mem_iff hierarchyKV hierarchyDeps "dep" "Child" "Endpoint" 1 2 rfl
    (by decide)

/-- C17 (amended). For a type whose `derived_from` chain ends after at most `n` steps
and whose capabilities all carry a type, a name occurs in the result of
`GetCapabilitiesOfType` once for every matching capability of that name that the type
defines, plus once for every such capability of each of its ancestors: a name defined
both by a type and by one of its ancestors occurs more than once. -/
theorem GetCapabilitiesOfType_count (kv : KV) (deps : Deployments)
    (deploymentID typeName capabilityTypeName : String) (n fuel : Nat)
    (hok : hierarchyOK kv deps deploymentID capabilityTypeName n typeName = true)
    (hfuel : n < fuel) :
    ∃ capabilities,
      GetCapabilitiesOfType kv deps fuel deploymentID typeName capabilityTypeName =
        some (capabilities, none) ∧
      ∀ name, capabilities.count name =
        ((typeChain deps deploymentID n typeName).map
          (fun t => (matchingNames kv deps deploymentID capabilityTypeName
            (capabilityKeys kv deploymentID t)).count name)).sum := by
  refine ⟨_, GetCapabilitiesOfType_eq kv deps deploymentID capabilityTypeName n typeName fuel
    hok hfuel, ?_⟩
  intro name
  generalize typeChain deps deploymentID n typeName = chain
  induction chain with
  | nil => simp
  | cons t rest ih => simp [List.flatMap_cons, List.count_append, ih]

/-- C17 (amended), on the type `Child` derived from `Parent`. -/
theorem GetCapabilitiesOfType_count_witness :
    ∃ capabilities,
      GetCapabilitiesOfType hierarchyKV hierarchyDeps 2 "dep" "Child" "Endpoint" =
        some (capabilities, none) ∧
      ∀ name, capabilities.count name =
        ((typeChain hierarchyDeps "dep" 1 "Child").map
          (fun t => (matchingNames hierarchyKV hierarchyDeps "dep" "Endpoint"
            (capabilityKeys hierarchyKV "dep" t)).count name)).sum :=
  GetCapabilitiesOfType_count hierarchyKV hierarchyDeps "dep" "Child" "Endpoint" 1 2 rfl
    (by decide)

/-- C17 as stated fails: `Child` and its parent `Parent` both define a capability
`endpoint` of type `Endpoint`, and the name `endpoint` occurs twice in the result. -/
theorem GetCapabilitiesOfType_duplicate_name :
    GetCapabilitiesOfType hierarchyKV hierarchyDeps 2 "dep" "Child" "Endpoint" =
        some (["endpoint", "admin", "endpoint"], none) ∧
      ¬ (["endpoint", "admin", "endpoint"] : List String).Nodup :=
  ⟨rfl, by decide⟩

/-! ## C18 and C19: operation inputs -/

theorem appendInputValues_eq (api : InputsAPI) (input : String) :
    ∀ (values : List OperationInputResult) (i : Nat) (envInputs : List EnvInput)
      (names : List String),
      appendInputValues api input values i envInputs names =
        (envInputs ++ values.map (envInputOfValue api input),
          if i = 0 ∧ 0 < values.length then names ++ [api.SanitizeForShell input]
          else names) := by
  intro values
  induction values with
  | nil => intro i envInputs names; simp [appendInputValues]
  | cons iv rest ih =>
    intro i envInputs names
    rw [appendInputValues, ih]
    by_cases hi : i = 0 <;> simp [hi]

theorem appendInstances_eq (api : InputsAPI) (input nodeName inputValue : String) :
    ∀ (instances : List String) (i : Nat) (envInputs : List EnvInput) (names : List String),
      appendInstances api input nodeName inputValue instances i envInputs names =
        (envInputs ++ instances.map (envInputOfInstance api input nodeName inputValue),
          if i = 0 ∧ 0 < instances.length then names ++ [api.SanitizeForShell input]
          else names) := by
  intro instances
  induction instances with
  | nil => intro i envInputs names; simp [appendInstances]
  | cons ins rest ih =>
    intro i envInputs names
    rw [appendInstances, ih]
    by_cases hi : i = 0 <;> simp [hi]

theorem inputBlock_name (api : InputsAPI) (deploymentID nodeName taskID : String)
    (operation : Operation) (input : String) :
    ∀ e ∈ inputBlock api deploymentID nodeName taskID operation input, e.Name = input := by
  intro e he
  unfold inputBlock at he
  repeat' split at he
  all_goals first
    | cases he
    | (obtain ⟨x, _, rfl⟩ := List.mem_map.1 he; rfl)

theorem resolveInputsLoop_eq (api : InputsAPI) (deploymentID nodeName taskID : String)
    (operation : Operation) :
    ∀ (keys : List String) (envInputs : List EnvInput) (names : List String)
      (envInputs1 : List EnvInput) (names1 : List String),
      resolveInputsLoop api deploymentID nodeName taskID operation keys envInputs names =
        .ok (envInputs1, names1) →
      envInputs1 = envInputs ++
        keys.flatMap (inputBlock api deploymentID nodeName taskID operation) ∧
      names1 = names ++ (keys.filter (fun k =>
        decide (inputBlock api deploymentID nodeName taskID operation k ≠ []))).map
          api.SanitizeForShell := by
  intro keys
  induction keys with
  | nil =>
    intro envInputs names envInputs1 names1 h
    simp only [resolveInputsLoop, Except.ok.injEq, Prod.mk.injEq] at h
    obtain ⟨rfl, rfl⟩ := h
    simp
  | cons k rest ih =>
    intro envInputs names envInputs1 names1 h
    rw [resolveInputsLoop] at h
    have step : ∀ (block : List EnvInput) (names0 : List String),
        inputBlock api deploymentID nodeName taskID operation k = block →
        names0 = (if block = [] then names else names ++ [api.SanitizeForShell k]) →
        resolveInputsLoop api deploymentID nodeName taskID operation rest (envInputs ++ block)
          names0 = .ok (envInputs1, names1) →
        envInputs1 = envInputs ++
          (k :: rest).flatMap (inputBlock api deploymentID nodeName taskID operation) ∧
        names1 = names ++ ((k :: rest).filter (fun k =>
          decide (inputBlock api deploymentID nodeName taskID operation k ≠ []))).map
            api.SanitizeForShell := by
      intro block names0 hb hn hrest
      obtain ⟨h1, h2⟩ := ih _ _ _ _ hrest
      rw [List.flatMap_cons, List.filter_cons, hb]
      refine ⟨by rw [h1, List.append_assoc], ?_⟩
      rw [h2, hn]
      by_cases hne : block = []
      · simp [hne]
      · simp [hne]
    cases hp : api.IsOperationInputAPropertyDefinition deploymentID
        operation.ImplementedInNodeTemplate operation.ImplementedInType operation.Name k with
    | error e => simp [hp] at h
    | ok isPropDef =>
      simp only [hp] at h
      cases isPropDef with
      | true =>
        simp only [if_true] at h
        cases ht : api.GetTaskInput taskID k with
        | error e =>
          simp only [ht] at h
          by_cases hnf : api.IsTaskDataNotFoundError e = true
          · simp only [hnf, Bool.not_true, Bool.false_eq_true, if_false] at h
            cases hd : api.GetOperationInputPropertyDefinitionDefault deploymentID nodeName
                operation k with
            | error e1 => simp [hd] at h
            | ok values =>
              simp only [hd, appendInputValues_eq] at h
              have hb : inputBlock api deploymentID nodeName taskID operation k =
                  values.map (envInputOfValue api k) := by
                simp [inputBlock, hp, ht, hd]
              exact step _ _ hb (by cases values <;> simp) h
          · simp [hnf] at h
        | ok v =>
          simp only [ht] at h
          cases hi : api.GetNodeInstancesIds deploymentID nodeName with
          | error e => simp [hi] at h
          | ok ids =>
            simp only [hi, appendInstances_eq] at h
            have hb : inputBlock api deploymentID nodeName taskID operation k =
                ids.map (envInputOfInstance api k nodeName v) := by
              simp [inputBlock, hp, ht, hi]
            exact step _ _ hb (by cases ids <;> simp) h
      | false =>
        simp only [Bool.false_eq_true, if_false] at h
        cases hg : api.GetOperationInput deploymentID nodeName operation k with
        | error e => simp [hg] at h
        | ok values =>
          simp only [hg, appendInputValues_eq] at h
          have hb : inputBlock api deploymentID nodeName taskID operation k =
              values.map (envInputOfValue api k) := by
            simp [inputBlock, hp, hg]
          exact step _ _ hb (by cases values <;> simp) h

theorem ResolveInputsWithInstances_eq (api : InputsAPI) (deploymentID nodeName taskID : String)
    (operation : Operation) (src tgt inputKeys : List String) (envInputs : List EnvInput)
    (names : List String)
    (hres : ResolveInputsWithInstances api deploymentID nodeName taskID operation src tgt =
      .ok (envInputs, names))
    (hkeys : api.GetOperationInputs deploymentID operation.ImplementedInNodeTemplate
      operation.ImplementedInType operation.Name = .ok inputKeys) :
    envInputs = inputKeys.flatMap (inputBlock api deploymentID nodeName taskID operation) ∧
    names = (inputKeys.filter (fun k =>
      decide (inputBlock api deploymentID nodeName taskID operation k ≠ []))).map
        api.SanitizeForShell := by
  unfold ResolveInputsWithInstances at hres
  simp only [hkeys] at hres
  simpa using resolveInputsLoop_eq api deploymentID nodeName taskID operation inputKeys [] []
    envInputs names hres

theorem filter_flatMap_inputBlock (api : InputsAPI) (deploymentID nodeName taskID : String)
    (operation : Operation) (input : String) :
    ∀ (keys : List String),
      (keys.flatMap (inputBlock api deploymentID nodeName taskID operation)).filter
          (fun e => decide (e.Name = input)) =
        (List.replicate (keys.count input)
          (inputBlock api deploymentID nodeName taskID operation input)).flatten := by
  intro keys
  induction keys with
  | nil => simp
  | cons k rest ih =>
    rw [List.flatMap_cons, List.filter_append, ih, List.count_cons]
    by_cases hk : k = input
    · subst hk
      have hall : (inputBlock api deploymentID nodeName taskID operation k).filter
          (fun e => decide (e.Name = k)) =
          inputBlock api deploymentID nodeName taskID operation k :=
        List.filter_eq_self.2 (fun e he => by
          simp [inputBlock_name api deploymentID nodeName taskID operation k e he])
      rw [hall]
      simp [List.replicate_succ]
    · have hnone : (inputBlock api deploymentID nodeName taskID operation k).filter
          (fun e => decide (e.Name = input)) = [] :=
        List.filter_eq_nil_iff.2 (fun e he => by
          rw [inputBlock_name api deploymentID nodeName taskID operation k e he]
          simp [hk])
      rw [hnone]
      simp [hk]

/-- C18. When `ResolveInputsWithInstances` returns, for an input declared once that is a
property definition and for which the task holds the value `v`, the environment inputs
named after that input are exactly one per instance id of the node, in instance order,
each carrying `v` and the instance name built from the node name and that id. -/
theorem ResolveInputsWithInstances_task_value (api : InputsAPI)
    (deploymentID nodeName taskID : String) (operation : Operation)
    (src tgt inputKeys : List String) (envInputs : List EnvInput) (names : List String)
    (input v : String) (ids : List String)
    (hres : ResolveInputsWithInstances api deploymentID nodeName taskID operation src tgt =
      .ok (envInputs, names))
    (hkeys : api.GetOperationInputs deploymentID operation.ImplementedInNodeTemplate
      operation.ImplementedInType operation.Name = .ok inputKeys)
    (hone : inputKeys.count input = 1)
    (hprop : api.IsOperationInputAPropertyDefinition deploymentID
      operation.ImplementedInNodeTemplate operation.ImplementedInType operation.Name input =
      .ok true)
    (htask : api.GetTaskInput taskID input = .ok v)
    (hids : api.GetNodeInstancesIds deploymentID nodeName = .ok ids) :
    envInputs.filter (fun e => decide (e.Name = input)) =
      ids.map (fun ins =>
        { Name := input, Value := v, InstanceName := api.GetInstanceName nodeName ins }) := by
  obtain ⟨henv, _⟩ := ResolveInputsWithInstances_eq api deploymentID nodeName taskID operation
    src tgt inputKeys envInputs names hres hkeys
  rw [henv, filter_flatMap_inputBlock, hone]
  simp [inputBlock, hprop, htask, hids, envInputOfInstance]

/-- C18, on the example operation: input `a.b` with task value `1` on the node `web`
with instances `0` and `1`. -/
theorem ResolveInputsWithInstances_task_value_witness :
    ([⟨"a.b", "1", "web_0"⟩, ⟨"a.b", "1", "web_1"⟩, ⟨"a,b", "2", "web_0"⟩,
        ⟨"a,b", "2", "web_1"⟩] : List EnvInput).filter (fun e => decide (e.Name = "a.b")) =
      ["0", "1"].map (fun ins =>
        { Name := "a.b", Value := "1",
          InstanceName := exampleInputsAPI.GetInstanceName "web" ins }) :=
  ResolveInputsWithInstances_task_value exampleInputsAPI "dep" "web" "t1" exampleOperation
    [] [] ["a.b", "a,b", "idle"]
    [⟨"a.b", "1", "web_0"⟩, ⟨"a.b", "1", "web_1"⟩, ⟨"a,b", "2", "web_0"⟩, ⟨"a,b", "2", "web_1"⟩]
    ["ab", "ab"] "a.b" "1" ["0", "1"] rfl rfl (by decide) rfl rfl rfl

/-- C19 (amended). When `ResolveInputsWithInstances` returns, the variable-name list is
the list of the shell-sanitised names of those operation inputs for which at least one
environment input is emitted, in the order in which the inputs are declared, one entry
per such input; it has no duplicates when the inputs are declared once each and their
sanitised names are pairwise distinct. -/
theorem ResolveInputsWithInstances_names (api : InputsAPI)
    (deploymentID nodeName taskID : String) (operation : Operation)
    (src tgt inputKeys : List String) (envInputs : List EnvInput) (names : List String)
    (hres : ResolveInputsWithInstances api deploymentID nodeName taskID operation src tgt =
      .ok (envInputs, names))
    (hkeys : api.GetOperationInputs deploymentID operation.ImplementedInNodeTemplate
      operation.ImplementedInType operation.Name = .ok inputKeys) :
    names = (inputKeys.filter (fun k => decide (k ∈ envInputs.map EnvInput.Name))).map
        api.SanitizeForShell ∧
    (inputKeys.Nodup →
      (∀ a ∈ inputKeys, ∀ b ∈ inputKeys,
        api.SanitizeForShell a = api.SanitizeForShell b → a = b) →
      names.Nodup) := by
  obtain ⟨henv, hnames⟩ := ResolveInputsWithInstances_eq api deploymentID nodeName taskID
    operation src tgt inputKeys envInputs names hres hkeys
  have hfilter : inputKeys.filter (fun k => decide (k ∈ envInputs.map EnvInput.Name)) =
      inputKeys.filter (fun k =>
        decide (inputBlock api deploymentID nodeName taskID operation k ≠ [])) := by
    apply List.filter_congr
    intro k hk
    have hiff : k ∈ envInputs.map EnvInput.Name ↔
        inputBlock api deploymentID nodeName taskID operation k ≠ [] := by
      rw [henv]
      constructor
      · intro hmem
        obtain ⟨e, he, hname⟩ := List.mem_map.1 hmem
        obtain ⟨k1, _, he1⟩ := List.mem_flatMap.1 he
        have : k1 = k := by
          rw [← inputBlock_name api deploymentID nodeName taskID operation k1 e he1, hname]
        subst this
        exact List.ne_nil_of_mem he1
      · intro hne
        obtain ⟨e, he⟩ := List.exists_mem_of_ne_nil _ hne
        exact List.mem_map.2 ⟨e, List.mem_flatMap.2 ⟨k, hk, he⟩,
          inputBlock_name api deploymentID nodeName taskID operation k e he⟩
    by_cases hc : k ∈ envInputs.map EnvInput.Name
    · simp [hc, hiff.1 hc]
    · have : inputBlock api deploymentID nodeName taskID operation k = [] := by
        by_contra hne
        exact hc (hiff.2 hne)
      simp [hc, this]
  refine ⟨by rw [hnames, hfilter], ?_⟩
  intro hnd hinj
  rw [hnames]
  refine List.Nodup.map_on ?_ (hnd.filter _)
  intro a ha b hb hab
  exact hinj a (List.mem_filter.1 ha).1 b (List.mem_filter.1 hb).1 hab

/-- C19 (amended), on the example operation. -/
theorem ResolveInputsWithInstances_names_witness :
    (["ab", "ab"] : List String) =
        ((["a.b", "a,b", "idle"] : List String).filter (fun k => decide (k ∈
          ([⟨"a.b", "1", "web_0"⟩, ⟨"a.b", "1", "web_1"⟩, ⟨"a,b", "2", "web_0"⟩,
            ⟨"a,b", "2", "web_1"⟩] : List EnvInput).map EnvInput.Name))).map
          exampleInputsAPI.SanitizeForShell ∧
    ((["a.b", "a,b", "idle"] : List String).Nodup →
      (∀ a ∈ (["a.b", "a,b", "idle"] : List String), ∀ b ∈ (["a.b", "a,b", "idle"] : List String),
        exampleInputsAPI.SanitizeForShell a = exampleInputsAPI.SanitizeForShell b → a = b) →
      (["ab", "ab"] : List String).Nodup) :=
  ResolveInputsWithInstances_names exampleInputsAPI "dep" "web" "t1" exampleOperation
    [] [] ["a.b", "a,b", "idle"]
    [⟨"a.b", "1", "web_0"⟩, ⟨"a.b", "1", "web_1"⟩, ⟨"a,b", "2", "web_0"⟩, ⟨"a,b", "2", "web_1"⟩]
    ["ab", "ab"] rfl rfl

/-- C19 as stated fails: on the example operation the inputs `a.b`, `a,b` and `idle` are
declared; the returned name list is `["ab", "ab"]`, which has a duplicate and does not
list the name of the input `idle`, for which no value is emitted. -/
theorem ResolveInputsWithInstances_names_duplicate :
    exampleInputsAPI.GetOperationInputs "dep" exampleOperation.ImplementedInNodeTemplate
        exampleOperation.ImplementedInType exampleOperation.Name =
        .ok ["a.b", "a,b", "idle"] ∧
      ResolveInputsWithInstances exampleInputsAPI "dep" "web" "t1" exampleOperation [] [] =
        .ok ([⟨"a.b", "1", "web_0"⟩, ⟨"a.b", "1", "web_1"⟩, ⟨"a,b", "2", "web_0"⟩,
          ⟨"a,b", "2", "web_1"⟩], ["ab", "ab"]) ∧
      ¬ (["ab", "ab"] : List String).Nodup ∧
      exampleInputsAPI.SanitizeForShell "idle" ∉ (["ab", "ab"] : List String) :=
  ⟨rfl, rfl, by decide, by decide⟩

/-! ## C20: registering a scheduled action -/

theorem applyOps_not_mem :
    ∀ (ops : List KVTxnOp) (store : TaskStore) (k : String),
      k ∉ ops.map KVTxnOp.Key → applyOps store ops k = store k := by
  intro ops
  induction ops with
  | nil => intro store k _; rfl
  | cons op rest ih =>
    intro store k hk
    simp only [List.map_cons, List.mem_cons, not_or] at hk
    rw [applyOps, ih _ _ hk.2]
    exact put_other _ _ _ _ hk.1

theorem applyOps_of_nodup :
    ∀ (ops : List KVTxnOp) (store : TaskStore) (op : KVTxnOp),
      (ops.map KVTxnOp.Key).Nodup → op ∈ ops → applyOps store ops op.Key = some op.Value := by
  intro ops
  induction ops with
  | nil => intro store op _ h; cases h
  | cons o rest ih =>
    intro store op hnd hmem
    simp only [List.map_cons, List.nodup_cons] at hnd
    rw [applyOps]
    rcases List.mem_cons.1 hmem with e | e
    · subst e
      rw [applyOps_not_mem rest _ _ hnd.1]
      exact put_same _ _ _
    · exact ih _ op hnd.2 e

/-- C20 (amended). After a successful `RegisterAction` the returned id is the one drawn,
and, provided the keys written under `scheduling/actions/<id>` are pairwise distinct (no
entry of `action.Data` is keyed `deploymentID`, `type` or `interval`, or by the key of
another entry), the store holds the key `deploymentID` with the deployment id, `type`
with `action.ActionType`, `interval` with the textual form of the interval and, for
every entry `k = v` of `action.Data`, the key `k` with value `v`.  An empty
`deploymentID`, a nil action or an empty action type is rejected with an error and the
store is left as it was. -/
theorem RegisterAction_spec (durationString : Duration → String) (store : TaskStore)
    (id : String) (txn : TxnOutcome) (deploymentID : String) (timeInterval : Duration)
    (action : Option Action) :
    (∀ a id1 store1, action = some a →
      RegisterAction durationString store id txn deploymentID timeInterval action =
        (.ok id1, store1) →
      id1 = id ∧
      (((registerOps durationString id deploymentID timeInterval a).map KVTxnOp.Key).Nodup →
        store1 (pathJoin [scaPath id, "deploymentID"]) = some deploymentID ∧
        store1 (pathJoin [scaPath id, "type"]) = some a.ActionType ∧
        store1 (pathJoin [scaPath id, "interval"]) = some (durationString timeInterval) ∧
        ∀ kv ∈ a.Data, store1 (pathJoin [scaPath id, kv.1]) = some kv.2)) ∧
    (deploymentID = "" →
      RegisterAction durationString store id txn deploymentID timeInterval action =
        (.error "deploymentID is mandatory parameter to register scheduled action", store)) ∧
    (deploymentID ≠ "" → (action = none ∨ ∃ a, action = some a ∧ a.ActionType = "") →
      RegisterAction durationString store id txn deploymentID timeInterval action =
        (.error "actionType is mandatory parameter to register scheduled action", store)) := by
  refine ⟨?_, ?_, ?_⟩
  · intro a id1 store1 ha hreg
    subst ha
    unfold RegisterAction at hreg
    by_cases hd : deploymentID = ""
    · simp [hd] at hreg
    · by_cases ht : a.ActionType = ""
      · simp [hd, ht] at hreg
      · cases txn with
        | failed err => simp [hd, ht] at hreg
        | rolledBack errs => simp [hd, ht] at hreg
        | committed =>
          simp only [hd, ht, if_false, Prod.mk.injEq, Except.ok.injEq] at hreg
          obtain ⟨rfl, rfl⟩ := hreg
          refine ⟨rfl, ?_⟩
          intro hnd
          have look : ∀ k v, KVTxnOp.mk k v ∈
                registerOps durationString id deploymentID timeInterval a →
              applyOps store (registerOps durationString id deploymentID timeInterval a) k =
                some v :=
            fun k v hop => applyOps_of_nodup _ store (KVTxnOp.mk k v) hnd hop
          have m1 : (KVTxnOp.mk (pathJoin [scaPath id, "deploymentID"]) deploymentID) ∈
              registerOps durationString id deploymentID timeInterval a :=
            List.mem_append_left _ (List.mem_cons_self _ _)
          have m2 : (KVTxnOp.mk (pathJoin [scaPath id, "type"]) a.ActionType) ∈
              registerOps durationString id deploymentID timeInterval a :=
            List.mem_append_left _ (List.mem_cons_of_mem _ (List.mem_cons_self _ _))
          have m3 : (KVTxnOp.mk (pathJoin [scaPath id, "interval"])
              (durationString timeInterval)) ∈
              registerOps durationString id deploymentID timeInterval a :=
            List.mem_append_left _
              (List.mem_cons_of_mem _ (List.mem_cons_of_mem _ (List.mem_cons_self _ _)))
          refine ⟨look _ _ m1, look _ _ m2, look _ _ m3, ?_⟩
          intro kv hkv
          have m4 : (KVTxnOp.mk (pathJoin [scaPath id, kv.1]) kv.2) ∈
              registerOps durationString id deploymentID timeInterval a :=
            List.mem_append_right _ (List.mem_map.2 ⟨kv, hkv, rfl⟩)
          exact look _ _ m4
  · intro hd
    simp [RegisterAction, hd]
  · rintro hd (hn | ⟨a, ha, ht⟩)
    · subst hn
      simp [RegisterAction, hd]
    · subst ha
      simp [RegisterAction, hd, ht]

/-- C20 (amended), on the action of scenario S4: type `k8s-job-monitoring`, interval 5s,
`jobID = j1`, registered for deployment `dep` under the id `id1`. -/
theorem RegisterAction_spec_witness :
    (RegisterAction secondsString emptyStore "id1" TxnOutcome.committed "dep" 5000000000
        (some ⟨"k8s-job-monitoring", [("jobID", "j1")]⟩)).2
        (pathJoin [scaPath "id1", "deploymentID"]) = some "dep" ∧
      (RegisterAction secondsString emptyStore "id1" TxnOutcome.committed "dep" 5000000000
        (some ⟨"k8s-job-monitoring", [("jobID", "j1")]⟩)).2
        (pathJoin [scaPath "id1", "type"]) = some "k8s-job-monitoring" ∧
      (RegisterAction secondsString emptyStore "id1" TxnOutcome.committed "dep" 5000000000
        (some ⟨"k8s-job-monitoring", [("jobID", "j1")]⟩)).2
        (pathJoin [scaPath "id1", "interval"]) = some (secondsString 5000000000) ∧
      ∀ kv ∈ [("jobID", "j1")],
        (RegisterAction secondsString emptyStore "id1" TxnOutcome.committed "dep" 5000000000
          (some ⟨"k8s-job-monitoring", [("jobID", "j1")]⟩)).2
          (pathJoin [scaPath "id1", kv.1]) = some kv.2 :=
  ((RegisterAction_spec secondsString emptyStore "id1" TxnOutcome.committed "dep" 5000000000
    (some ⟨"k8s-job-monitoring", [("jobID", "j1")]⟩)).1 ⟨"k8s-job-monitoring", [("jobID", "j1")]⟩
    "id1" _ rfl rfl).2 (by decide)

/-- C20 as stated fails: registering an action of type `k8s-job-monitoring` whose data
has the entry `type = other` succeeds, and afterwards the key `type` of the action holds
`other`, not the action type. -/
theorem RegisterAction_data_overwrites_type :
    (RegisterAction secondsString emptyStore "id1" TxnOutcome.committed "dep" 5000000000
        (some ⟨"k8s-job-monitoring", [("type", "other")]⟩)).1 = .ok "id1" ∧
      (RegisterAction secondsString emptyStore "id1" TxnOutcome.committed "dep" 5000000000
        (some ⟨"k8s-job-monitoring", [("type", "other")]⟩)).2
        "_yorc/scheduling/actions/id1/type" = some "other" ∧
      pathJoin [scaPath "id1", "type"] = "_yorc/scheduling/actions/id1/type" :=
  ⟨rfl, by decide, by decide⟩

/-! ## C21: flagging a scheduled action for removal -/

theorem put_put (kv : TaskStore) (k v : String) : (kv.put k v).put k v = kv.put k v := by
  funext x
  simp only [TaskStore.put]
  split <;> rfl

theorem fieldsAux_plain (f : Char → Bool) :
    ∀ (s cur : List Char), (∀ c ∈ s, f c = false) → cur ++ s ≠ [] →
      fieldsAux f s cur = [String.mk (cur.reverse ++ s)] := by
  intro s
  induction s with
  | nil =>
    intro cur _ hne
    have : cur ≠ [] := by simpa using hne
    simp [fieldsAux, this]
  | cons c s ih =>
    intro cur hs _
    have hc : f c = false := hs c (List.mem_cons_self _ _)
    rw [fieldsAux]
    simp only [hc, Bool.false_eq_true, if_false]
    rw [ih (c :: cur) (fun x hx => hs x (List.mem_cons_of_mem _ hx)) (by simp)]
    simp

theorem fieldsAux_sep (f : Char → Bool) (sep : Char) (hsep : f sep = true) :
    ∀ (s cur t : List Char), (∀ c ∈ s, f c = false) → cur ++ s ≠ [] →
      fieldsAux f (s ++ sep :: t) cur = String.mk (cur.reverse ++ s) :: fieldsAux f t [] := by
  intro s
  induction s with
  | nil =>
    intro cur t _ hne
    have : cur ≠ [] := by simpa using hne
    simp [fieldsAux, this, hsep]
  | cons c s ih =>
    intro cur t hs _
    have hc : f c = false := hs c (List.mem_cons_self _ _)
    simp only [List.cons_append]
    rw [fieldsAux]
    simp only [hc, Bool.false_eq_true, if_false]
    rw [ih (c :: cur) t (fun x hx => hs x (List.mem_cons_of_mem _ hx)) (by simp)]
    simp

theorem unregisterFlag_key (id : String) (hne : id ≠ "") (hslash : '/' ∉ id.data)
    (hdot : id ≠ ".") (hdots : id ≠ "..") :
    pathJoin [scaPath id, ".unregisterFlag"] =
      "_yorc/scheduling/actions/" ++ id ++ "/.unregisterFlag" := by
  have hplain : ∀ c ∈ id.data, (c == '/') = false := by
    intro c hc
    simp only [beq_eq_false_iff_ne, ne_eq]
    intro e
    exact hslash (e ▸ hc)
  have hdata : id.data ≠ [] := fun h => hne (String.ext h)
  have hsca : scaPath id = String.mk ("_yorc/scheduling/actions/".data ++ id.data) := by
    unfold scaPath pathJoin SchedulingKVPrefix
    have hf : List.filter (fun e => decide (e ≠ "")) ["_yorc/scheduling", "actions", id] =
        ["_yorc/scheduling", "actions", id] := by
      simp [List.filter, hne]
    rw [hf]
    simp only [joinWith]
    have hs : "_yorc/scheduling" ++ "/" ++ ("actions" ++ "/" ++ id) =
        String.mk ("_yorc/scheduling/actions/".data ++ id.data) := by
      apply String.ext
      simp [String.data_append]
    rw [hs]
    unfold pathClean FieldsFunc
    simp only [String.data_append, List.nil_append]
    have hfa : fieldsAux (fun r => r == '/') id.data [] = [id] := by
      rw [fieldsAux_plain _ id.data [] hplain (by simpa using hdata)]
      rfl
    simp [fieldsAux, hfa, cleanComps, hdot, hdots, joinWith]
    apply String.ext
    simp [String.data_append]
  rw [hsca]
  unfold pathJoin
  have hne2 : (String.mk ("_yorc/scheduling/actions/".data ++ id.data)) ≠ "" := by
    intro h
    have := congrArg String.data h
    simp at this
  have hf : ∀ S : String, S ≠ "" →
      List.filter (fun e => decide (e ≠ "")) [S, ".unregisterFlag"] =
        [S, ".unregisterFlag"] := by
    intro S hS
    simp [List.filter, hS]
  rw [hf _ hne2]
  simp only [joinWith]
  have hs : String.mk ("_yorc/scheduling/actions/".data ++ id.data) ++ "/" ++ ".unregisterFlag" =
      String.mk ("_yorc/scheduling/actions/".data ++ (id.data ++ '/' :: ".unregisterFlag".data)) := by
    apply String.ext
    simp [String.data_append]
  rw [hs]
  unfold pathClean FieldsFunc
  have hfa : fieldsAux (fun r => r == '/') (id.data ++ '/' :: ".unregisterFlag".data) [] =
      [id, ".unregisterFlag"] := by
    rw [fieldsAux_sep _ '/' (by decide) id.data [] _ hplain (by simpa using hdata)]
    simp [fieldsAux]
  simp [fieldsAux, hfa, cleanComps, hdot, hdots, joinWith]
  apply String.ext
  simp [String.data_append]

/-- C21. When Consul accepts the write, `UnregisterAction(id)` returns no error, sets
the key `.unregisterFlag` under `scheduling/actions/<id>` to `"true"` and leaves every
other key of the store as it was; a second call on the resulting store leaves that
store unchanged, so calling it twice gives the same store as calling it once.  For an
identifier that is a plain path component the key is
`_yorc/scheduling/actions/<id>/.unregisterFlag`. -/
theorem UnregisterAction_spec (store : TaskStore) (id : String) :
    (UnregisterAction none store id).1 = none ∧
    (UnregisterAction none store id).2 (pathJoin [scaPath id, ".unregisterFlag"]) =
      some "true" ∧
    (∀ k, k ≠ pathJoin [scaPath id, ".unregisterFlag"] →
      (UnregisterAction none store id).2 k = store k) ∧
    (UnregisterAction none (UnregisterAction none store id).2 id).2 =
      (UnregisterAction none store id).2 ∧
    (id ≠ "" → '/' ∉ id.data → id ≠ "." → id ≠ ".." →
      pathJoin [scaPath id, ".unregisterFlag"] =
        "_yorc/scheduling/actions/" ++ id ++ "/.unregisterFlag") := by
  refine ⟨rfl, ?_, ?_, ?_, unregisterFlag_key id⟩
  · simp only [UnregisterAction]
    generalize pathJoin [scaPath id, ".unregisterFlag"] = key
    exact put_same store key "true"
  · simp only [UnregisterAction]
    generalize pathJoin [scaPath id, ".unregisterFlag"] = key
    intro k hk
    exact put_other store key "true" k hk
  · simp only [UnregisterAction]
    generalize pathJoin [scaPath id, ".unregisterFlag"] = key
    exact put_put store key "true"

/-! ## C24: the host status enumeration -/

/-- C24. `ParseHostStatus` succeeds on `Free` and on `Allocated`, and
`HostStatus.String` of the parsed value returns that same name; on `Error` it fails with
`Error is not a valid HostStatus`: the only names it accepts are `Free`, `free`,
`Allocated` and `allocated`. -/
theorem ParseHostStatus_Error_rejected :
    ParseHostStatus "Error" = .error "Error is not a valid HostStatus" ∧
    (ParseHostStatus "Free").map HostStatus.String = .ok "Free" ∧
    (ParseHostStatus "Allocated").map HostStatus.String = .ok "Allocated" ∧
    (∀ name x, ParseHostStatus name = .ok x →
      name ∈ ["Free", "free", "Allocated", "allocated"]) ∧
    (∀ x : HostStatus, x.String = "Error" → False) := by
  refine ⟨rfl, rfl, rfl, ?_, ?_⟩
  · intro name x h
    unfold ParseHostStatus at h
    cases hl : mapLookup name _HostStatusValue with
    | none => rw [hl] at h; cases h
    | some y =>
      have hm := mapLookup_some_mem hl
      have hv : _HostStatusValue =
          [("Free", 0), ("free", 0), ("Allocated", 1), ("allocated", 1)] := by decide
      rw [hv] at hm
      simp only [List.mem_cons, Prod.mk.injEq, List.mem_singleton, List.not_mem_nil,
        or_false] at hm
      rcases hm with h1 | h1 | h1 | h1 <;> simp [h1.1]
  · intro x hx
    unfold HostStatus.String at hx
    cases hl : mapLookup x _HostStatusMap with
    | some str =>
      rw [hl] at hx
      have hm := mapLookup_some_mem hl
      have hv : _HostStatusMap = [(0, "Free"), (1, "Allocated")] := by decide
      rw [hv] at hm
      simp only [List.mem_cons, Prod.mk.injEq, List.mem_singleton, List.not_mem_nil,
        or_false] at hm
      simp only at hx
      subst hx
      rcases hm with h1 | h1 <;> exact absurd h1.2 (by decide)
    | none =>
      rw [hl] at hx
      simp only at hx
      have h2 := congrArg (fun s => s.data.head?) hx
      simp at h2

/-! ## C29: the instance arguments of the input resolver -/

/-- C29. The result of `ResolveInputsWithInstances` is the same for any two pairs of
`sourceNodeInstances` and `targetNodeInstances` lists, all other arguments being equal;
in particular whatever `ResolveInputs` returns after reading the instances of the task
is what `ResolveInputsWithInstances` returns for any instance lists. -/
theorem ResolveInputsWithInstances_ignores_instances (api : InputsAPI)
    (deploymentID nodeName taskID : String) (operation : Operation)
    (source1 target1 source2 target2 : List String) :
    ResolveInputsWithInstances api deploymentID nodeName taskID operation source1 target1 =
      ResolveInputsWithInstances api deploymentID nodeName taskID operation source2 target2 ∧
    ∀ (GetInstances : String → String → String → Except String (List String))
      (r : List EnvInput × List String),
      ResolveInputs api GetInstances deploymentID nodeName taskID operation = .ok r →
      ResolveInputsWithInstances api deploymentID nodeName taskID operation source1 target1 =
        .ok r := by
  refine ⟨rfl, ?_⟩
  intro GetInstances r h
  unfold ResolveInputs at h
  cases h1 : GetInstances taskID deploymentID nodeName with
  | error e => rw [h1] at h; cases h
  | ok src =>
    rw [h1] at h
    by_cases hrel : operation.RelOp.IsRelationshipOperation = true
    · simp only [hrel, if_true] at h
      cases h2 : GetInstances taskID deploymentID operation.RelOp.TargetNodeName with
      | error e => rw [h2] at h; cases h
      | ok tgt => rw [h2] at h; exact h
    · simp only [hrel] at h
      exact h

/-! ## C22, C23 and C28: submitting a workflow -/

theorem Abort.toResponse_submitted (a : Abort) :
    a.toResponse.submitted = none ∧ a.toResponse.taskID = none := by
  cases a <;> exact ⟨rfl, rfl⟩

/-- The handler either stops early, handing nothing to the task collector, or ends in
`registerWorkflowTask` on the task data built from the query and the body. -/
theorem newWorkflowHandler_cases (api : WorkflowAPI) (r : WorkflowSubmission) :
    (∃ a : Abort, newWorkflowHandler api r = a.toResponse) ∨
    (∃ body, r.body = .ok body ∧ body.length = 0 ∧
      newWorkflowHandler api r =
        registerWorkflowTask api r.id (initialTaskData r.workflowName r.query)) ∨
    (∃ body data, r.body = .ok body ∧ 0 < body.length ∧
      workflowBody api r.id r.workflowName body (initialTaskData r.workflowName r.query) =
        .ok data ∧
      newWorkflowHandler api r = registerWorkflowTask api r.id data) := by
  generalize hres : newWorkflowHandler api r = res
  unfold newWorkflowHandler at hres
  cases h1 : api.DoesDeploymentExists r.id with
  | error e => rw [h1] at hres; exact .inl ⟨Abort.panic e, hres.symm⟩
  | ok dExits =>
    rw [h1] at hres
    cases dExits with
    | false => exact .inl ⟨Abort.status StatusNotFound, hres.symm⟩
    | true =>
      simp only [Bool.not_true, Bool.false_eq_true, if_false] at hres
      cases h2 : api.checkBlockingOperationOnDeployment r.id with
      | some c => rw [h2] at hres; exact .inl ⟨Abort.status c, hres.symm⟩
      | none =>
        rw [h2] at hres
        cases h3 : api.GetDeploymentStatus r.id with
        | error e => rw [h3] at hres; exact .inl ⟨Abort.panic e, hres.symm⟩
        | ok st =>
          rw [h3] at hres
          by_cases hst : st = api.UPDATE_IN_PROGRESS
          · simp only [hst, if_true] at hres
            exact .inl ⟨Abort.status StatusConflict, hres.symm⟩
          · simp only [hst, if_false] at hres
            cases h4 : api.GetWorkflows r.id with
            | error e => rw [h4] at hres; exact .inl ⟨Abort.panic e, hres.symm⟩
            | ok ws =>
              rw [h4] at hres
              by_cases hws : ws.contains r.workflowName = true
              · simp only [hws, Bool.not_true, Bool.false_eq_true, if_false] at hres
                cases hb : r.body with
                | error e => rw [hb] at hres; exact .inl ⟨Abort.panic e, hres.symm⟩
                | ok body =>
                  rw [hb] at hres
                  by_cases hlen : body.length > 0
                  · simp only [hlen, if_true] at hres
                    cases hw : workflowBody api r.id r.workflowName body
                        (initialTaskData r.workflowName r.query) with
                    | error a => rw [hw] at hres; exact .inl ⟨a, hres.symm⟩
                    | ok data =>
                      rw [hw] at hres
                      exact .inr (.inr ⟨body, data, rfl, hlen, hw, hres.symm⟩)
                  · simp only [hlen, if_false] at hres
                    exact .inr (.inl ⟨body, rfl, by omega, hres.symm⟩)
              · simp only [hws, Bool.not_false, if_true] at hres
                exact .inl ⟨Abort.status StatusNotFound, hres.symm⟩

theorem requiredInputsLoop_missing (requestInputs : List (String × String)) :
    ∀ (inputs : List (String × PropertyDefinition)) (inputName : String)
      (d : PropertyDefinition),
      (inputName, d) ∈ inputs → d.mustBeGiven = true →
      mapLookup inputName requestInputs = none →
      requiredInputsLoop requestInputs inputs = .error (.status StatusBadRequest) := by
  intro inputs
  induction inputs with
  | nil => intro _ _ h; cases h
  | cons p rest ih =>
    intro inputName d hmem hmust hnone
    obtain ⟨n, e⟩ := p
    rw [requiredInputsLoop]
    by_cases hc : (e.mustBeGiven && (mapLookup n requestInputs).isNone) = true
    · simp only [hc, if_true]
    · simp only [hc, if_false]
      rcases List.mem_cons.1 hmem with h1 | h1
      · exfalso
        apply hc
        cases h1
        simp [hmust, hnone]
      · exact ih inputName d h1 hmust hnone

theorem nodesInstancesLoop_no_panic (api : WorkflowAPI) (deploymentID : String) :
    ∀ (l : List NodeInstances) (data : TaskStore),
      (∀ ni ∈ l, ∃ b, api.DoesNodeExist deploymentID ni.NodeName = .ok b) →
      nodesInstancesLoop api deploymentID l data = .error (.status StatusBadRequest) ∨
      ∃ data1, nodesInstancesLoop api deploymentID l data = .ok data1 := by
  intro l
  induction l with
  | nil => intro data _; exact .inr ⟨data, rfl⟩
  | cons ni rest ih =>
    intro data h
    obtain ⟨b, hb⟩ := h ni (List.mem_cons_self _ _)
    rw [nodesInstancesLoop, hb]
    cases b with
    | false => exact .inl rfl
    | true =>
      simp only [Bool.not_true, Bool.false_eq_true, if_false]
      cases hci : (api.checkInstances deploymentID ni.NodeName ni.Instances).1 with
      | false => exact .inl rfl
      | true =>
        simp only [Bool.not_true, Bool.false_eq_true, if_false]
        exact ih _ (fun x hx => h x (List.mem_cons_of_mem _ hx))

/-- C22 (amended). For a submission that passes the earlier gates of the handler (the
deployment exists, no blocking operation, no update in progress, the workflow is
listed), carries a non-empty body that decodes, and names nodes whose existence can be
checked: if the workflow declares an input that is required (`Required` unset or true)
and has no default, and the request supplies no value for it, `newWorkflowHandler`
answers 400 and hands no task to the collector. -/
theorem newWorkflowHandler_missing_input (api : WorkflowAPI) (r : WorkflowSubmission)
    (st : Int) (ws : List String) (body : String) (req : WorkflowRequest) (wf : Workflow)
    (inputName : String) (d : PropertyDefinition)
    (hdep : api.DoesDeploymentExists r.id = .ok true)
    (hblock : api.checkBlockingOperationOnDeployment r.id = none)
    (hstatus : api.GetDeploymentStatus r.id = .ok st) (hupd : st ≠ api.UPDATE_IN_PROGRESS)
    (hlist : api.GetWorkflows r.id = .ok ws) (hlisted : r.workflowName ∈ ws)
    (hbody : r.body = .ok body) (hlen : 0 < body.length)
    (hjson : api.jsonUnmarshal body = .ok req)
    (hnodes : ∀ ni ∈ req.NodesInstances, ∃ b, api.DoesNodeExist r.id ni.NodeName = .ok b)
    (hwf : api.GetWorkflow r.id r.workflowName = .ok (some wf))
    (hin : (inputName, d) ∈ wf.Inputs)
    (hreq : d.Required = none ∨ d.Required = some true) (hdef : d.Default = none)
    (hmiss : ∀ v, (inputName, v) ∉ req.Inputs) :
    (newWorkflowHandler api r).status = some StatusBadRequest ∧
    (newWorkflowHandler api r).submitted = none ∧
    (newWorkflowHandler api r).taskID = none := by
  have hmust : d.mustBeGiven = true := by
    unfold PropertyDefinition.mustBeGiven
    rcases hreq with h | h <;> simp [h, hdef]
  have hnone : mapLookup inputName req.Inputs = none := by
    cases hl : mapLookup inputName req.Inputs with
    | none => rfl
    | some v => exact absurd (mapLookup_some_mem hl) (hmiss v)
  have hcontains : ws.contains r.workflowName = true := by simpa using hlisted
  have hwb : workflowBody api r.id r.workflowName body
      (initialTaskData r.workflowName r.query) = .error (.status StatusBadRequest) := by
    unfold workflowBody
    simp only [hjson]
    rcases nodesInstancesLoop_no_panic api r.id req.NodesInstances
      (initialTaskData r.workflowName r.query) hnodes with h | ⟨data1, h⟩
    · rw [h]
    · rw [h]
      simp only [hwf]
      rw [requiredInputsLoop_missing req.Inputs wf.Inputs inputName d hin hmust hnone]
  have hres : newWorkflowHandler api r = (Abort.status StatusBadRequest).toResponse := by
    unfold newWorkflowHandler
    simp only [hdep, hblock, hstatus, hupd, hlist, hcontains, hbody, hlen, hwb,
      Bool.not_true, Bool.false_eq_true, if_false, if_true, gt_iff_lt]
  rw [hres]
  exact ⟨rfl, rfl, rfl⟩

theorem newWorkflowHandler_missing_input_witness :
    (newWorkflowHandler (exampleWorkflowAPI 0 false ⟨[], []⟩)
      (exampleSubmission "backup" [] "{}")).status = some StatusBadRequest ∧
    (newWorkflowHandler (exampleWorkflowAPI 0 false ⟨[], []⟩)
      (exampleSubmission "backup" [] "{}")).submitted = none ∧
    (newWorkflowHandler (exampleWorkflowAPI 0 false ⟨[], []⟩)
      (exampleSubmission "backup" [] "{}")).taskID = none :=
  newWorkflowHandler_missing_input (exampleWorkflowAPI 0 false ⟨[], []⟩)
    (exampleSubmission "backup" [] "{}") 0 ["install", "backup"] "{}" ⟨[], []⟩
    ⟨[("target", ⟨none, none⟩)]⟩ "target" ⟨none, none⟩ rfl rfl rfl (by decide) rfl
    (by decide) rfl (by decide) rfl (by simp) rfl (List.mem_singleton.2 rfl) (.inl rfl) rfl
    (by simp)

/-- C22 (counterexample). The workflow `backup` declares the input `target`, required
and without default, and the request supplies no input; the deployment has an update in
progress, and the handler answers 409, not 400. -/
theorem newWorkflowHandler_update_in_progress_not_400 :
    (∃ wf d, (exampleWorkflowAPI 7 false ⟨[], []⟩).GetWorkflow "dep-1" "backup" =
        .ok (some wf) ∧ ("target", d) ∈ wf.Inputs ∧ d.Required = none ∧ d.Default = none) ∧
    (newWorkflowHandler (exampleWorkflowAPI 7 false ⟨[], []⟩)
      (exampleSubmission "backup" [] "{}")).status = some 409 ∧
    (newWorkflowHandler (exampleWorkflowAPI 7 false ⟨[], []⟩)
      (exampleSubmission "backup" [] "{}")).status ≠ some StatusBadRequest :=
  ⟨⟨⟨[("target", ⟨none, none⟩)]⟩, ⟨none, none⟩, rfl, List.mem_singleton.2 rfl, rfl, rfl⟩,
    rfl, by decide⟩

/-- The check of the required inputs sits inside the block `if len(body) > 0`: the same
submission with an empty body reaches the task collector and is answered 201. -/
theorem newWorkflowHandler_empty_body :
    (newWorkflowHandler (exampleWorkflowAPI 0 false ⟨[], []⟩)
      (exampleSubmission "backup" [] "")).status = some StatusCreated ∧
    (newWorkflowHandler (exampleWorkflowAPI 0 false ⟨[], []⟩)
      (exampleSubmission "backup" [] "")).taskID = some "task-1" :=
  ⟨rfl, rfl⟩

/-- C23 (amended). `newWorkflowHandler` answers 409 (Conflict) when the deployment has
an update in progress, and 400 (Bad Request) when the task collector refuses the task
because another living task already exists on the deployment; no task is registered in
either case. -/
theorem newWorkflowHandler_conflict (api : WorkflowAPI) (r : WorkflowSubmission) :
    (api.DoesDeploymentExists r.id = .ok true →
      api.checkBlockingOperationOnDeployment r.id = none →
      api.GetDeploymentStatus r.id = .ok api.UPDATE_IN_PROGRESS →
      (newWorkflowHandler api r).status = some StatusConflict ∧
      (newWorkflowHandler api r).submitted = none ∧
      (newWorkflowHandler api r).taskID = none) ∧
    (∀ data e, (newWorkflowHandler api r).submitted = some data →
      api.RegisterTaskWithData r.id TaskTypeCustomWorkflow data = .error e →
      api.IsAnotherLivingTaskAlreadyExistsError e = true →
      (newWorkflowHandler api r).status = some StatusBadRequest ∧
      (newWorkflowHandler api r).taskID = none) := by
  constructor
  · intro hdep hblock hstatus
    have hres : newWorkflowHandler api r = (Abort.status StatusConflict).toResponse := by
      unfold newWorkflowHandler
      simp only [hdep, hblock, hstatus, Bool.not_true, Bool.false_eq_true, if_false, if_true]
    rw [hres]
    exact ⟨rfl, rfl, rfl⟩
  · intro data e hsub hreg hliving
    have key : ∀ data1, newWorkflowHandler api r = registerWorkflowTask api r.id data1 →
        (newWorkflowHandler api r).status = some StatusBadRequest ∧
        (newWorkflowHandler api r).taskID = none := by
      intro data1 h1
      have hd : data1 = data := by
        rw [h1] at hsub
        unfold registerWorkflowTask at hsub
        cases hr : api.RegisterTaskWithData r.id TaskTypeCustomWorkflow data1 with
        | error e1 =>
          rw [hr] at hsub
          by_cases hl : api.IsAnotherLivingTaskAlreadyExistsError e1 = true
          · simp only [hl, if_true] at hsub
            exact Option.some.inj hsub
          · simp only [hl, if_false] at hsub
            exact Option.some.inj hsub
        | ok t =>
          rw [hr] at hsub
          exact Option.some.inj hsub
      subst hd
      rw [h1]
      unfold registerWorkflowTask
      rw [hreg]
      simp only [hliving, if_true, and_self]
    rcases newWorkflowHandler_cases api r with ⟨a, h⟩ | ⟨body, _, _, h⟩ | ⟨body, data1, _, _, _, h⟩
    · rw [h, (Abort.toResponse_submitted a).1] at hsub
      cases hsub
    · exact key _ h
    · exact key _ h

theorem newWorkflowHandler_conflict_witness :
    ((newWorkflowHandler (exampleWorkflowAPI 7 false ⟨[], []⟩)
        (exampleSubmission "install" [] "")).status = some StatusConflict ∧
      (newWorkflowHandler (exampleWorkflowAPI 7 false ⟨[], []⟩)
        (exampleSubmission "install" [] "")).submitted = none ∧
      (newWorkflowHandler (exampleWorkflowAPI 7 false ⟨[], []⟩)
        (exampleSubmission "install" [] "")).taskID = none) ∧
    ((newWorkflowHandler (exampleWorkflowAPI 0 true ⟨[], []⟩)
        (exampleSubmission "install" [] "")).status = some StatusBadRequest ∧
      (newWorkflowHandler (exampleWorkflowAPI 0 true ⟨[], []⟩)
        (exampleSubmission "install" [] "")).taskID = none) :=
  ⟨(newWorkflowHandler_conflict (exampleWorkflowAPI 7 false ⟨[], []⟩)
      (exampleSubmission "install" [] "")).1 rfl rfl rfl,
   (newWorkflowHandler_conflict (exampleWorkflowAPI 0 true ⟨[], []⟩)
      (exampleSubmission "install" [] "")).2 (initialTaskData "install" [])
      "another living task already exists" rfl rfl rfl⟩

/-- C23 (counterexample). A living task exists on `dep-1`: the task collector refuses
the registration with the error that `IsAnotherLivingTaskAlreadyExistsError`
recognises, and the handler answers 400, not 409. -/
theorem newWorkflowHandler_living_task_not_409 :
    (exampleWorkflowAPI 0 true ⟨[], []⟩).RegisterTaskWithData "dep-1" TaskTypeCustomWorkflow
        (initialTaskData "install" []) = .error "another living task already exists" ∧
    (exampleWorkflowAPI 0 true ⟨[], []⟩).IsAnotherLivingTaskAlreadyExistsError
        "another living task already exists" = true ∧
    (newWorkflowHandler (exampleWorkflowAPI 0 true ⟨[], []⟩)
      (exampleSubmission "install" [] "")).status = some 400 ∧
    (newWorkflowHandler (exampleWorkflowAPI 0 true ⟨[], []⟩)
      (exampleSubmission "install" [] "")).status ≠ some StatusConflict :=
  ⟨rfl, rfl, rfl, by decide⟩

theorem nodes_key_ne (nodeName : String) : "continueOnError" ≠ "nodes/" ++ nodeName := by
  intro h
  have h1 := congrArg (fun s => s.data.head?) h
  simp at h1

theorem nodesInstancesLoop_keeps (api : WorkflowAPI) (deploymentID : String) :
    ∀ (l : List NodeInstances) (data data1 : TaskStore),
      nodesInstancesLoop api deploymentID l data = .ok data1 →
      data1 "continueOnError" = data "continueOnError" := by
  intro l
  induction l with
  | nil =>
    intro data data1 h
    rw [nodesInstancesLoop] at h
    cases h
    rfl
  | cons ni rest ih =>
    intro data data1 h
    rw [nodesInstancesLoop] at h
    cases hb : api.DoesNodeExist deploymentID ni.NodeName with
    | error e => rw [hb] at h; cases h
    | ok b =>
      rw [hb] at h
      cases b with
      | false => cases h
      | true =>
        simp only [Bool.not_true, Bool.false_eq_true, if_false] at h
        cases hci : (api.checkInstances deploymentID ni.NodeName ni.Instances).1 with
        | false => rw [hci] at h; cases h
        | true =>
          rw [hci] at h
          simp only [Bool.not_true, Bool.false_eq_true, if_false] at h
          rw [ih _ _ h]
          exact put_other data ("nodes/" ++ ni.NodeName) _ "continueOnError"
            (nodes_key_ne ni.NodeName)

theorem requestInputsLoop_keeps (k : String) :
    ∀ (l : List (String × String)) (data : TaskStore),
      (∀ p ∈ l, pathJoin ["inputs", p.1] ≠ k) → requestInputsLoop l data k = data k := by
  intro l
  induction l with
  | nil => intro data _; rfl
  | cons p rest ih =>
    intro data h
    obtain ⟨n, v⟩ := p
    rw [requestInputsLoop, ih _ (fun q hq => h q (List.mem_cons_of_mem _ hq))]
    have hne := h (n, v) (List.mem_cons_self _ _)
    generalize pathJoin ["inputs", (n, v).1] = key at hne
    exact put_other data key v k (fun e => hne e.symm)

theorem workflowBody_ok (api : WorkflowAPI) (deploymentID workflowName body : String)
    (data0 data : TaskStore) (h : workflowBody api deploymentID workflowName body data0 = .ok data) :
    ∃ req data1, api.jsonUnmarshal body = .ok req ∧
      nodesInstancesLoop api deploymentID req.NodesInstances data0 = .ok data1 ∧
      data = requestInputsLoop req.Inputs data1 := by
  unfold workflowBody at h
  cases hj : api.jsonUnmarshal body with
  | error e => rw [hj] at h; cases h
  | ok req =>
    rw [hj] at h
    simp only at h
    cases hn : nodesInstancesLoop api deploymentID req.NodesInstances data0 with
    | error a => rw [hn] at h; cases h
    | ok data1 =>
      rw [hn] at h
      simp only at h
      cases hw : api.GetWorkflow deploymentID workflowName with
      | error e => rw [hw] at h; cases h
      | ok owf =>
        rw [hw] at h
        cases owf with
        | none => cases h
        | some wf =>
          simp only at h
          cases hr : requiredInputsLoop req.Inputs wf.Inputs with
          | error a => rw [hr] at h; cases h
          | ok u =>
            rw [hr] at h
            simp only [Except.ok.injEq] at h
            exact ⟨req, data1, rfl, hn, h.symm⟩

theorem registerWorkflowTask_submitted (api : WorkflowAPI) (deploymentID : String)
    (data : TaskStore) : (registerWorkflowTask api deploymentID data).submitted = some data := by
  unfold registerWorkflowTask
  cases api.RegisterTaskWithData deploymentID TaskTypeCustomWorkflow data with
  | error e =>
    simp only
    split <;> rfl
  | ok t => rfl

theorem initialTaskData_continueOnError (workflowName : String)
    (query : List (String × List String)) :
    initialTaskData workflowName query "continueOnError" =
      some (if "continueOnError" ∈ query.map Prod.fst then "true" else "false") := by
  unfold initialTaskData
  rw [put_same]
  by_cases hq : "continueOnError" ∈ query.map Prod.fst
  · obtain ⟨v, hv⟩ := (mapLookup_isSome_iff "continueOnError" query).2 hq
    simp [hq, hv]
  · have : mapLookup "continueOnError" query = none := by
      cases hl : mapLookup "continueOnError" query with
      | none => rfl
      | some v => exact absurd ((mapLookup_isSome_iff "continueOnError" query).1 ⟨v, hl⟩) hq
    simp [hq, this]

/-- C28 (amended). Whenever `newWorkflowHandler` hands task data to the task collector,
and no input of the request body has a name that `path.Join("inputs", name)` turns into
the key `continueOnError` (as the name `../continueOnError` does), the data record
`continueOnError` as `"true"` if and only if the query of the request contains the key
`continueOnError`, whatever values are given to it, and as `"false"` when the key is
absent. -/
theorem newWorkflowHandler_continueOnError (api : WorkflowAPI) (r : WorkflowSubmission)
    (data : TaskStore)
    (hsub : (newWorkflowHandler api r).submitted = some data)
    (hnames : ∀ body req, r.body = .ok body → api.jsonUnmarshal body = .ok req →
      ∀ p ∈ req.Inputs, pathJoin ["inputs", p.1] ≠ "continueOnError") :
    (data "continueOnError" = some "true" ↔ "continueOnError" ∈ r.query.map Prod.fst) ∧
    ("continueOnError" ∉ r.query.map Prod.fst → data "continueOnError" = some "false") := by
  have hval : data "continueOnError" =
      some (if "continueOnError" ∈ r.query.map Prod.fst then "true" else "false") := by
    rcases newWorkflowHandler_cases api r with ⟨a, h⟩ | ⟨body, _, _, h⟩ |
      ⟨body, data1, hb, _, hw, h⟩
    · rw [h, (Abort.toResponse_submitted a).1] at hsub
      cases hsub
    · rw [h, registerWorkflowTask_submitted] at hsub
      rw [← Option.some.inj hsub]
      exact initialTaskData_continueOnError _ _
    · rw [h, registerWorkflowTask_submitted] at hsub
      rw [← Option.some.inj hsub]
      obtain ⟨req, data2, hj, hn, hd⟩ := workflowBody_ok _ _ _ _ _ _ hw
      rw [hd, requestInputsLoop_keeps "continueOnError" req.Inputs data2 (hnames body req hb hj),
        nodesInstancesLoop_keeps api r.id _ _ _ hn]
      exact initialTaskData_continueOnError _ _
  rw [hval]
  by_cases hq : "continueOnError" ∈ r.query.map Prod.fst
  · simp [hq]
  · simp [hq]

theorem newWorkflowHandler_continueOnError_witness :
    ((initialTaskData "install" [("continueOnError", ["false"])]) "continueOnError" =
        some "true" ↔
      "continueOnError" ∈
        (exampleSubmission "install" [("continueOnError", ["false"])] "").query.map Prod.fst) ∧
    ("continueOnError" ∉
        (exampleSubmission "install" [("continueOnError", ["false"])] "").query.map Prod.fst →
      (initialTaskData "install" [("continueOnError", ["false"])]) "continueOnError" =
        some "false") :=
  newWorkflowHandler_continueOnError (exampleWorkflowAPI 0 false ⟨[], []⟩)
    (exampleSubmission "install" [("continueOnError", ["false"])] "")
    (initialTaskData "install" [("continueOnError", ["false"])]) rfl
    (fun body req hb hj p hp => by
      have h1 : req.Inputs = [] := by
        have : (Except.ok (⟨[], []⟩ : WorkflowRequest) : Except String WorkflowRequest) =
            .ok req := hj
        cases this
        rfl
      rw [h1] at hp
      cases hp)

/-- C28 (counterexample). The query contains `continueOnError` and the body gives an
input named `../continueOnError` with the value `maybe`: the task is registered with
`continueOnError` recorded as `maybe`, neither `true` nor `false`. -/
theorem newWorkflowHandler_continueOnError_overwritten :
    pathJoin ["inputs", "../continueOnError"] = "continueOnError" ∧
    (newWorkflowHandler (exampleWorkflowAPI 0 false ⟨[], [("../continueOnError", "maybe")]⟩)
      (exampleSubmission "install" [("continueOnError", ["false"])] "{}")).taskID =
        some "task-1" ∧
    (newWorkflowHandler (exampleWorkflowAPI 0 false ⟨[], [("../continueOnError", "maybe")]⟩)
      (exampleSubmission "install" [("continueOnError", ["false"])] "{}")).submitted.map
        (fun d => d "continueOnError") = some (some "maybe") :=
  ⟨by decide, rfl, by decide⟩

/-! ## C25 and C27: connection updates of a pooled host -/

theorem privateKeyOps_keys (cm : consulManager) (store : TaskStore)
    (locationName hostname hostKVPrefix : String) (conn conn1 : Connection)
    (ops : List KVTxnOp)
    (h : privateKeyOps cm store locationName hostname hostKVPrefix conn = .ok (conn1, ops)) :
    ∀ op ∈ ops, op.Key = pathJoin [hostKVPrefix, "connection", "private_key"] := by
  unfold privateKeyOps at h
  split at h
  · split at h
    · split at h
      · cases h
      · split at h
        · cases h
        · simp only [Except.ok.injEq, Prod.mk.injEq] at h
          rw [← h.2]
          intro op hop
          rw [List.mem_singleton.1 hop]
    · simp only [Except.ok.injEq, Prod.mk.injEq] at h
      rw [← h.2]
      intro op hop
      rw [List.mem_singleton.1 hop]
  · simp only [Except.ok.injEq, Prod.mk.injEq] at h
    rw [← h.2]
    intro op hop
    cases hop

theorem passwordOps_keys (cm : consulManager) (store : TaskStore)
    (locationName hostname hostKVPrefix : String) (conn conn1 : Connection)
    (ops : List KVTxnOp)
    (h : passwordOps cm store locationName hostname hostKVPrefix conn = .ok (conn1, ops)) :
    ∀ op ∈ ops, op.Key = pathJoin [hostKVPrefix, "connection", "password"] := by
  unfold passwordOps at h
  split at h
  · split at h
    · split at h
      · cases h
      · split at h
        · cases h
        · simp only [Except.ok.injEq, Prod.mk.injEq] at h
          rw [← h.2]
          intro op hop
          rw [List.mem_singleton.1 hop]
    · simp only [Except.ok.injEq, Prod.mk.injEq] at h
      rw [← h.2]
      intro op hop
      rw [List.mem_singleton.1 hop]
  · simp only [Except.ok.injEq, Prod.mk.injEq] at h
    rw [← h.2]
    intro op hop
    cases hop

/-- The transaction of `updateConnectionWait` writes keys of the connection only. -/
theorem connectionOps_keys (cm : consulManager) (store : TaskStore)
    (locationName hostname : String) (conn : Connection) (ops : List KVTxnOp)
    (h : connectionOps cm store locationName hostname conn = .ok ops) :
    ∀ op ∈ ops, ∃ field ∈ ["user", "port", "host", "private_key", "password"],
      op.Key = pathJoin [pathJoin [cm.HostsPoolPrefix, locationName, hostname], "connection",
        field] := by
  unfold connectionOps at h
  simp only at h
  generalize pathJoin [cm.HostsPoolPrefix, locationName, hostname] = pre at h ⊢
  cases h1 : privateKeyOps cm store locationName hostname pre conn with
  | error e => rw [h1] at h; cases h
  | ok r1 =>
    obtain ⟨conn1, ops1⟩ := r1
    rw [h1] at h
    simp only at h
    cases h2 : passwordOps cm store locationName hostname pre conn1 with
    | error e => rw [h2] at h; cases h
    | ok r2 =>
      obtain ⟨conn2, ops2⟩ := r2
      rw [h2] at h
      simp only [Except.ok.injEq] at h
      intro op hop
      rw [← h] at hop
      simp only [List.mem_append] at hop
      rcases hop with (((hu | hp) | hh) | hk) | hw
      · refine ⟨"user", by simp, ?_⟩
        split at hu
        · rw [List.mem_singleton.1 hu]
        · cases hu
      · refine ⟨"port", by simp, ?_⟩
        split at hp
        · rw [List.mem_singleton.1 hp]
        · cases hp
      · refine ⟨"host", by simp, ?_⟩
        split at hh
        · rw [List.mem_singleton.1 hh]
        · cases hh
      · exact ⟨"private_key", by simp, privateKeyOps_keys _ _ _ _ _ _ _ _ h1 op hk⟩
      · exact ⟨"password", by simp, passwordOps_keys _ _ _ _ _ _ _ _ h2 op hw⟩

/-- C25. With `status` the status read at the beginning: in `updateConnectionStatus`,
and in `updateConnectionWait` once the connection keys are written (non-empty names, the
operations accepted, the lock taken, the transaction committed), a failed connection
check on a host whose status is not Error backs the status up and then sets it to Error
with the message `failed to connect to host`; a successful check on a host whose status
is Error restores the backed-up status; in the two remaining cases nothing is written
after the check.  The transaction of `updateConnectionWait` itself writes keys under
`connection` only. -/
theorem updateConnection_status_backup (cm : consulManager) (store : TaskStore)
    (locationName hostname : String) (status : HostStatus)
    (hstatus : cm.GetHostStatus store locationName hostname = .ok status) :
    ((checkConnection cm store locationName hostname ≠ none → status ≠ cm.HostStatusError →
        updateConnectionStatus cm store locationName hostname =
          cm.setHostStatusWithMessage (cm.backupHostStatus store locationName hostname)
            locationName hostname cm.HostStatusError hostConnectionErrorMessage) ∧
      (checkConnection cm store locationName hostname = none → status = cm.HostStatusError →
        updateConnectionStatus cm store locationName hostname =
          cm.restoreHostStatus store locationName hostname) ∧
      (checkConnection cm store locationName hostname ≠ none → status = cm.HostStatusError →
        updateConnectionStatus cm store locationName hostname = store) ∧
      (checkConnection cm store locationName hostname = none → status ≠ cm.HostStatusError →
        updateConnectionStatus cm store locationName hostname = store)) ∧
    ∀ (conn : Connection) (ops : List KVTxnOp), locationName ≠ "" → hostname ≠ "" →
      connectionOps cm store locationName hostname conn = .ok ops →
      cm.lockKey locationName hostname = none → cm.txn ops = .committed →
      (∀ op ∈ ops, ∃ field ∈ ["user", "port", "host", "private_key", "password"],
        op.Key = pathJoin [pathJoin [cm.HostsPoolPrefix, locationName, hostname],
          "connection", field]) ∧
      (checkConnection cm (applyOps store ops) locationName hostname ≠ none →
        status ≠ cm.HostStatusError →
        (updateConnectionWait cm store locationName hostname conn).2 =
          cm.setHostStatusWithMessage
            (cm.backupHostStatus (applyOps store ops) locationName hostname)
            locationName hostname cm.HostStatusError hostConnectionErrorMessage) ∧
      (checkConnection cm (applyOps store ops) locationName hostname = none →
        status = cm.HostStatusError →
        (updateConnectionWait cm store locationName hostname conn).2 =
          cm.restoreHostStatus (applyOps store ops) locationName hostname) ∧
      (checkConnection cm (applyOps store ops) locationName hostname ≠ none →
        status = cm.HostStatusError →
        (updateConnectionWait cm store locationName hostname conn).2 = applyOps store ops) ∧
      (checkConnection cm (applyOps store ops) locationName hostname = none →
        status ≠ cm.HostStatusError →
        (updateConnectionWait cm store locationName hostname conn).2 = applyOps store ops) := by
  constructor
  · unfold updateConnectionStatus
    rw [hstatus]
    simp only
    cases hc : checkConnection cm store locationName hostname with
    | none =>
      refine ⟨?_, ?_, ?_, ?_⟩
      · intro h
        exact absurd rfl h
      · intro _ hs
        simp only [hs, if_true]
      · intro h
        exact absurd rfl h
      · intro _ hs
        simp only [hs, if_false]
    | some err =>
      refine ⟨?_, ?_, ?_, ?_⟩
      · intro _ hs
        simp only [ne_eq, hs, not_false_eq_true, if_true]
      · intro h
        cases h
      · intro _ hs
        simp only [ne_eq, hs, not_true_eq_false, if_false]
      · intro h
        cases h
  · intro conn ops hloc hhost hops hlock htxn
    refine ⟨connectionOps_keys cm store locationName hostname conn ops hops, ?_⟩
    unfold updateConnectionWait
    simp only [hloc, hhost, if_false, hstatus, hops, hlock, htxn]
    cases hc : checkConnection cm (applyOps store ops) locationName hostname with
    | none =>
      refine ⟨?_, ?_, ?_, ?_⟩
      · intro h
        exact absurd rfl h
      · intro _ hs
        simp only [hs, if_true]
      · intro h
        exact absurd rfl h
      · intro _ hs
        simp only [hs, if_false]
    | some err =>
      refine ⟨?_, ?_, ?_, ?_⟩
      · intro _ hs
        simp only [ne_eq, hs, not_false_eq_true, if_true]
      · intro h
        cases h
      · intro _ hs
        simp only [ne_eq, hs, not_true_eq_false, if_false]
      · intro h
        cases h

theorem updateConnection_status_backup_witness :
    (updateConnectionStatus (examplePool false) (keyOnlyHost "free") "loc" "h1"
        "_yorc/hosts-pool/loc/h1/status" = some "error" ∧
      updateConnectionStatus (examplePool false) (keyOnlyHost "free") "loc" "h1"
        "_yorc/hosts-pool/loc/h1/status_backup" = some "free") ∧
    updateConnectionStatus (examplePool true)
        ((keyOnlyHost "error").put "_yorc/hosts-pool/loc/h1/status_backup" "allocated") "loc" "h1"
        "_yorc/hosts-pool/loc/h1/status" = some "allocated" ∧
    (updateConnectionWait (examplePool false) (keyOnlyHost "free") "loc" "h1" noChange).2
        "_yorc/hosts-pool/loc/h1/status_backup" = some "free" := by
  have h1 := (updateConnection_status_backup (examplePool false) (keyOnlyHost "free") "loc" "h1"
    0 rfl).1.1 (by decide) (by decide)
  have h2 := (updateConnection_status_backup (examplePool true)
    ((keyOnlyHost "error").put "_yorc/hosts-pool/loc/h1/status_backup" "allocated") "loc" "h1"
    2 rfl).1.2.1 (by decide) rfl
  have h3 := ((updateConnection_status_backup (examplePool false) (keyOnlyHost "free") "loc" "h1"
    0 rfl).2 noChange [] (by decide) (by decide) rfl rfl rfl).2.1 (by decide) (by decide)
  rw [h1, h2, h3]
  exact ⟨⟨by decide, by decide⟩, by decide, by decide⟩

/-- C27. A host that holds a private key and no password receives the `Connection`
argument with `-` for both `PrivateKey` and `Password`: the first block resets
`conn.PrivateKey` to the empty string, so the test `conn.PrivateKey == "-"` of the second
block no longer fires, the transaction sets both keys to the empty string and the host
is left with neither a password nor a private key.  The same argument is rejected for a
host that holds a password only. -/
theorem updateConnectionWait_clears_both_credentials :
    (GetHostConnection (examplePool true) (keyOnlyHost "free") "loc" "h1").toOption.map
        (fun c => (c.Password, c.PrivateKey)) = some ("", "~/.ssh/id_rsa") ∧
    (connectionOps (examplePool true) (keyOnlyHost "free") "loc" "h1"
        { noChange with PrivateKey := "-", Password := "-" }).toOption =
      some [{ Key := "_yorc/hosts-pool/loc/h1/connection/private_key", Value := "" },
            { Key := "_yorc/hosts-pool/loc/h1/connection/password", Value := "" }] ∧
    (updateConnectionWait (examplePool true) (keyOnlyHost "free") "loc" "h1"
        { noChange with PrivateKey := "-", Password := "-" }).1 = none ∧
    (GetHostConnection (examplePool true)
        (updateConnectionWait (examplePool true) (keyOnlyHost "free") "loc" "h1"
          { noChange with PrivateKey := "-", Password := "-" }).2 "loc" "h1").toOption.map
        (fun c => (c.Password, c.PrivateKey)) = some ("", "") ∧
    (updateConnectionWait (examplePool true) (passwordOnlyHost "free") "loc" "h2"
        { noChange with PrivateKey := "-", Password := "-" }).1 =
      some "at any time at least one of \"password\" or \"private_key\" is required" := by
  refine ⟨by decide, by decide, by decide, by decide, by decide⟩

/-! ## C26 and C30: extra flags of the server command -/

theorem dropPrefix?_append : ∀ (pre s : List Char), dropPrefix? (pre ++ s) pre = some s := by
  intro pre
  induction pre with
  | nil => intro s; cases s <;> rfl
  | cons c pre ih => intro s; simp [dropPrefix?, ih]

theorem replaceAux_zero (old new : List Char) (s : List Char) :
    replaceAux old new s 0 0 = s := by
  cases s <;> rfl

theorem replaceAux_skip (old new : List Char) (n : Nat) :
    ∀ (xs t : List Char), replaceAux old new (xs ++ t) n xs.length = replaceAux old new t n 0 := by
  intro xs
  induction xs with
  | nil => intro t; rfl
  | cons x xs ih =>
    intro t
    simp only [List.cons_append, List.length_cons]
    rw [replaceAux]
    exact ih t

theorem replaceAux_match (c : Char) (old new t : List Char) (n : Nat) :
    replaceAux (c :: old) new ((c :: old) ++ t) (n + 1) 0 =
      new ++ replaceAux (c :: old) new t n 0 := by
  have h := dropPrefix?_append (c :: old) t
  simp only [List.cons_append] at h ⊢
  rw [replaceAux, h]
  simp only [Option.isSome_some, if_true, List.length_cons, Nat.add_sub_cancel]
  rw [replaceAux_skip]

theorem replaceAux_char_append (a b : Char) (n : Nat) :
    ∀ (xs t : List Char), a ∉ xs →
      replaceAux [a] [b] (xs ++ t) (n + 1) 0 = xs ++ replaceAux [a] [b] t (n + 1) 0 := by
  intro xs
  induction xs with
  | nil => intro t _; rfl
  | cons x xs ih =>
    intro t h
    simp only [List.mem_cons, not_or] at h
    have hx : ¬ x = a := fun e => h.1 e.symm
    simp only [List.cons_append]
    rw [replaceAux]
    simp only [dropPrefix?, hx, if_false, Option.isSome_none, Bool.false_eq_true]
    rw [ih t h.2]

theorem replaceAux_char_first (a b : Char) (xs t : List Char) (h : a ∉ xs) :
    replaceAux [a] [b] (xs ++ a :: t) 1 0 = xs ++ b :: t := by
  rw [replaceAux_char_append a b 0 xs (a :: t) h]
  have h1 := replaceAux_match a [] [b] t 0
  simp only [List.nil_append, List.cons_append] at h1
  rw [h1, replaceAux_zero]

theorem splitAux_length (sep : Char) :
    ∀ (s cur : List Char), (splitAux sep s cur).length = 1 + s.count sep := by
  intro s
  induction s with
  | nil => intro cur; rfl
  | cons c s ih =>
    intro cur
    rw [splitAux]
    by_cases h : c = sep
    · subst h
      simp only [if_true, List.length_cons, ih, List.count_cons_self]
      omega
    · simp only [h, if_false, ih]
      rw [List.count_cons_of_ne (Ne.symm h)]

theorem splitAux_head (sep : Char) :
    ∀ (s cur : List Char),
      (splitAux sep s cur).headD "" =
        String.mk (cur.reverse ++ s.takeWhile (fun c => c != sep)) := by
  intro s
  induction s with
  | nil => intro cur; simp [splitAux]
  | cons c s ih =>
    intro cur
    rw [splitAux]
    by_cases h : c = sep
    · subst h
      simp
    · have hb : (c != sep) = true := by simp [h]
      simp only [h, if_false, ih]
      simp [List.takeWhile, hb]

theorem takeWhile_of_not_mem (sep : Char) (s : List Char) (h : sep ∉ s) :
    s.takeWhile (fun c => c != sep) = s := by
  induction s with
  | nil => rfl
  | cons c s ih =>
    simp only [List.mem_cons, not_or] at h
    have hc : (c != sep) = true := by
      have : c ≠ sep := fun e => h.1 e.symm
      simp [this]
    simp [List.takeWhile, hc, ih h.2]

theorem takeWhile_append_sep (sep : Char) (s t : List Char) (h : sep ∉ s) :
    (s ++ sep :: t).takeWhile (fun c => c != sep) = s := by
  induction s with
  | nil => simp [List.takeWhile]
  | cons c s ih =>
    simp only [List.mem_cons, not_or] at h
    have hc : (c != sep) = true := by
      have : c ≠ sep := fun e => h.1 e.symm
      simp [this]
    simp [List.takeWhile, hc, ih h.2]

theorem char_upper_facts (c : Char) (h : c.toNat < 128) :
    (c.isUpper = false → c.toUpper.toLower = c) ∧ (c.toUpper = '_' → c = '_') ∧
    (c.toUpper = '=' → c = '=') := by
  rw [← Char.ofNat_toNat c]
  generalize c.toNat = n at h
  interval_cases n <;> decide

theorem flagNameOf_dashes (c : Char) (body : List Char) (hc : c ≠ '-') :
    flagNameOf (String.mk ('-' :: '-' :: c :: body)) =
      String.mk ((c :: body).takeWhile (fun x => x != '=')) := by
  unfold flagNameOf ContainsRune TrimLeft
  have hd : "-".data = ['-'] := rfl
  by_cases h : '=' ∈ c :: body
  · have h1 : ('-' :: '-' :: c :: body).contains '=' = true := by
      simp only [List.mem_cons] at h
      simp
      exact h
    simp only [h1, if_true, Split, splitAux_head, hd]
    by_cases hce : c = '='
    · subst hce
      simp [List.takeWhile, List.dropWhile]
    · have hb : (c != '=') = true := by simp [hce]
      simp [List.takeWhile, List.dropWhile, hb, hc]
  · have h1 : ('-' :: '-' :: c :: body).contains '=' = false := by
      have h0 := h
      simp only [List.mem_cons, not_or] at h0
      simp
      exact ⟨h0.1, h0.2⟩
    simp only [h1, Bool.false_eq_true, if_false, hd]
    rw [takeWhile_of_not_mem '=' (c :: body) h]
    simp [List.dropWhile, hc]

theorem viperNameOf_infra (r : List Char) :
    viperNameOf infraExtraParams (String.mk ("infrastructure_".data ++ r)) =
      String.mk ("infrastructures.".data ++ replaceAux ['_'] ['.'] r 1 0) := by
  unfold viperNameOf Replace
  simp only [infraExtraParams]
  rw [replaceAux_match, replaceAux_zero, replaceAux_char_append '_' '.' 0 _ r (by decide)]

theorem viperNameOf_vault (r : List Char) :
    viperNameOf vaultExtraParams (String.mk ("vault_".data ++ r)) =
      String.mk ("vault.".data ++ r) := by
  unfold viperNameOf Replace
  simp only [vaultExtraParams]
  rw [replaceAux_match, replaceAux_zero, replaceAux_zero]

theorem envViperNameOf_infra (P K : List Char) (h : '_' ∉ P) :
    envViperNameOf infraExtraParams (String.mk ("YORC_INFRA_".data ++ (P ++ '_' :: K))) =
      String.mk ("infrastructures.".data ++ (P.map Char.toLower ++ '.' :: K.map Char.toLower)) := by
  unfold envViperNameOf Replace ToLower
  simp only [infraExtraParams]
  rw [replaceAux_match, replaceAux_zero, ← List.append_assoc,
    replaceAux_char_first '_' '.' _ K]
  · simp only [List.map_append, List.map_cons, List.append_assoc]
    rfl
  · simp only [List.mem_append, not_or]
    exact ⟨by decide, h⟩

theorem envViperNameOf_vault (K : List Char) :
    envViperNameOf vaultExtraParams (String.mk ("YORC_VAULT_".data ++ K)) =
      String.mk ("vault.".data ++ K.map Char.toLower) := by
  unfold envViperNameOf Replace ToLower
  simp only [vaultExtraParams]
  rw [replaceAux_match, replaceAux_zero, replaceAux_zero]
  simp only [List.map_append]
  rfl

theorem argsLoop_bindPFlag (sep : serverExtraParams) :
    ∀ (args : List String) (arg : String), arg ∈ args →
      HasPrefix arg ("--" ++ sep.argPrefix) = true →
      ViperCall.bindPFlag (viperNameOf sep (flagNameOf arg)) (flagNameOf arg) ∈
          (argsLoop sep args).1 ∧
        viperNameOf sep (flagNameOf arg) ∈ (argsLoop sep args).2 := by
  intro args
  induction args with
  | nil => intro arg h; cases h
  | cons a rest ih =>
    intro arg hmem hpre
    rw [argsLoop]
    rcases List.mem_cons.1 hmem with e | e
    · subst e
      simp only [hpre, if_true]
      refine ⟨List.mem_append_left _ ?_, List.mem_cons_self _ _⟩
      unfold argCalls
      split
      · exact List.mem_append_right _ (List.mem_singleton.2 rfl)
      · exact List.mem_append_right _ (List.mem_singleton.2 rfl)
    · have h := ih arg e hpre
      split
      · exact ⟨List.mem_append_right _ h.1, List.mem_cons_of_mem _ h.2⟩
      · exact h

theorem envLoop_names_mono (sep : serverExtraParams) :
    ∀ (environ names : List String) (x : String), x ∈ names → x ∈ (envLoop sep environ names).2 := by
  intro environ
  induction environ with
  | nil => intro names x h; exact h
  | cons e rest ih =>
    intro names x h
    rw [envLoop]
    split
    · simp only
      apply ih
      split
      · exact h
      · exact List.mem_append_left _ h
    · exact ih names x h

theorem envLoop_bindEnv (sep : serverExtraParams) :
    ∀ (environ names : List String) (envVar : String), envVar ∈ environ →
      HasPrefix envVar sep.envPrefix = true →
      ViperCall.bindEnv (envViperNameOf sep ((SplitN2 envVar '=').headD ""))
          ((SplitN2 envVar '=').headD "") ∈ (envLoop sep environ names).1 ∧
        envViperNameOf sep ((SplitN2 envVar '=').headD "") ∈ (envLoop sep environ names).2 := by
  intro environ
  induction environ with
  | nil => intro names envVar h; cases h
  | cons e rest ih =>
    intro names envVar hmem hpre
    rw [envLoop]
    rcases List.mem_cons.1 hmem with h | h
    · subst h
      simp only [hpre, if_true]
      refine ⟨List.mem_cons_self _ _, ?_⟩
      apply envLoop_names_mono
      split
      · rename_i hc
        simpa using hc
      · exact List.mem_append_right _ (List.mem_singleton.2 rfl)
    · have h1 := ih
      split
      · simp only
        exact ⟨List.mem_cons_of_mem _ (ih _ envVar h hpre).1, (ih _ envVar h hpre).2⟩
      · exact ih names envVar h hpre

theorem lowerName_facts {s : String} (h : lowerName s = true) :
    ∀ c ∈ s.data, c.toNat < 128 ∧ c.isUpper = false ∧ c ≠ '=' := by
  intro c hc
  unfold lowerName at h
  have h1 := List.all_eq_true.1 h c hc
  simp only [Bool.and_eq_true, decide_eq_true_eq, Bool.not_eq_true', bne_iff_ne, ne_eq] at h1
  exact ⟨h1.1.1, h1.1.2, h1.2⟩

theorem lowerName_upper {s : String} (h : lowerName s = true) :
    (s.data.map Char.toUpper).map Char.toLower = s.data ∧
    '=' ∉ s.data.map Char.toUpper ∧
    ('_' ∉ s.data → '_' ∉ s.data.map Char.toUpper) := by
  have hf := lowerName_facts h
  refine ⟨?_, ?_, ?_⟩
  · rw [List.map_map]
    conv_rhs => rw [← List.map_id s.data]
    apply List.map_congr_left
    intro c hc
    exact (char_upper_facts c (hf c hc).1).1 (hf c hc).2.1
  · intro hmem
    obtain ⟨c, hc, he⟩ := List.mem_map.1 hmem
    exact (hf c hc).2.2 ((char_upper_facts c (hf c hc).1).2.2 he)
  · intro hno hmem
    obtain ⟨c, hc, he⟩ := List.mem_map.1 hmem
    exact hno (((char_upper_facts c (hf c hc).1).2.1 he) ▸ hc)

theorem SplitN2_head (name value : List Char) (h : '=' ∉ name) :
    (SplitN2 (String.mk (name ++ '=' :: value)) '=').headD "" = String.mk name := by
  unfold SplitN2
  have h1 : (name ++ '=' :: value).contains '=' = true := by simp
  simp only [h1, if_true, List.headD_cons, takeWhile_append_sep '=' name value h]

theorem HasPrefix_append (pre rest : List Char) :
    HasPrefix (String.mk (pre ++ rest)) (String.mk pre) = true := by
  unfold HasPrefix
  simp only [dropPrefix?_append, Option.isSome_some]

theorem infra_flag_binding (p k : List Char) (args : List String)
    (hp : '=' ∉ p) (hk : '=' ∉ k) (hu : '_' ∉ p)
    (hmem : String.mk ("--infrastructure_".data ++ (p ++ '_' :: k)) ∈ args) :
    ViperCall.bindPFlag (String.mk ("infrastructures.".data ++ (p ++ '.' :: k)))
        (String.mk ("infrastructure_".data ++ (p ++ '_' :: k))) ∈
      (argsLoop infraExtraParams args).1 := by
  have hpre : HasPrefix (String.mk ("--infrastructure_".data ++ (p ++ '_' :: k)))
      ("--" ++ infraExtraParams.argPrefix) = true :=
    HasPrefix_append "--infrastructure_".data (p ++ '_' :: k)
  have h := (argsLoop_bindPFlag infraExtraParams args _ hmem hpre).1
  have hne : '=' ∉ 'i' :: ("nfrastructure_".data ++ (p ++ '_' :: k)) := by
    simp only [List.mem_cons, List.mem_append, not_or]
    exact ⟨by decide, by decide, hp, by decide, hk⟩
  have hflag : flagNameOf (String.mk ("--infrastructure_".data ++ (p ++ '_' :: k))) =
      String.mk ("infrastructure_".data ++ (p ++ '_' :: k)) := by
    have := flagNameOf_dashes 'i' ("nfrastructure_".data ++ (p ++ '_' :: k)) (by decide)
    rw [takeWhile_of_not_mem '=' _ hne] at this
    exact this
  rw [hflag, viperNameOf_infra, replaceAux_char_first '_' '.' p k hu] at h
  exact h

theorem vault_flag_binding (k : List Char) (args : List String) (hk : '=' ∉ k)
    (hmem : String.mk ("--vault_".data ++ k) ∈ args) :
    ViperCall.bindPFlag (String.mk ("vault.".data ++ k)) (String.mk ("vault_".data ++ k)) ∈
      (argsLoop vaultExtraParams args).1 := by
  have hpre : HasPrefix (String.mk ("--vault_".data ++ k))
      ("--" ++ vaultExtraParams.argPrefix) = true :=
    HasPrefix_append "--vault_".data k
  have h := (argsLoop_bindPFlag vaultExtraParams args _ hmem hpre).1
  have hne : '=' ∉ 'v' :: ("ault_".data ++ k) := by
    simp only [List.mem_cons, List.mem_append, not_or]
    exact ⟨by decide, by decide, hk⟩
  have hflag : flagNameOf (String.mk ("--vault_".data ++ k)) =
      String.mk ("vault_".data ++ k) := by
    have := flagNameOf_dashes 'v' ("ault_".data ++ k) (by decide)
    rw [takeWhile_of_not_mem '=' _ hne] at this
    exact this
  rw [hflag, viperNameOf_vault] at h
  exact h

theorem infra_env_binding (P K value : List Char) (environ names : List String)
    (hP : '=' ∉ P) (hK : '=' ∉ K) (hu : '_' ∉ P)
    (hmem : String.mk (("YORC_INFRA_".data ++ (P ++ '_' :: K)) ++ '=' :: value) ∈ environ) :
    ViperCall.bindEnv
        (String.mk ("infrastructures.".data ++ (P.map Char.toLower ++ '.' :: K.map Char.toLower)))
        (String.mk ("YORC_INFRA_".data ++ (P ++ '_' :: K))) ∈
      (envLoop infraExtraParams environ names).1 := by
  have hpre : HasPrefix (String.mk (("YORC_INFRA_".data ++ (P ++ '_' :: K)) ++ '=' :: value))
      infraExtraParams.envPrefix = true := by
    rw [List.append_assoc]
    exact HasPrefix_append "YORC_INFRA_".data _
  have h := (envLoop_bindEnv infraExtraParams environ names _ hmem hpre).1
  have hne : '=' ∉ "YORC_INFRA_".data ++ (P ++ '_' :: K) := by
    simp only [List.mem_cons, List.mem_append, not_or]
    exact ⟨by decide, hP, by decide, hK⟩
  rw [SplitN2_head _ value hne, envViperNameOf_infra P K hu] at h
  exact h

theorem vault_env_binding (K value : List Char) (environ names : List String) (hK : '=' ∉ K)
    (hmem : String.mk (("YORC_VAULT_".data ++ K) ++ '=' :: value) ∈ environ) :
    ViperCall.bindEnv (String.mk ("vault.".data ++ K.map Char.toLower))
        (String.mk ("YORC_VAULT_".data ++ K)) ∈
      (envLoop vaultExtraParams environ names).1 := by
  have hpre : HasPrefix (String.mk (("YORC_VAULT_".data ++ K) ++ '=' :: value))
      vaultExtraParams.envPrefix = true := by
    rw [List.append_assoc]
    exact HasPrefix_append "YORC_VAULT_".data _
  have h := (envLoop_bindEnv vaultExtraParams environ names _ hmem hpre).1
  have hne : '=' ∉ "YORC_VAULT_".data ++ K := by
    simp only [List.mem_append, not_or]
    exact ⟨by decide, hK⟩
  rw [SplitN2_head _ value hne, envViperNameOf_vault K] at h
  exact h

/-- C26. For every provider name `p` and key `k` written in lower-case ASCII without
`=`, `p` without underscore: when `--infrastructure_<p>_<k>` is among the arguments,
`serverInitExtraFlags` binds that flag to the viper key `infrastructures.<p>.<k>`, and
when the environment holds `YORC_INFRA_<P>_<K>` (upper-cased `p` and `k`) it binds that
variable to the same key; likewise `--vault_<k>` and `YORC_VAULT_<K>` are both bound to
`vault.<k>`. -/
theorem serverInitExtraFlags_same_key (p k v : String) (args environ : List String)
    (hp : lowerName p = true) (hk : lowerName k = true) (hu : '_' ∉ p.data) :
    ("--infrastructure_" ++ p ++ "_" ++ k ∈ args →
      ViperCall.bindPFlag ("infrastructures." ++ p ++ "." ++ k)
          ("infrastructure_" ++ p ++ "_" ++ k) ∈ (serverInitExtraFlags args environ).1) ∧
    ("YORC_INFRA_" ++ ToUpper p ++ "_" ++ ToUpper k ++ "=" ++ v ∈ environ →
      ViperCall.bindEnv ("infrastructures." ++ p ++ "." ++ k)
          ("YORC_INFRA_" ++ ToUpper p ++ "_" ++ ToUpper k) ∈
        (serverInitExtraFlags args environ).1) ∧
    ("--vault_" ++ k ∈ args →
      ViperCall.bindPFlag ("vault." ++ k) ("vault_" ++ k) ∈
        (serverInitExtraFlags args environ).1) ∧
    ("YORC_VAULT_" ++ ToUpper k ++ "=" ++ v ∈ environ →
      ViperCall.bindEnv ("vault." ++ k) ("YORC_VAULT_" ++ ToUpper k) ∈
        (serverInitExtraFlags args environ).1) := by
  have hpe : '=' ∉ p.data := fun h => (lowerName_facts hp _ h).2.2 rfl
  have hke : '=' ∉ k.data := fun h => (lowerName_facts hk _ h).2.2 rfl
  obtain ⟨hpl, hpu, hpn⟩ := lowerName_upper hp
  obtain ⟨hkl, hku, _⟩ := lowerName_upper hk
  have hcalls : (serverInitExtraFlags args environ).1 =
      ((argsLoop infraExtraParams args).1 ++
        (envLoop infraExtraParams environ
          (infraExtraParams.viperNames ++ (argsLoop infraExtraParams args).2)).1) ++
      ((argsLoop vaultExtraParams args).1 ++
        (envLoop vaultExtraParams environ
          (vaultExtraParams.viperNames ++ (argsLoop vaultExtraParams args).2)).1) := rfl
  rw [hcalls]
  refine ⟨?_, ?_, ?_, ?_⟩
  · intro hmem
    have e1 : "--infrastructure_" ++ p ++ "_" ++ k =
        String.mk ("--infrastructure_".data ++ (p.data ++ '_' :: k.data)) := by
      apply String.ext
      simp [String.data_append]
    have e2 : "infrastructures." ++ p ++ "." ++ k =
        String.mk ("infrastructures.".data ++ (p.data ++ '.' :: k.data)) := by
      apply String.ext
      simp [String.data_append]
    have e3 : "infrastructure_" ++ p ++ "_" ++ k =
        String.mk ("infrastructure_".data ++ (p.data ++ '_' :: k.data)) := by
      apply String.ext
      simp [String.data_append]
    rw [e1] at hmem
    rw [e2, e3]
    exact List.mem_append_left _ (List.mem_append_left _
      (infra_flag_binding p.data k.data args hpe hke hu hmem))
  · intro hmem
    have e1 : "YORC_INFRA_" ++ ToUpper p ++ "_" ++ ToUpper k ++ "=" ++ v =
        String.mk (("YORC_INFRA_".data ++
          (p.data.map Char.toUpper ++ '_' :: k.data.map Char.toUpper)) ++ '=' :: v.data) := by
      apply String.ext
      simp [String.data_append, ToUpper]
    have e2 : "infrastructures." ++ p ++ "." ++ k =
        String.mk ("infrastructures.".data ++
          ((p.data.map Char.toUpper).map Char.toLower ++
            '.' :: (k.data.map Char.toUpper).map Char.toLower)) := by
      rw [hpl, hkl]
      apply String.ext
      simp [String.data_append]
    have e3 : "YORC_INFRA_" ++ ToUpper p ++ "_" ++ ToUpper k =
        String.mk ("YORC_INFRA_".data ++
          (p.data.map Char.toUpper ++ '_' :: k.data.map Char.toUpper)) := by
      apply String.ext
      simp [String.data_append, ToUpper]
    rw [e1] at hmem
    rw [e2, e3]
    exact List.mem_append_left _ (List.mem_append_right _
      (infra_env_binding _ _ v.data environ _ hpu hku (hpn hu) hmem))
  · intro hmem
    have e1 : "--vault_" ++ k = String.mk ("--vault_".data ++ k.data) := by
      apply String.ext
      simp [String.data_append]
    have e2 : "vault." ++ k = String.mk ("vault.".data ++ k.data) := by
      apply String.ext
      simp [String.data_append]
    have e3 : "vault_" ++ k = String.mk ("vault_".data ++ k.data) := by
      apply String.ext
      simp [String.data_append]
    rw [e1] at hmem
    rw [e2, e3]
    exact List.mem_append_right _ (List.mem_append_left _
      (vault_flag_binding k.data args hke hmem))
  · intro hmem
    have e1 : "YORC_VAULT_" ++ ToUpper k ++ "=" ++ v =
        String.mk (("YORC_VAULT_".data ++ k.data.map Char.toUpper) ++ '=' :: v.data) := by
      apply String.ext
      simp [String.data_append, ToUpper]
    have e2 : "vault." ++ k =
        String.mk ("vault.".data ++ (k.data.map Char.toUpper).map Char.toLower) := by
      rw [hkl]
      apply String.ext
      simp [String.data_append]
    have e3 : "YORC_VAULT_" ++ ToUpper k =
        String.mk ("YORC_VAULT_".data ++ k.data.map Char.toUpper) := by
      apply String.ext
      simp [String.data_append, ToUpper]
    rw [e1] at hmem
    rw [e2, e3]
    exact List.mem_append_right _ (List.mem_append_right _
      (vault_env_binding _ v.data environ _ hku hmem))

theorem serverInitExtraFlags_same_key_witness :
    (ViperCall.bindPFlag "infrastructures.aws.region" "infrastructure_aws_region" ∈
        (serverInitExtraFlags ["yorc", "server", "--infrastructure_aws_region", "eu-west-1",
          "--vault_region"] ["YORC_INFRA_AWS_REGION=eu", "YORC_VAULT_REGION=eu"]).1 ∧
      ViperCall.bindEnv "infrastructures.aws.region" "YORC_INFRA_AWS_REGION" ∈
        (serverInitExtraFlags ["yorc", "server", "--infrastructure_aws_region", "eu-west-1",
          "--vault_region"] ["YORC_INFRA_AWS_REGION=eu", "YORC_VAULT_REGION=eu"]).1) ∧
    (ViperCall.bindPFlag "vault.region" "vault_region" ∈
        (serverInitExtraFlags ["yorc", "server", "--infrastructure_aws_region", "eu-west-1",
          "--vault_region"] ["YORC_INFRA_AWS_REGION=eu", "YORC_VAULT_REGION=eu"]).1 ∧
      ViperCall.bindEnv "vault.region" "YORC_VAULT_REGION" ∈
        (serverInitExtraFlags ["yorc", "server", "--infrastructure_aws_region", "eu-west-1",
          "--vault_region"] ["YORC_INFRA_AWS_REGION=eu", "YORC_VAULT_REGION=eu"]).1) := by
  have h := serverInitExtraFlags_same_key "aws" "region" "eu"
    ["yorc", "server", "--infrastructure_aws_region", "eu-west-1", "--vault_region"]
    ["YORC_INFRA_AWS_REGION=eu", "YORC_VAULT_REGION=eu"] (by decide) (by decide) (by decide)
  exact ⟨⟨h.1 (by decide), h.2.1 (by decide)⟩, h.2.2.1 (by decide), h.2.2.2 (by decide)⟩

theorem dropPrefix?_eq_some :
    ∀ (pre s r : List Char), dropPrefix? s pre = some r → s = pre ++ r := by
  intro pre
  induction pre with
  | nil =>
    intro s r h
    cases s <;> simp [dropPrefix?] at h <;> simp [h]
  | cons c pre ih =>
    intro s r h
    cases s with
    | nil => simp [dropPrefix?] at h
    | cons d s =>
      simp only [dropPrefix?] at h
      by_cases e : d = c
      · simp only [e, if_true] at h
        rw [e, ih s r h]
        rfl
      · simp only [e, if_false] at h
        cases h

theorem replaceAux_has_dot :
    ∀ (r : List Char), (∃ c ∈ r, c = '_' ∨ c = '.') → '.' ∈ replaceAux ['_'] ['.'] r 1 0 := by
  intro r
  induction r with
  | nil => intro h; obtain ⟨c, hc, _⟩ := h; cases hc
  | cons x r ih =>
    intro h
    rw [replaceAux]
    by_cases hx : x = '_'
    · subst hx
      simp [dropPrefix?]
    · simp only [dropPrefix?, hx, if_false, Option.isSome_none, Bool.false_eq_true]
      obtain ⟨c, hc, hcc⟩ := h
      rcases List.mem_cons.1 hc with e | e
      · subst e
        rcases hcc with e1 | e1
        · exact absurd e1 hx
        · rw [e1]
          exact List.mem_cons_self _ _
      · exact List.mem_cons_of_mem _ (ih ⟨c, e, hcc⟩)

theorem flagNameOf_infra (arg : String) (hpre : HasPrefix arg "--infrastructure_" = true) :
    flagNameOf arg =
      String.mk ("infrastructure_".data ++ (flagNameOf arg).data.drop 15) := by
  unfold HasPrefix at hpre
  cases hd : dropPrefix? arg.data "--infrastructure_".data with
  | none => rw [hd] at hpre; cases hpre
  | some rest =>
    have harg : arg = String.mk ('-' :: '-' :: 'i' :: ("nfrastructure_".data ++ rest)) := by
      apply String.ext
      rw [dropPrefix?_eq_some _ _ _ hd]
      rfl
    have hflag : flagNameOf arg =
        String.mk ("infrastructure_".data ++ rest.takeWhile (fun x => x != '=')) := by
      rw [harg, flagNameOf_dashes 'i' _ (by decide)]
      have : 'i' :: ("nfrastructure_".data ++ rest) = "infrastructure_".data ++ rest := rfl
      rw [this, List.takeWhile_append_of_pos (by decide)]
    rw [hflag]
    simp

/-- C30 (amended). For every command-line argument that starts with
`--infrastructure_` and whose flag name has an underscore or a dot after that prefix,
the viper name that `serverInitExtraFlags` derives and records has at least three
dot-separated parts, and `addServerExtraInfraParams` reads parts 1 and 2 of it without
indexing out of range. -/
theorem serverInitExtraFlags_infra_parts (arg : String)
    (hpre : HasPrefix arg "--infrastructure_" = true)
    (hsep : ∃ c ∈ (flagNameOf arg).data.drop 15, c = '_' ∨ c = '.') :
    (∀ args environ, arg ∈ args →
      viperNameOf infraExtraParams (flagNameOf arg) ∈
        ((serverInitExtraFlags args environ).2.headD infraExtraParams).viperNames) ∧
    3 ≤ (Split (viperNameOf infraExtraParams (flagNameOf arg)) '.').length ∧
    ∀ (viperGet : String → String) (cfg : Configuration),
      ∃ cfg1, addServerExtraInfraParams viperGet cfg
        (viperNameOf infraExtraParams (flagNameOf arg)) = .ok cfg1 := by
  have hlen : 3 ≤ (Split (viperNameOf infraExtraParams (flagNameOf arg)) '.').length := by
    rw [flagNameOf_infra arg hpre, viperNameOf_infra]
    unfold Split
    rw [splitAux_length, List.count_append]
    have h1 : List.count '.' "infrastructures.".data = 1 := by decide
    have h2 := List.count_pos_iff.2 (replaceAux_has_dot _ hsep)
    omega
  refine ⟨?_, hlen, ?_⟩
  · intro args environ hmem
    have h := (argsLoop_bindPFlag infraExtraParams args arg hmem hpre).2
    exact envLoop_names_mono infraExtraParams environ _ _ (List.mem_append_right _ h)
  · intro viperGet cfg
    generalize viperNameOf infraExtraParams (flagNameOf arg) = v at hlen
    unfold addServerExtraInfraParams
    simp only [List.get?_eq_get (show 1 < (Split v '.').length by omega),
      List.get?_eq_get (show 2 < (Split v '.').length by omega)]
    exact ⟨_, rfl⟩

theorem serverInitExtraFlags_infra_parts_witness :
    3 ≤ (Split (viperNameOf infraExtraParams (flagNameOf "--infrastructure_aws_region=eu"))
      '.').length ∧
    viperNameOf infraExtraParams (flagNameOf "--infrastructure_aws_region=eu") =
      "infrastructures.aws.region" :=
  ⟨(serverInitExtraFlags_infra_parts "--infrastructure_aws_region=eu" (by decide)
      ⟨'_', by decide, .inl rfl⟩).2.1, by decide⟩

/-- C30 (counterexample). The argument `--infrastructure_openstack` starts with
`--infrastructure_`; the viper name recorded for it is `infrastructures.openstack`, which
has two dot-separated parts, and `addServerExtraInfraParams` panics on it when it reads
part 2. -/
theorem serverInitExtraFlags_infra_two_parts :
    HasPrefix "--infrastructure_openstack" "--infrastructure_" = true ∧
    (serverInitExtraFlags ["yorc", "server", "--infrastructure_openstack"] []).2.map
        (fun sep => sep.viperNames) = [["infrastructures.openstack"], []] ∧
    Split "infrastructures.openstack" '.' = ["infrastructures", "openstack"] ∧
    (∀ (viperGet : String → String) (cfg : Configuration),
      addServerExtraInfraParams viperGet cfg "infrastructures.openstack" =
        .panic "runtime error: index out of range [2] with length 2") :=
  ⟨by decide, by decide, by decide, fun _ _ => rfl⟩

end Yorc
